import Mathlib

/-!
# Grazelle: edge-vector codec, ingress, NUMA partitioning, merge reconciliation, drivers
and command line

A shallow embedding of the C sources `graphdata.c`, `phases.c`, `execution_bfs.c`,
`execution_pr.c`, `main.c`, `threads.c`, `numanodes.c` and `cmdline.c` of Grazelle.
Machine words (`uint64_t`) are natural numbers; arithmetic that can wrap carries an
explicit reduction modulo `2 ^ 64`, or modulo `2 ^ 32` for `uint32_t`.  Arrays indexed by
vertex or node ID are functions `Nat → Nat`; an array that is filled front to back together
with its element count is a list.  Values of type `double` are rational numbers.  Code that
can end the process returns an `Outcome`; operations written in assembly are parameters.
-/

namespace Grazelle

/-! ## Data model -/

/-- A 256-bit edge vector (`__m256i`), seen as four 64-bit lanes; `lane0` is the lane that
`_mm256_extract_epi64 (v, 0)` returns. -/
structure EdgeVector where
  lane0 : Nat
  lane1 : Nat
  lane2 : Nat
  lane3 : Nat
deriving DecidableEq, Repr

instance : Inhabited EdgeVector := ⟨⟨0, 0, 0, 0⟩⟩

/-- The lane selected by `_mm256_extract_epi64 (v, k)`. -/
def EdgeVector.lane (v : EdgeVector) (k : Nat) : Nat :=
  match k with
  | 0 => v.lane0
  | 1 => v.lane1
  | 2 => v.lane2
  | _ => v.lane3

/-- The macro `graph_macro_get_shared_vertex` of `graphdata.c`: the shared vertex ID,
reassembled from the four pieces stored in bits 62:48 of the lanes. -/
def graph_macro_get_shared_vertex (v : EdgeVector) : Nat :=
  ((v.lane0 &&& 0x7fff000000000000) >>> 48) |||
  ((v.lane1 &&& 0x7fff000000000000) >>> 33) |||
  ((v.lane2 &&& 0x7fff000000000000) >>> 18) |||
  ((v.lane3 &&& 0x0007000000000000) >>> 3)

/-- The local array `edge_shared_vertex_pieces` of `graph_helper_write_edge_vector`. -/
def edge_shared_vertex_pieces (shared_vertex_id : Nat) (k : Nat) : Nat :=
  match k with
  | 0 => (shared_vertex_id &&& 0x0000000000007fff) >>> 0
  | 1 => (shared_vertex_id &&& 0x000000003fff8000) >>> 15
  | 2 => (shared_vertex_id &&& 0x00001fffc0000000) >>> 30
  | _ => (shared_vertex_id &&& 0x0000e00000000000) >>> 45

/-- One argument of the `_mm256_set_epi64x` call in `graph_helper_write_edge_vector`:
valid bit, piece of the shared ID, individual ID, combined with bitwise or. -/
def edge_vector_lane (shared_vertex_id : Nat) (individual_vertex_ids : Nat → Nat)
    (individual_vertex_id_count : Nat) (k : Nat) : Nat :=
  (((if individual_vertex_id_count > k then 1 else 0) <<< 63) % 2 ^ 64) |||
    ((edge_shared_vertex_pieces shared_vertex_id k <<< 48) % 2 ^ 64) |||
    individual_vertex_ids k

/-- The edge vector composed by `graph_helper_write_edge_vector`. -/
def compose_edge_vector (shared_vertex_id : Nat) (individual_vertex_ids : Nat → Nat)
    (individual_vertex_id_count : Nat) : EdgeVector :=
  { lane3 := edge_vector_lane shared_vertex_id individual_vertex_ids individual_vertex_id_count 3
    lane2 := edge_vector_lane shared_vertex_id individual_vertex_ids individual_vertex_id_count 2
    lane1 := edge_vector_lane shared_vertex_id individual_vertex_ids individual_vertex_id_count 1
    lane0 := edge_vector_lane shared_vertex_id individual_vertex_ids individual_vertex_id_count 0 }

/-- The ingress globals that `graph_helper_write_edge_vector` updates.  The buffer
`graph_edge_list_block_bufs [0]` together with its fill count
`graph_edge_list_block_counts [0]` is the list `graph_edge_list_block_bufs`. -/
structure IngressState where
  graph_edge_list_block_bufs : List EdgeVector
  graph_edge_list_vector_count : Nat
  graph_edge_list_num_blocks : Nat
  graph_edge_list_block_first_shared_vertex : Nat
  graph_edge_list_block_last_shared_vertex : Nat

/-- The ingress globals as `graph_data_read_from_file` initialises them before a build. -/
def IngressState.init : IngressState :=
  { graph_edge_list_block_bufs := []
    graph_edge_list_vector_count := 0
    graph_edge_list_num_blocks := 0
    graph_edge_list_block_first_shared_vertex := 0
    graph_edge_list_block_last_shared_vertex := 0 }

/-- The function `graph_helper_write_edge_vector`: compose an edge vector, append it to the
block buffer, maintain the first and last shared vertex, and bump the counts. -/
def graph_helper_write_edge_vector (st : IngressState) (shared_vertex_id : Nat)
    (individual_vertex_ids : Nat → Nat) (individual_vertex_id_count : Nat)
    (_io_block_offset : Nat) : IngressState :=
  { st with
    graph_edge_list_block_bufs := st.graph_edge_list_block_bufs ++
      [compose_edge_vector shared_vertex_id individual_vertex_ids individual_vertex_id_count]
    graph_edge_list_block_first_shared_vertex :=
      if 0 = st.graph_edge_list_block_bufs.length then shared_vertex_id
      else st.graph_edge_list_block_first_shared_vertex
    graph_edge_list_block_last_shared_vertex := shared_vertex_id
    graph_edge_list_vector_count := (st.graph_edge_list_vector_count + 1) % 2 ^ 64 }

/-- The function `graph_helper_write_final_edge_vector`. -/
def graph_helper_write_final_edge_vector (st : IngressState) (vertex_common_id : Nat)
    (vertex_individual_ids : Nat → Nat) (vertex_individual_id_count : Nat)
    (io_block_offset : Nat) : IngressState :=
  { graph_helper_write_edge_vector st vertex_common_id vertex_individual_ids
      vertex_individual_id_count io_block_offset with
    graph_edge_list_num_blocks := 1 }

/-- Number of lanes of an edge vector whose valid bit (bit 63) is set, tested as in
`graph_helper_write_edges_to_file`. -/
def edge_vector_valid_lanes (v : EdgeVector) : Nat :=
  (if v.lane0 &&& 0x8000000000000000 ≠ 0 then 1 else 0) +
  (if v.lane1 &&& 0x8000000000000000 ≠ 0 then 1 else 0) +
  (if v.lane2 &&& 0x8000000000000000 ≠ 0 then 1 else 0) +
  (if v.lane3 &&& 0x8000000000000000 ≠ 0 then 1 else 0)

/-- The individual vertex ID of lane `k`, extracted as in `graph_helper_write_edges_to_file`. -/
def edge_vector_individual (v : EdgeVector) (k : Nat) : Nat :=
  v.lane k &&& 0x0000ffffffffffff

/-! ## Ingress consumers -/

/-- The stash of an edge-list consumer: four individual IDs, the shared ID and the fill
count. -/
structure Stash where
  ids : Nat → Nat
  shared : Nat
  count : Nat

/-- The stash as the consumers initialise it. -/
def Stash.init : Stash := { ids := fun _ => 0, shared := 0, count := 0 }

/-- The loop body of `graph_helper_gather_list_file_buf_consumer_edge_list` for one record
`(edge_source, edge_dest)`. -/
def gather_consume_edge (s : IngressState × Stash) (e : Nat × Nat) : IngressState × Stash :=
  let edge_source := e.1
  let edge_dest := e.2
  let s1 : IngressState × Stash :=
    if (0 ≠ s.2.count ∧ s.2.shared ≠ edge_dest) ∨ 4 = s.2.count then
      (graph_helper_write_edge_vector s.1 s.2.shared s.2.ids s.2.count 0, { s.2 with count := 0 })
    else s
  (s1.1, { shared := edge_dest
           ids := Function.update s1.2.ids s1.2.count edge_source
           count := s1.2.count + 1 })

/-- The function `graph_helper_gather_list_file_buf_consumer_edge_list`, run on the records
that the producer hands over, in file order; the result is the ingress state after the
final commit of the stash. -/
def graph_helper_gather_list_file_buf_consumer_edge_list (st : IngressState)
    (edges : List (Nat × Nat)) : IngressState :=
  let s := edges.foldl gather_consume_edge (st, Stash.init)
  graph_helper_write_final_edge_vector s.1 s.2.shared s.2.ids s.2.count 0

/-- The loop body of `graph_helper_scatter_list_file_buf_consumer_edge_list` for one record
`(edge_source, edge_dest)`; `gather_num_blocks` is `graph_edges_gather_list_num_blocks`. -/
def scatter_consume_edge (gather_num_blocks : Nat) (s : IngressState × Stash) (e : Nat × Nat) :
    IngressState × Stash :=
  let edge_source := e.1
  let edge_dest := e.2
  let s1 : IngressState × Stash :=
    if (0 ≠ s.2.count ∧ s.2.shared ≠ edge_source) ∨ 4 = s.2.count then
      (graph_helper_write_edge_vector s.1 s.2.shared s.2.ids s.2.count gather_num_blocks,
        { s.2 with count := 0 })
    else s
  (s1.1, { shared := edge_source
           ids := Function.update s1.2.ids s1.2.count edge_dest
           count := s1.2.count + 1 })

/-- The function `graph_helper_scatter_list_file_buf_consumer_edge_list`. -/
def graph_helper_scatter_list_file_buf_consumer_edge_list (gather_num_blocks : Nat)
    (st : IngressState) (edges : List (Nat × Nat)) : IngressState :=
  let s := edges.foldl (scatter_consume_edge gather_num_blocks) (st, Stash.init)
  graph_helper_write_final_edge_vector s.1 s.2.shared s.2.ids s.2.count 0

/-- The gather list built from a file: the block buffer after the gather consumer ran on
freshly initialised ingress globals. -/
def gather_list (edges : List (Nat × Nat)) : List EdgeVector :=
  (graph_helper_gather_list_file_buf_consumer_edge_list IngressState.init
    edges).graph_edge_list_block_bufs

/-- The scatter list built from a file. -/
def scatter_list (edges : List (Nat × Nat)) : List EdgeVector :=
  (graph_helper_scatter_list_file_buf_consumer_edge_list 1 IngressState.init
    edges).graph_edge_list_block_bufs

/-- Total number of valid lanes in a list of edge vectors. -/
def total_valid_lanes (vs : List EdgeVector) : Nat :=
  (vs.map edge_vector_valid_lanes).sum

/-- The maximal runs of consecutive records with the same destination, continuing a run of
`len` records with destination `d`; each run is returned as `(destination, length)`. -/
def dest_runs_from (d len : Nat) : List (Nat × Nat) → List (Nat × Nat)
  | [] => [(d, len)]
  | e :: es => if e.2 = d then dest_runs_from d (len + 1) es else (d, len) :: dest_runs_from e.2 1 es

/-- The maximal runs of consecutive records with the same destination, in file order. -/
def dest_runs : List (Nat × Nat) → List (Nat × Nat)
  | [] => []
  | e :: es => dest_runs_from e.2 1 es

/-- The packing that the specification describes for one run `(d, len)`: full vectors of four
valid lanes, followed by one vector with the remaining lanes when `len` is not a multiple
of four.  Each vector is given as `(shared endpoint, number of valid lanes)`. -/
def run_shape (r : Nat × Nat) : List (Nat × Nat) :=
  List.replicate (r.2 / 4) (r.1, 4) ++ (if r.2 % 4 = 0 then [] else [(r.1, r.2 % 4)])

/-- The observable header of an edge vector: its shared endpoint and its number of valid
lanes. -/
def edge_vector_header (v : EdgeVector) : Nat × Nat :=
  (graph_macro_get_shared_vertex v, edge_vector_valid_lanes v)

/-! ## Vertex index construction -/

/-- The shared vertex of the edge vector at offset `i` of an edge list. -/
def shared_at (edge_list_buf : List EdgeVector) (i : Nat) : Nat :=
  graph_macro_get_shared_vertex (edge_list_buf.getD i default)

/-- The result of `graph_helper_create_vertex_index`: the index array and the two values
written through `vertex_index_start` and `vertex_index_end`. -/
structure VertexIndex where
  vertex_index_buf : Nat → Nat
  vertex_index_start : Nat
  vertex_index_end : Nat

/-- A loop `for (i = start; ...; ++i) buf [i] = val` that runs `n` times. -/
def fill_loop : Nat → Nat → Nat → (Nat → Nat) → (Nat → Nat)
  | 0, _, _, buf => buf
  | n + 1, i, val, buf => fill_loop n ((i + 1) % 2 ^ 64) val (Function.update buf i val)

/-- The inner loop `while (last_vertex_indexed < (current_vertex_id - 1))` of
`graph_helper_create_vertex_index`, with a bound on the number of iterations; the result is
the final `last_vertex_indexed` and the index array. -/
def skip_loop : Nat → Nat → Nat → (Nat → Nat) → Nat × (Nat → Nat)
  | 0, last_vertex_indexed, _, buf => (last_vertex_indexed, buf)
  | fuel + 1, last_vertex_indexed, current_vertex_id, buf =>
    if last_vertex_indexed < (current_vertex_id + 2 ^ 64 - 1) % 2 ^ 64 then
      skip_loop fuel ((last_vertex_indexed + 1) % 2 ^ 64) current_vertex_id
        (Function.update buf ((last_vertex_indexed + 1) % 2 ^ 64) 0x7fffffffffffffff)
    else (last_vertex_indexed, buf)

/-- The body of the main loop of `graph_helper_create_vertex_index` at offset `i`; the state
is `(last_vertex_indexed, current_vertex_id, vertex_index_buf)`.  The inner loop gets as many
iterations as separate `last_vertex_indexed` from `current_vertex_id - 1`, which is when its
condition turns false. -/
def index_loop_body (edge_list_buf : List EdgeVector) (i : Nat)
    (s : Nat × Nat × (Nat → Nat)) : Nat × Nat × (Nat → Nat) :=
  let current_vertex_id := shared_at edge_list_buf i
  if s.1 ≠ current_vertex_id then
    let r := skip_loop ((current_vertex_id + 2 ^ 64 - 1) % 2 ^ 64 - s.1) s.1 current_vertex_id s.2.2
    (current_vertex_id, current_vertex_id, Function.update r.2 current_vertex_id i)
  else (s.1, current_vertex_id, s.2.2)

/-- The main loop `for (i = ...; i < edge_list_count; ++i)` of
`graph_helper_create_vertex_index`, with `n` iterations left. -/
def index_loop (edge_list_buf : List EdgeVector) :
    Nat → Nat → Nat × Nat × (Nat → Nat) → Nat × Nat × (Nat → Nat)
  | 0, _, s => s
  | n + 1, i, s => index_loop edge_list_buf n (i + 1) (index_loop_body edge_list_buf i s)

/-- The function `graph_helper_create_vertex_index`; `vertex_index_buf` is the index array
as allocated, before the call. -/
def graph_helper_create_vertex_index (edge_list_buf : List EdgeVector) (edge_list_count : Nat)
    (vertex_index_buf : Nat → Nat) (vertex_buf_count : Nat) : VertexIndex :=
  let current_vertex_id := shared_at edge_list_buf 0
  let buf1 := fill_loop current_vertex_id 0 0x7fffffffffffffff vertex_index_buf
  let buf2 := Function.update buf1 current_vertex_id 0
  let s := index_loop edge_list_buf (edge_list_count - 1) 1
    (current_vertex_id, current_vertex_id, buf2)
  { vertex_index_buf :=
      fill_loop (vertex_buf_count - (s.2.1 + 1) % 2 ^ 64) ((s.2.1 + 1) % 2 ^ 64)
        0xffffffffffffffff s.2.2
    vertex_index_start := current_vertex_id
    vertex_index_end := s.2.1 }

/-- Loop invariant of the main loop of `graph_helper_create_vertex_index` after the first
`k` edge vectors have been indexed: both running vertex IDs are the shared vertex of vector
`k - 1`; every vertex up to it that has not occurred holds the gap sentinel; every vertex
that has occurred holds the smallest offset at which it occurs. -/
def IndexInv (edge_list_buf : List EdgeVector) (k : Nat) (s : Nat × Nat × (Nat → Nat)) : Prop :=
  s.1 = shared_at edge_list_buf (k - 1) ∧ s.2.1 = shared_at edge_list_buf (k - 1) ∧
  (∀ v ≤ s.1, (∀ p < k, shared_at edge_list_buf p ≠ v) → s.2.2 v = 0x7fffffffffffffff) ∧
  (∀ p < k, shared_at edge_list_buf (s.2.2 (shared_at edge_list_buf p)) =
      shared_at edge_list_buf p ∧
    ∀ q < k, shared_at edge_list_buf q = shared_at edge_list_buf p →
      s.2.2 (shared_at edge_list_buf p) ≤ q)

/-- A slab used to exercise the vertex index: shared endpoints 2, 2, 5, 6. -/
def index_example_slab : List EdgeVector :=
  [compose_edge_vector 2 (fun i => i + 10) 4, compose_edge_vector 2 (fun i => i + 20) 1,
    compose_edge_vector 5 (fun i => i + 30) 3, compose_edge_vector 6 (fun i => i + 40) 2]

/-! ## NUMA partitioning -/

/-- The per-node edge lists: `block_bufs_numa i` is the buffer `..._block_bufs_numa [i][0]`
and `block_counts_numa i` the count `..._block_counts_numa [i][0]`. -/
structure NumaEdgeLists where
  block_bufs_numa : Nat → List EdgeVector
  block_counts_numa : Nat → Nat

/-- The local `start_edge_record` of the NUMA-izing loops, for `count` edge vectors. -/
def start_edge_record (count graph_num_numa_nodes i : Nat) : Nat :=
  ((count * i) % 2 ^ 64) / graph_num_numa_nodes

/-- The local `end_edge_record` of the NUMA-izing loops; `i + 1` is 32-bit arithmetic. -/
def end_edge_record (count graph_num_numa_nodes i : Nat) : Nat :=
  (((count * ((i + 1) % 2 ^ 32)) % 2 ^ 64) / graph_num_numa_nodes + 2 ^ 64 - 1) % 2 ^ 64

/-- The expression `end_edge_record - start_edge_record + 1ull`. -/
def edge_record_count (count graph_num_numa_nodes i : Nat) : Nat :=
  ((end_edge_record count graph_num_numa_nodes i + 2 ^ 64 -
      start_edge_record count graph_num_numa_nodes i) % 2 ^ 64 + 1) % 2 ^ 64

/-- The body of the slicing loop of `graph_helper_numaize_gather` for node `i`: the slice is
copied (`memcpy`) into the node's own buffer. -/
def numaize_gather_body (bufs : List EdgeVector) (graph_num_numa_nodes : Nat)
    (a : NumaEdgeLists) (i : Nat) : NumaEdgeLists :=
  { block_bufs_numa := Function.update a.block_bufs_numa i
      ((bufs.drop (start_edge_record bufs.length graph_num_numa_nodes i)).take
        (edge_record_count bufs.length graph_num_numa_nodes i))
    block_counts_numa := Function.update a.block_counts_numa i
      (edge_record_count bufs.length graph_num_numa_nodes i) }

/-- The slicing loop of `graph_helper_numaize_gather`, on the global edge-vector list
`bufs` (`graph_edge_list_block_bufs [0]`, with `graph_edge_list_block_counts [0]` elements). -/
def graph_helper_numaize_gather (graph_num_numa_nodes : Nat) (bufs : List EdgeVector)
    (a0 : NumaEdgeLists) : NumaEdgeLists :=
  (List.range graph_num_numa_nodes).foldl (numaize_gather_body bufs graph_num_numa_nodes) a0

/-- The body of the slicing loop of `graph_helper_numaize_scatter` for node `i`: node 0 keeps
the global buffer itself, the other nodes get a copy of their slice. -/
def numaize_scatter_body (bufs : List EdgeVector) (graph_num_numa_nodes : Nat)
    (a : NumaEdgeLists) (i : Nat) : NumaEdgeLists :=
  { block_bufs_numa := Function.update a.block_bufs_numa i
      (if i > 0 then
        (bufs.drop (start_edge_record bufs.length graph_num_numa_nodes i)).take
          (edge_record_count bufs.length graph_num_numa_nodes i)
      else bufs)
    block_counts_numa := Function.update a.block_counts_numa i
      (edge_record_count bufs.length graph_num_numa_nodes i) }

/-- The slicing loop of `graph_helper_numaize_scatter`. -/
def graph_helper_numaize_scatter (graph_num_numa_nodes : Nat) (bufs : List EdgeVector)
    (a0 : NumaEdgeLists) : NumaEdgeLists :=
  (List.range graph_num_numa_nodes).foldl (numaize_scatter_body bufs graph_num_numa_nodes) a0

/-- The slab of node `i`: the first `block_counts_numa i` vectors of its buffer. -/
def NumaEdgeLists.slab (a : NumaEdgeLists) (i : Nat) : List EdgeVector :=
  (a.block_bufs_numa i).take (a.block_counts_numa i)

/-- The vertex assignment arrays written by `graph_helper_numaize_vertices`. -/
structure VertexAssignment where
  graph_vertex_first_numa : Nat → Nat
  graph_vertex_last_numa : Nat → Nat
  graph_vertex_count_numa : Nat → Nat

/-- The shared vertex of the last vector of node `i`:
`graph_macro_get_shared_vertex (block_bufs_numa [i][0][block_counts_numa [i][0] - 1ull])`.
The index is computed in 64-bit arithmetic, as in the C source.  For a node with a count of
zero the index is `2 ^ 64 - 1` and the C code reads outside the buffer; the zero vector that
the list lookup yields there stands for no behaviour of the code, and what is proved about
the assignment of vertices is proved for nodes whose slab is non-empty and within its
buffer, where `last_shared_vertex_slab` identifies the vector read with the last vector of
the slab. -/
def last_shared_vertex (lists : NumaEdgeLists) (i : Nat) : Nat :=
  graph_macro_get_shared_vertex
    ((lists.block_bufs_numa i).getD ((lists.block_counts_numa i + 2 ^ 64 - 1) % 2 ^ 64) default)

/-- The body of the assignment loop of `graph_helper_numaize_vertices` for node `i`. -/
def numaize_vertices_body (graph_num_numa_nodes graph_num_vertices : Nat)
    (lists : NumaEdgeLists) (a : VertexAssignment) (i : Nat) : VertexAssignment :=
  let first := if i > 0 then (a.graph_vertex_last_numa (i - 1) + 1) % 2 ^ 64 else 0
  let last :=
    if i < (graph_num_numa_nodes + 2 ^ 64 - 1) % 2 ^ 64 then
      (last_shared_vertex lists i +
        (511 + 2 ^ 64 - (last_shared_vertex lists i &&& 511)) % 2 ^ 64) % 2 ^ 64
    else (graph_num_vertices + 2 ^ 64 - 1) % 2 ^ 64
  { graph_vertex_first_numa := Function.update a.graph_vertex_first_numa i first
    graph_vertex_last_numa := Function.update a.graph_vertex_last_numa i last
    graph_vertex_count_numa := Function.update a.graph_vertex_count_numa i
      (((last + 2 ^ 64 - first) % 2 ^ 64 + 1) % 2 ^ 64) }

/-- The assignment loop of `graph_helper_numaize_vertices`; `lists` are the per-node gather
lists and `a0` the arrays as allocated. -/
def graph_helper_numaize_vertices (graph_num_numa_nodes graph_num_vertices : Nat)
    (lists : NumaEdgeLists) (a0 : VertexAssignment) : VertexAssignment :=
  (List.range graph_num_numa_nodes).foldl
    (numaize_vertices_body graph_num_numa_nodes graph_num_vertices lists) a0

/-- Per-node edge lists and vertex assignment arrays before they are written. -/
def NumaEdgeLists.blank : NumaEdgeLists :=
  { block_bufs_numa := fun _ => [], block_counts_numa := fun _ => 0 }

/-- Vertex assignment arrays before they are written. -/
def VertexAssignment.blank : VertexAssignment :=
  { graph_vertex_first_numa := fun _ => 0
    graph_vertex_last_numa := fun _ => 0
    graph_vertex_count_numa := fun _ => 0 }

/-- The value that the loop of `graph_helper_numaize_vertices` stores in
`graph_vertex_last_numa [i]`; it does not depend on the other nodes. -/
def vertex_last_value (graph_num_numa_nodes graph_num_vertices : Nat) (lists : NumaEdgeLists)
    (i : Nat) : Nat :=
  if i < (graph_num_numa_nodes + 2 ^ 64 - 1) % 2 ^ 64 then
    (last_shared_vertex lists i +
      (511 + 2 ^ 64 - (last_shared_vertex lists i &&& 511)) % 2 ^ 64) % 2 ^ 64
  else (graph_num_vertices + 2 ^ 64 - 1) % 2 ^ 64

/-- The value that the loop of `graph_helper_numaize_vertices` stores in
`graph_vertex_first_numa [i]`. -/
def vertex_first_value (graph_num_numa_nodes graph_num_vertices : Nat) (lists : NumaEdgeLists)
    (i : Nat) : Nat :=
  if i > 0 then
    (vertex_last_value graph_num_numa_nodes graph_num_vertices lists (i - 1) + 1) % 2 ^ 64
  else 0

/-- The gather list of a small graph with 10 vertices and the two edges 0->3 and 1->7,
sliced for two NUMA nodes. -/
def partition_example_bufs : List EdgeVector := gather_list [(0, 3), (1, 7)]

/-- The gather list of a graph with 1024 vertices and the two edges 0->3 and 1->700. -/
def partition_fit_bufs : List EdgeVector := gather_list [(0, 3), (1, 700)]

/-! ## Merge reconciliation -/

/-- The struct `mergeaccum_t` of `graphtypes.h`, without its padding; the partial value has
type `α` (`double` in the C source). -/
structure mergeaccum_t (α : Type) where
  initial_vertex_id : Nat
  final_vertex_id : Nat
  final_partial_value : α

/-- The inner `for` loop of `edge_pull_op_merge_with_merge_buffer`, started at `j` with the
running `proposed_value`, with a bound on the number of iterations; the result is the final
`j` and `proposed_value`.  The parameter `REDUCE` is the macro `SCALAR_REDUCE_OP`.  As
`j < count` holds whenever `j` is incremented, the increment does not wrap. -/
def merge_inner_loop {α : Type} (REDUCE : α → α → α) (merge_buffer : Nat → mergeaccum_t α)
    (count i : Nat) : Nat → Nat → α → Nat × α
  | 0, j, proposed_value => (j, proposed_value)
  | fuel + 1, j, proposed_value =>
    if j < count ∧ (merge_buffer j).final_vertex_id = (merge_buffer i).final_vertex_id then
      merge_inner_loop REDUCE merge_buffer count i fuel (j + 1)
        (REDUCE proposed_value (merge_buffer j).final_partial_value)
    else (j, proposed_value)

/-- The outer `while` loop of `edge_pull_op_merge_with_merge_buffer`, started at `i`, with a
bound on the number of iterations; the inner loop gets `count - (i + 1)` iterations, as many
as there are entries after `i`. -/
def merge_outer_loop {α : Type} (REDUCE : α → α → α) (merge_buffer : Nat → mergeaccum_t α)
    (count : Nat) : Nat → Nat → (Nat → α) → (Nat → α)
  | 0, _, vertex_accumulators => vertex_accumulators
  | fuel + 1, i, vertex_accumulators =>
    if i < count ∧ (merge_buffer i).initial_vertex_id &&& 0x8000000000000000 = 0 then
      let r := merge_inner_loop REDUCE merge_buffer count i (count - (i + 1)) (i + 1)
        (merge_buffer i).final_partial_value
      let proposed_value :=
        if r.1 < count ∧
            (merge_buffer r.1).initial_vertex_id = (merge_buffer i).final_vertex_id then
          REDUCE r.2 (vertex_accumulators (merge_buffer r.1).initial_vertex_id)
        else r.2
      merge_outer_loop REDUCE merge_buffer count fuel r.1
        (Function.update vertex_accumulators (merge_buffer i).final_vertex_id proposed_value)
    else vertex_accumulators

/-- The function `edge_pull_op_merge_with_merge_buffer` of `phases.c`: the merge buffer is
only read, the result is the accumulator array.  Every iteration of the outer loop advances
`i` by at least one, so `count` iterations are enough. -/
def edge_pull_op_merge_with_merge_buffer {α : Type} (REDUCE : α → α → α)
    (merge_buffer : Nat → mergeaccum_t α) (count : Nat) (vertex_accumulators : Nat → α) :
    Nat → α :=
  merge_outer_loop REDUCE merge_buffer count count 0 vertex_accumulators

/-- The initialisation loop of `graph_data_allocate_merge_buffers`: every entry gets
`~0ull` as both vertex IDs and `zero` (the `double` 0.0) as partial value. -/
def graph_data_allocate_merge_buffers {α : Type} (zero : α) (num_blocks : Nat)
    (merge_buffer : Nat → mergeaccum_t α) : Nat → mergeaccum_t α :=
  (List.range num_blocks).foldl
    (fun mb i => Function.update mb i
      { initial_vertex_id := 0xffffffffffffffff
        final_vertex_id := 0xffffffffffffffff
        final_partial_value := zero }) merge_buffer

/-- The entries `i`, `i + 1`, ... of a merge buffer of `count` entries, as a list. -/
def merge_entries_from {α : Type} (merge_buffer : Nat → mergeaccum_t α) (count i : Nat) :
    List (mergeaccum_t α) :=
  (List.range' i (count - i)).map merge_buffer

/-- Steps 1 to 4 of the merge reconciliation as the specification words them, on the list of
entries that remain to be scanned: take the entry at the front, fold in the partial values
of the entries that follow it with the same final vertex, fold in the accumulator of that
vertex when the next entry began on it, store, and continue behind the run. -/
def merge_reconciliation_spec {α : Type} (REDUCE : α → α → α) :
    List (mergeaccum_t α) → (Nat → α) → (Nat → α)
  | [], accum => accum
  | e :: rest, accum =>
    let run := rest.takeWhile (fun x => decide (x.final_vertex_id = e.final_vertex_id))
    let next := rest.dropWhile (fun x => decide (x.final_vertex_id = e.final_vertex_id))
    let folded := run.foldl (fun p x => REDUCE p x.final_partial_value) e.final_partial_value
    let proposed :=
      match next with
      | [] => folded
      | n :: _ =>
        if n.initial_vertex_id = e.final_vertex_id then REDUCE folded (accum e.final_vertex_id)
        else folded
    merge_reconciliation_spec REDUCE next (Function.update accum e.final_vertex_id proposed)
termination_by l => l.length
decreasing_by
  simp only [List.length_cons]
  exact Nat.lt_succ_of_le (List.dropWhile_sublist _).length_le

/-- A merge buffer of five units used to exercise the reconciliation: units 0 and 1 end on
vertex 5, unit 2 begins on vertex 5 and ends on vertex 7 like unit 3, unit 4 begins on
vertex 7 and ends on vertex 9. -/
def merge_example_buffer : Nat → mergeaccum_t Nat := fun i =>
  [(⟨1, 5, 10⟩ : mergeaccum_t Nat), ⟨5, 5, 20⟩, ⟨5, 7, 30⟩, ⟨7, 7, 40⟩, ⟨7, 9, 50⟩].getD i
    ⟨0, 0, 0⟩

/-! ## Vertex and frontier initialisation

Values of the C type `double` are rational numbers here, with exact arithmetic. -/

/-- The macro `SEARCH_ROOT` of `execution_bfs.c`. -/
def SEARCH_ROOT : Nat := 0

/-- The function `execution_initialize_frontier_has_info_bfs`: the HasInfo mask of the 64
vertices that start at `base`. -/
def execution_initialize_frontier_has_info_bfs (base : Nat) : Nat :=
  let top := (base + 63) % 2 ^ 64
  if SEARCH_ROOT ≥ base ∧ SEARCH_ROOT ≤ top then (1 <<< (SEARCH_ROOT - base)) % 2 ^ 64
  else 0

/-- The function `execution_initialize_frontier_wants_info_bfs`: the WantsInfo mask of the
64 vertices that start at `base`; the complement `~x` of a 64-bit word is
`2 ^ 64 - 1 - x`. -/
def execution_initialize_frontier_wants_info_bfs (base : Nat) : Nat :=
  let top := (base + 63) % 2 ^ 64
  if SEARCH_ROOT ≥ base ∧ SEARCH_ROOT ≤ top then
    2 ^ 64 - 1 - (1 <<< (SEARCH_ROOT - base)) % 2 ^ 64
  else 2 ^ 64 - 1

/-- The function `execution_initialize_vertex_accum_bfs`. -/
def execution_initialize_vertex_accum_bfs (_id : Nat) : ℚ := 0

/-- The function `execution_initialize_vertex_prop_bfs`. -/
def execution_initialize_vertex_prop_bfs (_id : Nat) : ℚ := -1

/-- The function `execution_initialize_vertex_accum_pr`. -/
def execution_initialize_vertex_accum_pr (_id : Nat) : ℚ := 0

/-- The function `execution_initialize_vertex_prop_pr`; the globals it reads are
parameters. -/
def execution_initialize_vertex_prop_pr (graph_num_vertices : Nat)
    (graph_vertex_outdegrees : Nat → ℚ) (id : Nat) : ℚ :=
  (1 / (graph_num_vertices : ℚ)) /
    (if 0 = graph_vertex_outdegrees id then (graph_num_vertices : ℚ)
     else graph_vertex_outdegrees id)

/-- The function `graph_helper_initialize_vertex_info`; the two initialisers are the
functions that the macros `execution_initialize_vertex_prop` and
`execution_initialize_vertex_accum` select.  The result is the pair of the property and the
accumulator array. -/
def graph_helper_initialize_vertex_info {α : Type}
    (execution_initialize_vertex_prop execution_initialize_vertex_accum : Nat → α)
    (graph_num_vertices : Nat) (graph_vertex_props graph_vertex_accumulators : Nat → α) :
    (Nat → α) × (Nat → α) :=
  (List.range graph_num_vertices).foldl
    (fun a i =>
      (Function.update a.1 i (execution_initialize_vertex_prop i),
       Function.update a.2 i (execution_initialize_vertex_accum i)))
    (graph_vertex_props, graph_vertex_accumulators)

/-- The number of 64-bit words of a frontier, as
`graph_helper_create_and_initialize_frontiers` computes it. -/
def frontier_count (graph_num_vertices : Nat) : Nat :=
  ((graph_num_vertices >>> 6) + (if graph_num_vertices &&& 63 ≠ 0 then 1 else 0)) % 2 ^ 64

/-- The initialisation loop of `graph_helper_create_and_initialize_frontiers`; the two
initialisers are the functions that the macros `execution_initialize_frontier_has_info` and
`execution_initialize_frontier_wants_info` select.  The calls that move pages between nodes
do not change the contents and are left out.  The result is the pair of the HasInfo and the
WantsInfo frontier. -/
def graph_helper_create_and_initialize_frontiers
    (execution_initialize_frontier_has_info execution_initialize_frontier_wants_info :
      Nat → Nat)
    (graph_num_vertices : Nat) (graph_frontier_has_info graph_frontier_wants_info : Nat → Nat) :
    (Nat → Nat) × (Nat → Nat) :=
  (List.range (frontier_count graph_num_vertices)).foldl
    (fun a i =>
      (Function.update a.1 i (execution_initialize_frontier_has_info ((i <<< 6) % 2 ^ 64)),
       Function.update a.2 i (execution_initialize_frontier_wants_info ((i <<< 6) % 2 ^ 64))))
    (graph_frontier_has_info, graph_frontier_wants_info)

/-- Bit `v` of a frontier: one bit per vertex, 64 vertices per word, the vertex
`base + k` of the word that starts at `base` in bit `k`. -/
def frontier_bit (frontier : Nat → Nat) (v : Nat) : Bool :=
  (frontier (v >>> 6)).testBit (v &&& 63)

/-! ## The BFS driver -/

/-- The outcome of code that may end the process: the exit status, or the value the code
goes on with. -/
inductive Outcome (α : Type) where
  | exit (status : Nat) : Outcome α
  | ok (value : α) : Outcome α
deriving DecidableEq, Repr

/-- The part of `main` that sets the scheduler globals from the settings and the number of
gather vectors: the result is the pair of `sched_pull_units_per_node` and
`sched_pull_units_total`, or the exit status of `main`.  The thread and node counts are
32-bit, so the shifted quotient of the default case is a 32-bit value. -/
def main_sched_units (num_threads num_numa_nodes sched_granularity
    graph_edges_gather_list_vector_count : Nat) : Outcome (Nat × Nat) :=
  if 0 = sched_granularity then
    let sched_pull_units_per_node := ((num_threads / num_numa_nodes) <<< 5) % 2 ^ 32
    Outcome.ok (sched_pull_units_per_node,
      (sched_pull_units_per_node * num_numa_nodes) % 2 ^ 64)
  else
    let sched_pull_units_per_node :=
      graph_edges_gather_list_vector_count / num_numa_nodes / sched_granularity
    if 0 = sched_pull_units_per_node then Outcome.exit 1
    else
      Outcome.ok (sched_pull_units_per_node,
        (sched_pull_units_per_node * num_numa_nodes) % 2 ^ 64)

/-- Modelled from the spec: the number of vectors of one scheduling unit of a node whose
slab holds `slab_length` vectors, `slab_length / units_per_node` rounded down.  The
scheduler that carves the units is written in assembly. -/
def unit_vector_count (slab_length units_per_node : Nat) : Nat :=
  slab_length / units_per_node

/-! ## NUMA topology and thread spawning -/

/-- The constant `UINT32_MAX`. -/
def UINT32_MAX : Nat := 2 ^ 32 - 1

/-- The tables that `numanodes_initialize` fills from the operating system: the number of
NUMA nodes, the number of processors of each node and the list of processors of each
node. -/
structure Topology where
  numanodes_num_nodes : Nat
  numanodes_node_counts : Nat → Nat
  numanodes_node_processors : Nat → Nat → Nat

/-- The function `numanodes_get_num_nodes`. -/
def numanodes_get_num_nodes (t : Topology) : Nat := t.numanodes_num_nodes

/-- The function `numanodes_get_num_processors_on_node`. -/
def numanodes_get_num_processors_on_node (t : Topology) (node : Nat) : Nat :=
  if node ≥ t.numanodes_num_nodes then UINT32_MAX else t.numanodes_node_counts node

/-- The function `numanodes_get_nth_processor_on_node`. -/
def numanodes_get_nth_processor_on_node (t : Topology) (n node : Nat) : Nat :=
  if node ≥ t.numanodes_num_nodes ∨ n ≥ t.numanodes_node_counts node then UINT32_MAX
  else t.numanodes_node_processors node n

/-- The struct `threadinfo_t` of `threads.c`. -/
structure threadinfo_t where
  thread_id : Nat
  group_id : Nat
  group_thread_id : Nat
  total_threads : Nat
  total_groups : Nat
  threads_per_group : Nat
deriving DecidableEq, Repr

/-- The struct `threadstartinfo_t` of `threads.c`, without the function and its argument,
which are the same for every thread. -/
structure threadstartinfo_t where
  info : threadinfo_t
  affinity : Int
deriving DecidableEq, Repr

/-- The conversion of a 32-bit unsigned value to `int32_t`. -/
def to_int32 (x : Nat) : Int :=
  if x % 2 ^ 32 < 2 ^ 31 then ((x % 2 ^ 32 : Nat) : Int) else ((x % 2 ^ 32 : Nat) : Int) - 2 ^ 32

/-- The element `startinfo [i]` as the first loop of `threads_spawn` fills it. -/
def threads_spawn_startinfo (t : Topology) (count num_numa_nodes : Nat) (numa_nodes : Nat → Nat)
    (use_alternate_binding : Nat) (i : Nat) : threadstartinfo_t :=
  let count_per_numa_node := if count < num_numa_nodes then 1 else count / num_numa_nodes
  { info :=
      { thread_id := i
        group_id := i / count_per_numa_node
        group_thread_id := i % count_per_numa_node
        total_threads := count
        total_groups := num_numa_nodes
        threads_per_group := count / num_numa_nodes }
    affinity :=
      if use_alternate_binding ≠ 0 then
        to_int32 (numanodes_get_nth_processor_on_node t
          ((((i &&& 0x0001) *
              (numanodes_get_num_processors_on_node t (numa_nodes (i / count_per_numa_node)) / 2))
              % 2 ^ 32 + (i % count_per_numa_node) / 2) % 2 ^ 32)
          (numa_nodes (i / count_per_numa_node)))
      else
        to_int32 (numanodes_get_nth_processor_on_node t (i % count_per_numa_node)
          (numa_nodes (i / count_per_numa_node))) }

/-- The processor that `threads_start_func` binds the thread to, if it binds it: the call of
`threads_helper_set_affinity_to` is guarded by `startinfo->affinity >= 0`. -/
def threads_start_func_affinity (startinfo : threadstartinfo_t) : Option Nat :=
  if startinfo.affinity ≥ 0 then some startinfo.affinity.toNat else none

/-- What `threads_spawn` does with the start records: its return value, the records it
hands to newly started threads, in the order of creation, and the record it runs
`threads_start_func` on in the calling thread. -/
structure ThreadsSpawn where
  result : Nat
  started : List threadstartinfo_t
  calling : Option threadstartinfo_t
deriving DecidableEq, Repr

/-- The function `threads_spawn`; `startinfo_allocated` tells whether `malloc` returned a
buffer.  The bound `count - 1` of the second loop and the index `count - 1` are 32-bit
values. -/
def threads_spawn (t : Topology) (count num_numa_nodes : Nat) (numa_nodes : Nat → Nat)
    (use_alternate_binding : Nat) (startinfo_allocated : Bool) : ThreadsSpawn :=
  if startinfo_allocated = false then { result := 1, started := [], calling := none }
  else
    let startinfo := threads_spawn_startinfo t count num_numa_nodes numa_nodes
      use_alternate_binding
    { result := 0
      started := (List.range ((count + 2 ^ 32 - 1) % 2 ^ 32)).map startinfo
      calling := some (startinfo ((count + 2 ^ 32 - 1) % 2 ^ 32)) }

/-- A machine with one NUMA node that has a single processor, numbered 0. -/
def topology_one_processor : Topology :=
  { numanodes_num_nodes := 1
    numanodes_node_counts := fun _ => 1
    numanodes_node_processors := fun _ n => n }

/-- A machine with two NUMA nodes of four processors each: processors 0 to 3 on node 0 and
4 to 7 on node 1. -/
def topology_two_nodes : Topology :=
  { numanodes_num_nodes := 2
    numanodes_node_counts := fun _ => 4
    numanodes_node_processors := fun node n => 4 * node + n }

/-- The function `numanodes_tonode_buffer` in the Linux build: the start address and the
length in bytes that it passes to `numa_tonode_memory`.  Addresses and sizes are 64-bit
(`size_t`). -/
def numanodes_tonode_buffer (mem size : Nat) : Nat × Nat :=
  (mem &&& 0xfffffffffffff000, (size + (4096 - size % 4096)) % 2 ^ 64)

/-! ## Command line

A C string is the list of its characters before the terminating NUL; a `char*` that may be
`NULL` is an `Option`.  The build is the one for Linux (`GRAZELLE_WINDOWS` undefined). -/

/-- The character at index `k` of a C string: past the last character it is the
terminating NUL. -/
def cstr_at (s : List Char) (k : Nat) : Char := s.getD k (Char.ofNat 0)

/-- The function `cmdline_helper_is_char_supported_as_switch`. -/
def cmdline_helper_is_char_supported_as_switch (check : Char) : Bool :=
  decide (check = '-')

/-- The function `cmdline_helper_is_recognized_option`. -/
def cmdline_helper_is_recognized_option (check : Char) : Bool :=
  decide (check = 'h' ∨ check = 'i' ∨ check = 'n' ∨ check = 'N' ∨ check = 'o' ∨ check = 's' ∨
    check = 'V' ∨ check = 'u')

/-- The function `cmdline_helper_option_requires_value`. -/
def cmdline_helper_option_requires_value (check : Char) : Bool :=
  decide (check = 'i' ∨ check = 'n' ∨ check = 'N' ∨ check = 'u' ∨ check = 'o' ∨ check = 's')

/-- The function `cmdline_helper_option_accepts_value`. -/
def cmdline_helper_option_accepts_value (check : Char) : Bool :=
  if check = 'h' then false else cmdline_helper_option_requires_value check

/-- The macro `CMDLINE_MAX_NUM_NUMA_NODES` of `cmdline.h`. -/
def CMDLINE_MAX_NUM_NUMA_NODES : Nat := 4

/-- The struct `cmdline_opts_t` of `cmdline.h`.  The file names are the contents of the two
`char [1024]` arrays; `numa_nodes` is the array of `CMDLINE_MAX_NUM_NUMA_NODES + 1` entries,
as a function of the index. -/
structure cmdline_opts_t where
  graph_input_filename_gather : List Char
  graph_input_filename_scatter : List Char
  graph_ranks_output_filename : Option (List Char)
  num_iterations : Nat
  num_threads : Nat
  num_numa_nodes : Nat
  numa_nodes : Nat → Nat
  sched_granularity : Nat

/-- The C library function `isdigit`, in the C locale. -/
def isdigit (c : Char) : Bool := decide ('0'.toNat ≤ c.toNat ∧ c.toNat ≤ '9'.toNat)

/-- The C library function `isspace`, in the C locale. -/
def isspace (c : Char) : Bool := decide (c.toNat = 32 ∨ (9 ≤ c.toNat ∧ c.toNat ≤ 13))

/-- The decimal digits at the front of a string: the number they spell after `acc` and the
rest of the string. -/
def parse_digits : List Char → Nat → Nat × List Char
  | [], acc => (acc, [])
  | c :: cs, acc =>
    if isdigit c = true then parse_digits cs (acc * 10 + (c.toNat - '0'.toNat)) else (acc, c :: cs)

/-- The subject sequence that the C library functions `strtol`, `strtoul` and `strtoull`
find for base 10: white space, an optional sign and at least one digit.  The result is the
sign, the magnitude and the rest of the string, or `none` if there is no digit. -/
def strto_scan (s : List Char) : Option (Bool × Nat × List Char) :=
  let s1 := s.dropWhile isspace
  let signed : Bool × List Char :=
    match s1 with
    | c :: r => if c = '-' then (true, r) else if c = '+' then (false, r) else (false, s1)
    | [] => (false, s1)
  match signed.2 with
  | c :: _ =>
    if isdigit c = true then
      some (signed.1, (parse_digits signed.2 0).1, (parse_digits signed.2 0).2)
    else none
  | [] => none

/-- The C library function `strtoul (s, &endptr, 10)` with a 64-bit `unsigned long`: the
value and the string `endptr` points to. -/
def strtoul (s : List Char) : Nat × List Char :=
  match strto_scan s with
  | none => (0, s)
  | some (negative, magnitude, rest) =>
    if magnitude > 2 ^ 64 - 1 then (2 ^ 64 - 1, rest)
    else if negative = true then ((2 ^ 64 - magnitude) % 2 ^ 64, rest)
    else (magnitude, rest)

/-- The C library function `strtoull (s, &endptr, 10)`. -/
def strtoull (s : List Char) : Nat × List Char := strtoul s

/-- The C library function `strtol (s, &endptr, 10)` with a 64-bit `long`. -/
def strtol (s : List Char) : Int × List Char :=
  match strto_scan s with
  | none => (0, s)
  | some (negative, magnitude, rest) =>
    if negative = true then
      (if magnitude > 2 ^ 63 then -(2 ^ 63 : Int) else -(magnitude : Int), rest)
    else (if magnitude > 2 ^ 63 - 1 then (2 ^ 63 - 1 : Int) else (magnitude : Int), rest)

/-- The C library function `strncpy (dest, src, n)` on an array `dest` of at least `n`
characters: `n` characters are written, those of `src` and then NUL characters. -/
def strncpy (dest src : List Char) (n : Nat) : List Char :=
  src.take n ++ List.replicate (n - src.length) (Char.ofNat 0) ++ dest.drop n

/-- The C library function `strncat (dest, src, n)`: at most `n` characters of `src` and a
NUL are written over `dest` from its first NUL on. -/
def strncat (dest src : List Char) (n : Nat) : List Char :=
  let p := (dest.takeWhile (fun c => decide (c ≠ Char.ofNat 0))).length
  dest.take p ++ src.take n ++ [Char.ofNat 0] ++ dest.drop (p + (src.take n).length + 1)

/-- The loop of the `u` case of `cmdline_parse_single_option_or_die`, with a bound on the
number of iterations: `endptr` is the part of the value that is still to be read.  The
result is the exit status 2, or the settings with the nodes stored and `node_idx`.  The
store to `numa_nodes [node_idx]` is modelled for every index, also past the end of the
array. -/
def cmdline_numa_nodes_loop (t : Topology) :
    Nat → List Char → Nat → cmdline_opts_t → Outcome (cmdline_opts_t × Nat)
  | 0, _, node_idx, opts => Outcome.ok (opts, node_idx)
  | fuel + 1, endptr, node_idx, opts =>
    if cstr_at endptr 0 ≠ Char.ofNat 0 then
      if isdigit (cstr_at endptr 0) = false ∧
          cmdline_helper_is_char_supported_as_switch (cstr_at endptr 0) = false then
        Outcome.exit 2
      else
        let cmdline_node := to_int32 (((strtol endptr).1 % 2 ^ 32).toNat)
        let endptr := (strtol endptr).2
        if cmdline_node < 0 ∨ cmdline_node.toNat ≥ numanodes_get_num_nodes t ∨
            node_idx ≥ numanodes_get_num_nodes t ∨
            (cstr_at endptr 0 ≠ Char.ofNat 0 ∧ cstr_at endptr 0 ≠ ',') then
          Outcome.exit 2
        else
          let endptr :=
            if cstr_at endptr 0 ≠ Char.ofNat 0 ∧ cstr_at endptr 1 ≠ Char.ofNat 0 then
              endptr.drop 1
            else endptr
          cmdline_numa_nodes_loop t fuel endptr ((node_idx + 1) % 2 ^ 32)
            { opts with numa_nodes := Function.update opts.numa_nodes node_idx cmdline_node.toNat }
    else Outcome.ok (opts, node_idx)

/-- The `switch` of `cmdline_parse_single_option_or_die` on the option letter; it runs after
the checks on the value, so a case that reads the value has one.  Every iteration of the
loop of the `u` case that goes on reads at least one character, so one iteration per
character of the value is enough. -/
def cmdline_option_switch (t : Topology) (opts : cmdline_opts_t) (letter : Char)
    (cmdline_value : Option (List Char)) : Outcome cmdline_opts_t :=
  let value := cmdline_value.getD []
  if letter = 'h' ∨ letter = '?' then Outcome.exit 0
  else if letter = 'i' then
    Outcome.ok { opts with
      graph_input_filename_gather :=
        strncat (strncpy opts.graph_input_filename_gather value (1024 - 10)) "-pull".toList 6
      graph_input_filename_scatter :=
        strncat (strncpy opts.graph_input_filename_scatter value (1024 - 10)) "-push".toList 6 }
  else if letter = 'n' then
    if cstr_at (strtoul value).2 0 ≠ Char.ofNat 0 then Outcome.exit 2
    else Outcome.ok { opts with num_threads := (strtoul value).1 % 2 ^ 32 }
  else if letter = 'N' then
    if cstr_at (strtoul value).2 0 ≠ Char.ofNat 0 ∨ (strtoul value).1 % 2 ^ 32 < 1 then
      Outcome.exit 2
    else Outcome.ok { opts with num_iterations := (strtoul value).1 % 2 ^ 32 }
  else if letter = 'o' then
    Outcome.ok { opts with graph_ranks_output_filename := cmdline_value }
  else if letter = 's' then
    if cstr_at (strtoull value).2 0 ≠ Char.ofNat 0 ∨ (strtoull value).1 < 1 then Outcome.exit 2
    else Outcome.ok { opts with sched_granularity := (strtoull value).1 }
  else if letter = 'u' then
    match cmdline_numa_nodes_loop t (value.length + 1) value 0 opts with
    | Outcome.exit status => Outcome.exit status
    | Outcome.ok r => Outcome.ok { r.1 with num_numa_nodes := r.2 }
  else if letter = 'V' then Outcome.exit 0
  else Outcome.exit 1

/-- The function `cmdline_parse_single_option_or_die`: the exit status with which it ends
the process, or the settings it returns with. -/
def cmdline_parse_single_option_or_die (t : Topology) (opts : cmdline_opts_t)
    (cmdline_option : List Char) (cmdline_value : Option (List Char)) :
    Outcome cmdline_opts_t :=
  if cmdline_helper_is_char_supported_as_switch (cstr_at cmdline_option 0) = false ∨
      Char.ofNat 0 ≠ cstr_at cmdline_option 2 then
    Outcome.exit 1
  else if cmdline_helper_is_recognized_option (cstr_at cmdline_option 1) = false then
    Outcome.exit 1
  else if cmdline_helper_option_requires_value (cstr_at cmdline_option 1) = true ∧
      cmdline_value = none then
    Outcome.exit 3
  else if cmdline_helper_option_accepts_value (cstr_at cmdline_option 1) = false ∧
      cmdline_value ≠ none then
    Outcome.exit 4
  else cmdline_option_switch t opts (cstr_at cmdline_option 1) cmdline_value

/-- The function `cmdline_init`: the settings before any option is parsed. -/
def cmdline_init : cmdline_opts_t :=
  { graph_input_filename_gather := List.replicate 1024 (Char.ofNat 0)
    graph_input_filename_scatter := List.replicate 1024 (Char.ofNat 0)
    graph_ranks_output_filename := none
    num_iterations := 1
    num_threads := 0
    num_numa_nodes := 1
    numa_nodes := fun i => if i < CMDLINE_MAX_NUM_NUMA_NODES + 1 then i else 0
    sched_granularity := 0 }

/-- A machine with eight NUMA nodes of two processors each. -/
def topology_eight_nodes : Topology :=
  { numanodes_num_nodes := 8
    numanodes_node_counts := fun _ => 2
    numanodes_node_processors := fun node n => 2 * node + n }

/-- The function `cmdline_validate_or_die`: the exit status with which it ends the process,
or the validated settings.  The product that replaces a thread count of zero is a 32-bit
value. -/
def cmdline_validate_or_die (t : Topology) (opts : cmdline_opts_t) : Outcome cmdline_opts_t :=
  if Char.ofNat 0 = cstr_at opts.graph_input_filename_gather 0 ∨
      Char.ofNat 0 = cstr_at opts.graph_input_filename_scatter 0 then
    Outcome.exit 5
  else
    let opts :=
      if 0 = opts.num_threads then
        { opts with
          num_threads :=
            (opts.num_numa_nodes *
              numanodes_get_num_processors_on_node t (opts.numa_nodes 0)) % 2 ^ 32 }
      else opts
    if 0 ≠ opts.num_threads % opts.num_numa_nodes then Outcome.exit 6 else Outcome.ok opts

/-- The C library function `isprint`, in the C locale. -/
def isprint (c : Char) : Bool := decide (32 ≤ c.toNat ∧ c.toNat ≤ 126)

/-- The loop of `cmdline_parse_options_or_die` on the arguments from `argv [cmdline_idx]`
on, with a bound on the number of iterations. -/
def cmdline_parse_options_loop (t : Topology) :
    Nat → List (List Char) → cmdline_opts_t → Outcome cmdline_opts_t
  | 0, _, opts => Outcome.ok opts
  | _ + 1, [], opts => Outcome.ok opts
  | fuel + 1, cmdline_option :: rest, opts =>
    let with_value : Bool :=
      match rest with
      | next :: _ =>
        isprint (cstr_at next 0) &&
          !cmdline_helper_is_char_supported_as_switch (cstr_at next 0)
      | [] => false
    let cmdline_value := if with_value = true then rest.head? else none
    match cmdline_parse_single_option_or_die t opts cmdline_option cmdline_value with
    | Outcome.exit status => Outcome.exit status
    | Outcome.ok opts =>
      cmdline_parse_options_loop t fuel (if with_value = true then rest.drop 1 else rest) opts

/-- The function `cmdline_parse_options_or_die` on the argument vector `argv`: every
iteration of its loop takes at least one argument, so one iteration per argument is
enough. -/
def cmdline_parse_options_or_die (t : Topology) (argv : List (List Char)) :
    Outcome cmdline_opts_t :=
  match cmdline_parse_options_loop t argv.length (argv.drop 1) cmdline_init with
  | Outcome.exit status => Outcome.exit status
  | Outcome.ok opts => cmdline_validate_or_die t opts

/-- A machine with two NUMA nodes of unequal size: processors 0 and 1 on node 0 and
processors 2 to 5 on node 1. -/
def topology_uneven : Topology :=
  { numanodes_num_nodes := 2
    numanodes_node_counts := fun node => if node = 0 then 2 else 4
    numanodes_node_processors := fun node n => 2 * node + n }

/-! ## Reading the graph files

A file is the list of the 64-bit words it holds, or `none` when it cannot be opened. -/

/-- A merge buffer with the partial value of every entry `k` replaced by the list `[k]`.
Run with list concatenation as `SCALAR_REDUCE_OP` on empty accumulators, the merge then
leaves in every accumulator the indices of the entries whose partial values were folded
into it. -/
def merge_tagged {α : Type} (merge_buffer : Nat → mergeaccum_t α) : Nat → mergeaccum_t (List Nat) :=
  fun k =>
    { initial_vertex_id := (merge_buffer k).initial_vertex_id
      final_vertex_id := (merge_buffer k).final_vertex_id
      final_partial_value := [k] }

/-- The indices of the entries whose partial values `edge_pull_op_merge_with_merge_buffer`
has folded into the accumulator of vertex `v` when it returns. -/
def merge_folded_into {α : Type} (merge_buffer : Nat → mergeaccum_t α) (count v : Nat) :
    List Nat :=
  edge_pull_op_merge_with_merge_buffer (fun a b => a ++ b) (merge_tagged merge_buffer) count
    (fun _ => []) v

/-- A merge buffer of two units whose first entry is empty: unit 1 began on vertex 1 and
ended on vertex 5. -/
def merge_gap_buffer : Nat → mergeaccum_t Nat := fun i =>
  [(⟨0xffffffffffffffff, 0xffffffffffffffff, 0⟩ : mergeaccum_t Nat), ⟨1, 5, 10⟩].getD i ⟨0, 0, 0⟩

/-- A merge buffer of three units without an empty entry in which the two entries that end
on vertex 5 are separated by one that ends on vertex 7. -/
def merge_split_buffer : Nat → mergeaccum_t Nat := fun i =>
  [(⟨1, 5, 10⟩ : mergeaccum_t Nat), ⟨6, 7, 20⟩, ⟨8, 5, 30⟩].getD i ⟨0, 0, 0⟩

/-- A merge buffer of three units in which the empty entry lies inside a run: the entries 0
and 1 end on vertex 5, entry 1 is empty, and entry 2 ends on vertex 8. -/
def merge_inner_gap_buffer : Nat → mergeaccum_t Nat := fun i =>
  [(⟨1, 5, 10⟩ : mergeaccum_t Nat), ⟨0xffffffffffffffff, 5, 99⟩, ⟨7, 8, 50⟩].getD i ⟨0, 0, 0⟩

/-! ## The reduce buffer -/

/-- The function `execution_init_pr`: the value of `sz_reduce_buffer` and the cleared reduce
buffer.  The thread count is a `uint32_t`, so the size is computed in 32-bit arithmetic. -/
def execution_init_pr (num_threads : Nat) : Nat × List Nat :=
  let sz_reduce_buffer := (num_threads + (8 - num_threads % 8)) % 2 ^ 32
  (sz_reduce_buffer, List.replicate sz_reduce_buffer 0)

/-- The function `execution_init_bfs`: the value of `sz_reduce_buffer` and the cleared reduce
buffer. -/
def execution_init_bfs (num_threads : Nat) : Nat × List Nat :=
  let sz_reduce_buffer := (num_threads + (8 - num_threads % 8)) % 2 ^ 32
  (sz_reduce_buffer, List.replicate sz_reduce_buffer 0)

/-- The macro `SCALAR_REDUCE_OP` of the breadth-first search and connected components
builds, `(a < b) ? a : b`, on a totally ordered type. -/
def SCALAR_REDUCE_OP_min {α : Type} [LinearOrder α] (a b : α) : α := if a < b then a else b

/-- The shapes that the effect of a merge on one accumulator can take when the operator is
the minimum: the accumulator is kept, replaced by a constant, or lowered to a bound. -/
def MergeEffect {α : Type} [LinearOrder α] (g : α → α) : Prop :=
  g = id ∨ (∃ c, g = fun _ => c) ∨ (∃ m, g = fun x => SCALAR_REDUCE_OP_min m x)

/-! ## Writing the graph back as an edge list -/

/-- The lines that one iteration of the loop of `graph_helper_write_edges_to_file` prints
for a record: the pair of `edge_source` and `edge_dest` for every lane, 0 to 3, whose valid
bit is set. -/
def write_edges_of_record (v : EdgeVector) : List (Nat × Nat) :=
  let edge_dest := graph_macro_get_shared_vertex v
  (if v.lane0 &&& 0x8000000000000000 ≠ 0 then [(v.lane0 &&& 0x0000ffffffffffff, edge_dest)]
    else []) ++
  (if v.lane1 &&& 0x8000000000000000 ≠ 0 then [(v.lane1 &&& 0x0000ffffffffffff, edge_dest)]
    else []) ++
  (if v.lane2 &&& 0x8000000000000000 ≠ 0 then [(v.lane2 &&& 0x0000ffffffffffff, edge_dest)]
    else []) ++
  (if v.lane3 &&& 0x8000000000000000 ≠ 0 then [(v.lane3 &&& 0x0000ffffffffffff, edge_dest)]
    else [])

/-- The function `graph_helper_write_edges_to_file`: the lines it prints, as pairs of
numbers. -/
def graph_helper_write_edges_to_file (records : List EdgeVector) (record_count : Nat) :
    List (Nat × Nat) :=
  (records.take record_count).flatMap write_edges_of_record

/-- The function `graph_data_write_to_file` when the file can be opened: the two numbers of
the header and the edge lines. -/
def graph_data_write_to_file (graph_num_vertices graph_num_edges graph_num_numa_nodes : Nat)
    (gather : NumaEdgeLists) : Nat × Nat × List (Nat × Nat) :=
  (graph_num_vertices, graph_num_edges,
    (List.range graph_num_numa_nodes).flatMap
      (fun i => graph_helper_write_edges_to_file (gather.block_bufs_numa i)
        (gather.block_counts_numa i)))

/-- The records that a stash holds: its first `count` individual IDs, each with the shared
ID. -/
def stash_edges (s : Stash) : List (Nat × Nat) :=
  (List.range s.count).map (fun k => (s.ids k, s.shared))

/-! ## Buffer capacities -/

/-- The number of edge vectors of a buffer of
`sizeof (__m256i) * ((graph_num_edges / graph_num_numa_nodes) + graph_num_numa_nodes)` bytes,
32 bytes a vector.  `graph_helper_numaize_gather` allocates such a buffer for every node;
`graph_helper_numaize_scatter` allocates one for every node but node 0. -/
def numa_slab_capacity (graph_num_edges graph_num_numa_nodes : Nat) : Nat :=
  (32 * ((graph_num_edges / graph_num_numa_nodes + graph_num_numa_nodes) % 2 ^ 64)) % 2 ^ 64 / 32

/-- The number of edge vectors that fit the buffer `graph_edges_gather_list_block_bufs_numa
[i][0]` as `graph_helper_numaize_gather` sets it: every node gets a buffer of its own, into
which its slice is copied. -/
def numaize_gather_capacity (graph_num_edges graph_num_numa_nodes _i : Nat) : Nat :=
  numa_slab_capacity graph_num_edges graph_num_numa_nodes

/-- The number of edge vectors that fit the buffer `graph_edges_scatter_list_block_bufs_numa
[i][0]` as `graph_helper_numaize_scatter` sets it: a node `i > 0` gets a buffer of its own,
into which its slice is copied; for node 0 nothing is allocated or copied, the pointer is
set to `graph_edge_list_block_bufs [0]`, the buffer of the scatter build, which has room for
`scratch_capacity` vectors. -/
def numaize_scatter_capacity (graph_num_edges graph_num_numa_nodes scratch_capacity i : Nat) :
    Nat :=
  if i > 0 then numa_slab_capacity graph_num_edges graph_num_numa_nodes else scratch_capacity

/-- The number of edge vectors that fit the scratch buffer which `graph_data_read_from_file`
allocates before the scatter build: the buffer has
`sizeof (__m256i) * graph_edges_gather_list_vector_count * 11 / 10` bytes and a vector has
32. -/
def scatter_scratch_capacity (graph_edges_gather_list_vector_count : Nat) : Nat :=
  ((32 * graph_edges_gather_list_vector_count * 11) % 2 ^ 64 / 10) / 32

/-- The edge records of a star of `n` edges into vertex 0, from the vertices 1 to `n`.  The
list is sorted by destination and by source, so it is the content of the pull file and of
the push file of that graph. -/
def star_edges (n : Nat) : List (Nat × Nat) :=
  (List.range' 1 n).map (fun k => (k, 0))

/-! ## Theorems: the edge-vector codec -/

theorem testBit_false_of_lt_of_le {x n i : Nat} (h : x < 2 ^ n) (hi : n ≤ i) :
    x.testBit i = false :=
  Nat.testBit_lt_two_pow (Nat.lt_of_lt_of_le h (Nat.pow_le_pow_right (by decide) hi))

theorem mask_piece0 : (0x7fff : Nat) = (2 ^ 15 - 1) <<< 0 := by decide
theorem mask_piece1 : (0x3fff8000 : Nat) = (2 ^ 15 - 1) <<< 15 := by decide
theorem mask_piece2 : (0x1fffc0000000 : Nat) = (2 ^ 15 - 1) <<< 30 := by decide
theorem mask_piece3 : (0xe00000000000 : Nat) = (2 ^ 3 - 1) <<< 45 := by decide
theorem mask_lane15 : (0x7fff000000000000 : Nat) = (2 ^ 15 - 1) <<< 48 := by decide
theorem mask_lane3 : (0x0007000000000000 : Nat) = (2 ^ 3 - 1) <<< 48 := by decide
theorem mask_valid : (0x8000000000000000 : Nat) = 2 ^ 63 := by decide

/-- A piece cut out of the shared ID by a `w`-bit mask fits in `w` bits. -/
theorem piece_lt (x w s : Nat) : (x &&& ((2 ^ w - 1) <<< s)) >>> s < 2 ^ w := by
  apply Nat.lt_pow_two_of_testBit
  intro i hi
  simp only [Nat.testBit_shiftRight, Nat.testBit_and, Nat.testBit_shiftLeft,
    Nat.testBit_two_pow_sub_one]
  cases x.testBit (s + i)
  · simp
  · simp
    omega

/-- Masking a composed lane and shifting it down by `48 - s` yields the stored piece at
offset `s`. -/
theorem lane_term (v p id : Nat) (w s : Nat) (hw : w ≤ 15) (hs : s ≤ 48) (hp : p < 2 ^ w)
    (hid : id < 2 ^ 48) :
    ((((v <<< 63) % 2 ^ 64) ||| ((p <<< 48) % 2 ^ 64) ||| id) &&& ((2 ^ w - 1) <<< 48))
      >>> (48 - s) = p <<< s := by
  apply Nat.eq_of_testBit_eq
  intro i
  simp only [Nat.testBit_shiftRight, Nat.testBit_and, Nat.testBit_or, Nat.testBit_mod_two_pow,
    Nat.testBit_shiftLeft, Nat.testBit_two_pow_sub_one]
  by_cases hi : s ≤ i
  · have e : 48 - s + i - 48 = i - s := by omega
    have g : 48 - s + i ≥ 48 := by omega
    by_cases hi2 : i - s < w
    · have h1 : id.testBit (48 - s + i) = false := testBit_false_of_lt_of_le hid (by omega)
      have h2 : ¬ (48 - s + i ≥ 63) := by omega
      have h3 : 48 - s + i < 64 := by omega
      simp [h1, h2, h3, hi, hi2, e, g]
    · have h1 : p.testBit (i - s) = false := testBit_false_of_lt_of_le hp (by omega)
      simp [h1, hi2, e]
  · have g : ¬ (48 - s + i ≥ 48) := by omega
    simp [hi, g]

theorem piece_shift (x w s : Nat) :
    ((x &&& ((2 ^ w - 1) <<< s)) >>> s) <<< s = x &&& ((2 ^ w - 1) <<< s) := by
  apply Nat.eq_of_testBit_eq
  intro i
  simp only [Nat.testBit_shiftRight, Nat.testBit_and, Nat.testBit_shiftLeft,
    Nat.testBit_two_pow_sub_one]
  by_cases hi : s ≤ i
  · have e : s + (i - s) = i := by omega
    have e2 : s + (i - s) - s = i - s := by omega
    simp [hi, e, e2]
  · simp [hi]

theorem recombine (x : Nat) (hx : x < 2 ^ 48) :
    (x &&& ((2 ^ 15 - 1) <<< 0)) ||| (x &&& ((2 ^ 15 - 1) <<< 15)) |||
      (x &&& ((2 ^ 15 - 1) <<< 30)) ||| (x &&& ((2 ^ 3 - 1) <<< 45)) = x := by
  apply Nat.eq_of_testBit_eq
  intro i
  simp only [Nat.testBit_and, Nat.testBit_or, Nat.testBit_shiftLeft,
    Nat.testBit_two_pow_sub_one]
  by_cases h48 : i < 48
  · cases x.testBit i
    · simp
    · simp
      omega
  · have h1 : x.testBit i = false := testBit_false_of_lt_of_le hx (by omega)
    simp [h1]

theorem pieces_zero (x : Nat) : edge_shared_vertex_pieces x 0 = (x &&& 0x7fff) >>> 0 := rfl
theorem pieces_one (x : Nat) : edge_shared_vertex_pieces x 1 = (x &&& 0x3fff8000) >>> 15 := rfl
theorem pieces_two (x : Nat) :
    edge_shared_vertex_pieces x 2 = (x &&& 0x1fffc0000000) >>> 30 := rfl
theorem pieces_three (x : Nat) :
    edge_shared_vertex_pieces x 3 = (x &&& 0xe00000000000) >>> 45 := rfl

/-- Decoding the shared vertex of a composed edge vector gives back a 48-bit shared ID. -/
theorem get_shared_compose (x : Nat) (ids : Nat → Nat) (count : Nat) (hx : x < 2 ^ 48)
    (hids : ∀ k < 4, ids k < 2 ^ 48) :
    graph_macro_get_shared_vertex (compose_edge_vector x ids count) = x := by
  have t0 := (lane_term (if count > 0 then 1 else 0) ((x &&& ((2 ^ 15 - 1) <<< 0)) >>> 0)
    (ids 0) 15 0 (by decide) (by decide) (piece_lt x 15 0) (hids 0 (by decide))).trans
    (piece_shift x 15 0)
  have t1 := (lane_term (if count > 1 then 1 else 0) ((x &&& ((2 ^ 15 - 1) <<< 15)) >>> 15)
    (ids 1) 15 15 (by decide) (by decide) (piece_lt x 15 15) (hids 1 (by decide))).trans
    (piece_shift x 15 15)
  have t2 := (lane_term (if count > 2 then 1 else 0) ((x &&& ((2 ^ 15 - 1) <<< 30)) >>> 30)
    (ids 2) 15 30 (by decide) (by decide) (piece_lt x 15 30) (hids 2 (by decide))).trans
    (piece_shift x 15 30)
  have t3 := (lane_term (if count > 3 then 1 else 0) ((x &&& ((2 ^ 3 - 1) <<< 45)) >>> 45)
    (ids 3) 3 45 (by decide) (by decide) (piece_lt x 3 45) (hids 3 (by decide))).trans
    (piece_shift x 3 45)
  have e := recombine x hx
  rw [← mask_piece0, ← mask_piece1, ← mask_piece2, ← mask_piece3] at e
  rw [← mask_piece0, ← mask_lane15] at t0
  rw [← mask_piece1, ← mask_lane15] at t1
  rw [← mask_piece2, ← mask_lane15] at t2
  rw [← mask_piece3, ← mask_lane3] at t3
  simp only [Nat.reduceSub] at t0 t1 t2 t3
  simp only [graph_macro_get_shared_vertex, compose_edge_vector, edge_vector_lane,
    pieces_zero, pieces_one, pieces_two, pieces_three]
  rw [t0, t1, t2, t3]
  exact e

/-- Claim C1.  For every shared vertex ID below `2 ^ 48`, every four individual IDs below
`2 ^ 48` and every count from 0 to 4, `graph_helper_write_edge_vector` appends exactly one edge
vector to the block buffer, and `graph_macro_get_shared_vertex` applied to that vector
returns the shared vertex ID. -/
theorem C1_shared_vertex_roundtrip (st : IngressState) (x : Nat) (ids : Nat → Nat)
    (count off : Nat) (hx : x < 2 ^ 48) (hids : ∀ k < 4, ids k < 2 ^ 48) (hc : count ≤ 4) :
    (graph_helper_write_edge_vector st x ids count off).graph_edge_list_block_bufs
        = st.graph_edge_list_block_bufs ++ [compose_edge_vector x ids count] ∧
      graph_macro_get_shared_vertex (compose_edge_vector x ids count) = x := by
  have _ := hc
  exact ⟨rfl, get_shared_compose x ids count hx hids⟩

theorem C1_shared_vertex_roundtrip_witness :
    (0x123456789abc < 2 ^ 48 ∧ (∀ k < 4, (fun i => i + 0xfffffffffff0) k < 2 ^ 48) ∧ 3 ≤ 4) ∧
    ((graph_helper_write_edge_vector IngressState.init 0x123456789abc
        (fun i => i + 0xfffffffffff0) 3 0).graph_edge_list_block_bufs
        = IngressState.init.graph_edge_list_block_bufs ++
          [compose_edge_vector 0x123456789abc (fun i => i + 0xfffffffffff0) 3] ∧
      graph_macro_get_shared_vertex
        (compose_edge_vector 0x123456789abc (fun i => i + 0xfffffffffff0) 3) = 0x123456789abc) :=
  ⟨⟨by decide, by decide, by decide⟩,
    C1_shared_vertex_roundtrip IngressState.init 0x123456789abc (fun i => i + 0xfffffffffff0) 3 0
      (by decide) (by decide) (by decide)⟩


/-! ## Theorems: the ingress consumers -/

theorem and_bit63_ne_zero_iff (n : Nat) : n &&& 0x8000000000000000 ≠ 0 ↔ n.testBit 63 = true := by
  rw [mask_valid]
  constructor
  · intro h
    by_contra hb
    apply h
    apply Nat.eq_of_testBit_eq
    intro i
    simp only [Nat.testBit_and, Nat.testBit_two_pow, Nat.zero_testBit]
    by_cases hi : 63 = i
    · subst hi
      simp [hb]
    · simp [hi]
  · intro h h0
    have h1 : (n &&& 2 ^ 63).testBit 63 = Nat.testBit 0 63 := by rw [h0]
    rw [Nat.testBit_and, Nat.testBit_two_pow_self, h, Nat.zero_testBit] at h1
    exact absurd h1 (by decide)

theorem pieces_lt (x k : Nat) : edge_shared_vertex_pieces x k < 2 ^ 15 := by
  match k with
  | 0 => rw [pieces_zero, mask_piece0]; exact piece_lt x 15 0
  | 1 => rw [pieces_one, mask_piece1]; exact piece_lt x 15 15
  | 2 => rw [pieces_two, mask_piece2]; exact piece_lt x 15 30
  | n + 3 =>
    have h : edge_shared_vertex_pieces x (n + 3) = (x &&& 0xe00000000000) >>> 45 := rfl
    rw [h, mask_piece3]
    exact Nat.lt_trans (piece_lt x 3 45) (by decide)

/-- The valid bit of lane `k` of a composed vector is set exactly when `k` is below the
count, provided the individual ID of the lane does not reach bit 63. -/
theorem lane_valid_iff (x : Nat) (ids : Nat → Nat) (count k : Nat) (hid : ids k < 2 ^ 63) :
    edge_vector_lane x ids count k &&& 0x8000000000000000 ≠ 0 ↔ count > k := by
  rw [and_bit63_ne_zero_iff]
  unfold edge_vector_lane
  simp only [Nat.testBit_or, Nat.testBit_mod_two_pow, Nat.testBit_shiftLeft]
  have h1 : (ids k).testBit 63 = false := Nat.testBit_lt_two_pow hid
  have h2 : (edge_shared_vertex_pieces x k).testBit (63 - 48) = false :=
    testBit_false_of_lt_of_le (pieces_lt x k) (by decide)
  rw [h1, h2]
  by_cases hc : count > k
  · simp [hc]
  · simp [hc]

theorem valid_lanes_compose (x : Nat) (ids : Nat → Nat) (count : Nat)
    (hids : ∀ k < 4, ids k < 2 ^ 63) (hc : count ≤ 4) :
    edge_vector_valid_lanes (compose_edge_vector x ids count) = count := by
  unfold edge_vector_valid_lanes compose_edge_vector
  simp only [lane_valid_iff x ids count _ (hids _ (by decide : 0 < 4)),
    lane_valid_iff x ids count _ (hids _ (by decide : 1 < 4)),
    lane_valid_iff x ids count _ (hids _ (by decide : 2 < 4)),
    lane_valid_iff x ids count _ (hids _ (by decide : 3 < 4))]
  split_ifs <;> omega
theorem gather_consume_edge_flush (s : IngressState × Stash) (e : Nat × Nat)
    (h : (0 ≠ s.2.count ∧ s.2.shared ≠ e.2) ∨ 4 = s.2.count) :
    gather_consume_edge s e =
      (graph_helper_write_edge_vector s.1 s.2.shared s.2.ids s.2.count 0,
        { shared := e.2, ids := Function.update s.2.ids 0 e.1, count := 0 + 1 }) := by
  simp only [gather_consume_edge, if_pos h]

theorem gather_consume_edge_keep (s : IngressState × Stash) (e : Nat × Nat)
    (h : ¬ ((0 ≠ s.2.count ∧ s.2.shared ≠ e.2) ∨ 4 = s.2.count)) :
    gather_consume_edge s e =
      (s.1, { shared := e.2, ids := Function.update s.2.ids s.2.count e.1,
              count := s.2.count + 1 }) := by
  simp only [gather_consume_edge, if_neg h]

theorem update_lt_of_lt (ids : Nat → Nat) (c v B : Nat) (hids : ∀ k < 4, ids k < B)
    (hv : v < B) : ∀ k < 4, Function.update ids c v k < B := by
  intro k hk
  by_cases h : k = c
  · subst h
    simp [hv]
  · rw [Function.update_noteq h]
    exact hids k hk

theorem total_valid_lanes_singleton (v : EdgeVector) :
    total_valid_lanes [v] = edge_vector_valid_lanes v := by
  simp [total_valid_lanes]

theorem total_valid_lanes_append (a b : List EdgeVector) :
    total_valid_lanes (a ++ b) = total_valid_lanes a + total_valid_lanes b := by
  simp [total_valid_lanes]

/-- Invariant of the gather consumer loop: the stash never holds more than four IDs, its
slots stay below bit 63, and valid lanes written plus stashed IDs count the records read. -/
theorem gather_fold_valid (edges : List (Nat × Nat)) :
    ∀ s : IngressState × Stash, s.2.count ≤ 4 → (∀ k < 4, s.2.ids k < 2 ^ 63) →
      (∀ e ∈ edges, e.1 < 2 ^ 63) →
      (edges.foldl gather_consume_edge s).2.count ≤ 4 ∧
      (∀ k < 4, (edges.foldl gather_consume_edge s).2.ids k < 2 ^ 63) ∧
      total_valid_lanes (edges.foldl gather_consume_edge s).1.graph_edge_list_block_bufs +
          (edges.foldl gather_consume_edge s).2.count =
        total_valid_lanes s.1.graph_edge_list_block_bufs + s.2.count + edges.length := by
  induction edges with
  | nil => intro s hc hids _; exact ⟨hc, hids, rfl⟩
  | cons e es ih =>
    intro s hc hids he
    have he1 : e.1 < 2 ^ 63 := he e (List.mem_cons_self _ _)
    have hes : ∀ x ∈ es, x.1 < 2 ^ 63 := fun x hx => he x (List.mem_cons_of_mem _ hx)
    rw [List.foldl_cons]
    by_cases h : (0 ≠ s.2.count ∧ s.2.shared ≠ e.2) ∨ 4 = s.2.count
    · rw [gather_consume_edge_flush s e h]
      obtain ⟨a, b, c⟩ := ih (graph_helper_write_edge_vector s.1 s.2.shared s.2.ids s.2.count 0,
        Stash.mk (Function.update s.2.ids 0 e.1) e.2 (0 + 1)) (by simp)
        (update_lt_of_lt _ _ _ _ hids he1) hes
      refine ⟨a, b, ?_⟩
      rw [c]
      simp only [graph_helper_write_edge_vector, total_valid_lanes_append,
        total_valid_lanes_singleton, List.length_cons,
        valid_lanes_compose s.2.shared s.2.ids s.2.count hids hc]
      omega
    · rw [gather_consume_edge_keep s e h]
      have hc4 : s.2.count + 1 ≤ 4 := by omega
      obtain ⟨a, b, c⟩ := ih (s.1, Stash.mk (Function.update s.2.ids s.2.count e.1) e.2
        (s.2.count + 1)) hc4 (update_lt_of_lt _ _ _ _ hids he1) hes
      refine ⟨a, b, ?_⟩
      rw [c]
      simp only [List.length_cons]
      omega

theorem scatter_consume_edge_eq (g : Nat) (s : IngressState × Stash) (e : Nat × Nat) :
    scatter_consume_edge g s e = gather_consume_edge s (e.2, e.1) := rfl

theorem scatter_list_eq_gather_list (edges : List (Nat × Nat)) :
    scatter_list edges = gather_list (edges.map Prod.swap) := by
  unfold scatter_list gather_list graph_helper_scatter_list_file_buf_consumer_edge_list
    graph_helper_gather_list_file_buf_consumer_edge_list
  rw [List.foldl_map]
  rfl

theorem gather_list_valid_lanes (edges : List (Nat × Nat)) (h : ∀ e ∈ edges, e.1 < 2 ^ 63) :
    total_valid_lanes (gather_list edges) = edges.length := by
  obtain ⟨a, b, c⟩ := gather_fold_valid edges (IngressState.init, Stash.init) (by simp [Stash.init])
    (by intro k _; simp [Stash.init]) h
  unfold gather_list graph_helper_gather_list_file_buf_consumer_edge_list
  have c2 : total_valid_lanes (edges.foldl gather_consume_edge
      (IngressState.init, Stash.init)).1.graph_edge_list_block_bufs +
      (edges.foldl gather_consume_edge (IngressState.init, Stash.init)).2.count =
      0 + 0 + edges.length := c
  simp only [graph_helper_write_final_edge_vector, graph_helper_write_edge_vector,
    total_valid_lanes_append, total_valid_lanes_singleton, valid_lanes_compose _ _ _ b a]
  omega

theorem run_shape_eq (d k c : Nat) (h1 : 1 ≤ c) (h4 : c ≤ 4) :
    run_shape (d, 4 * k + c) = List.replicate k (d, 4) ++ [(d, c)] := by
  unfold run_shape
  by_cases hc : c = 4
  · subst hc
    have e1 : (4 * k + 4) / 4 = k + 1 := by omega
    have e2 : (4 * k + 4) % 4 = 0 := by omega
    simp only [e1, e2, if_true, List.append_nil]
    exact List.replicate_succ' _ _
  · have e1 : (4 * k + c) / 4 = k := by omega
    have e2 : (4 * k + c) % 4 = c := by omega
    have e3 : c ≠ 0 := by omega
    simp only [e1, e2, if_neg e3]

theorem header_compose (d : Nat) (ids : Nat → Nat) (c : Nat) (hd : d < 2 ^ 48)
    (hids : ∀ k < 4, ids k < 2 ^ 48) (hc : c ≤ 4) :
    edge_vector_header (compose_edge_vector d ids c) = (d, c) := by
  unfold edge_vector_header
  rw [get_shared_compose d ids c hd hids, valid_lanes_compose d ids c
    (fun k hk => Nat.lt_trans (hids k hk) (by decide)) hc]

/-- Shape of what the gather consumer emits once its stash is non-empty: together with the
`k` full vectors of the current run that were emitted before, the headers of the vectors
emitted from here on are the packing of the remaining runs. -/
theorem gather_fold_shape (edges : List (Nat × Nat)) :
    ∀ (s : IngressState × Stash) (k : Nat), 1 ≤ s.2.count → s.2.count ≤ 4 →
      s.2.shared < 2 ^ 48 → (∀ i < 4, s.2.ids i < 2 ^ 48) →
      (∀ e ∈ edges, e.1 < 2 ^ 48 ∧ e.2 < 2 ^ 48) →
      ∃ t : List (Nat × Nat),
        ((graph_helper_write_final_edge_vector (edges.foldl gather_consume_edge s).1
            (edges.foldl gather_consume_edge s).2.shared (edges.foldl gather_consume_edge s).2.ids
            (edges.foldl gather_consume_edge s).2.count 0).graph_edge_list_block_bufs.map
              edge_vector_header
          = s.1.graph_edge_list_block_bufs.map edge_vector_header ++ t) ∧
        List.replicate k (s.2.shared, 4) ++ t =
          (dest_runs_from s.2.shared (4 * k + s.2.count) edges).flatMap run_shape := by
  induction edges with
  | nil =>
    intro s k h1 h4 hd hids _
    refine ⟨[(s.2.shared, s.2.count)], ?_, ?_⟩
    · simp only [List.foldl_nil, graph_helper_write_final_edge_vector,
        graph_helper_write_edge_vector, List.map_append, List.map_cons, List.map_nil,
        header_compose _ _ _ hd hids h4]
    · simp only [dest_runs_from, List.flatMap_cons, List.flatMap_nil, List.append_nil]
      exact (run_shape_eq _ _ _ h1 h4).symm
  | cons e es ih =>
    intro s k h1 h4 hd hids he
    have he1 := he e (List.mem_cons_self _ _)
    have hes : ∀ x ∈ es, x.1 < 2 ^ 48 ∧ x.2 < 2 ^ 48 :=
      fun x hx => he x (List.mem_cons_of_mem _ hx)
    rw [List.foldl_cons]
    by_cases hflush : (0 ≠ s.2.count ∧ s.2.shared ≠ e.2) ∨ 4 = s.2.count
    · rw [gather_consume_edge_flush s e hflush]
      by_cases hsame : e.2 = s.2.shared
      · have hc4 : s.2.count = 4 := by
          rcases hflush with h | h
          · exact absurd hsame.symm h.2
          · exact h.symm
        obtain ⟨t, ht1, ht2⟩ := ih (graph_helper_write_edge_vector s.1 s.2.shared s.2.ids
          s.2.count 0, Stash.mk (Function.update s.2.ids 0 e.1) e.2 (0 + 1)) (k + 1)
          (by simp) (by simp) he1.2 (update_lt_of_lt _ _ _ _ hids he1.1) hes
        dsimp only at ht1 ht2
        refine ⟨(s.2.shared, 4) :: t, ?_, ?_⟩
        · rw [ht1]
          simp only [graph_helper_write_edge_vector, List.map_append, List.map_cons,
            List.map_nil, header_compose _ _ _ hd hids h4, List.append_assoc,
            List.singleton_append]
          rw [hc4]
        · simp only [dest_runs_from, if_pos hsame]
          simp only [hsame] at ht2
          have e1 : 4 * (k + 1) + (0 + 1) = 4 * k + s.2.count + 1 := by omega
          rw [e1] at ht2
          rw [← ht2, List.replicate_succ', List.append_assoc, List.singleton_append]
      · obtain ⟨t, ht1, ht2⟩ := ih (graph_helper_write_edge_vector s.1 s.2.shared s.2.ids
          s.2.count 0, Stash.mk (Function.update s.2.ids 0 e.1) e.2 (0 + 1)) 0
          (by simp) (by simp) he1.2 (update_lt_of_lt _ _ _ _ hids he1.1) hes
        dsimp only at ht1 ht2
        refine ⟨(s.2.shared, s.2.count) :: t, ?_, ?_⟩
        · rw [ht1]
          simp only [graph_helper_write_edge_vector, List.map_append, List.map_cons,
            List.map_nil, header_compose _ _ _ hd hids h4, List.append_assoc,
            List.singleton_append]
        · simp only [dest_runs_from, if_neg hsame, List.flatMap_cons]
          simp only [List.replicate_zero, List.nil_append, Nat.mul_zero, Nat.zero_add] at ht2
          rw [← ht2, run_shape_eq _ _ _ h1 h4, List.append_assoc, List.singleton_append]
    · rw [gather_consume_edge_keep s e hflush]
      have hsame : e.2 = s.2.shared := by
        by_contra hne
        exact hflush (Or.inl ⟨by omega, fun h => hne h.symm⟩)
      have hc4 : s.2.count + 1 ≤ 4 := by
        have : ¬ 4 = s.2.count := fun h => hflush (Or.inr h)
        omega
      obtain ⟨t, ht1, ht2⟩ := ih (s.1, Stash.mk (Function.update s.2.ids s.2.count e.1) e.2
        (s.2.count + 1)) k (by simp) hc4 he1.2 (update_lt_of_lt _ _ _ _ hids he1.1) hes
      dsimp only at ht1 ht2
      refine ⟨t, ht1, ?_⟩
      simp only [dest_runs_from, if_pos hsame]
      simp only [hsame] at ht2
      exact ht2

theorem gather_list_shape (edges : List (Nat × Nat)) (hne : edges ≠ [])
    (hid : ∀ e ∈ edges, e.1 < 2 ^ 48 ∧ e.2 < 2 ^ 48) :
    (gather_list edges).map edge_vector_header = (dest_runs edges).flatMap run_shape := by
  match edges, hne with
  | e :: es, _ =>
    have he1 := hid e (List.mem_cons_self _ _)
    have hes : ∀ x ∈ es, x.1 < 2 ^ 48 ∧ x.2 < 2 ^ 48 :=
      fun x hx => hid x (List.mem_cons_of_mem _ hx)
    have hkeep : ¬ ((0 ≠ (IngressState.init, Stash.init).2.count ∧
        (IngressState.init, Stash.init).2.shared ≠ e.2) ∨
        4 = (IngressState.init, Stash.init).2.count) := by
      simp [Stash.init]
    obtain ⟨t, ht1, ht2⟩ := gather_fold_shape es
      (IngressState.init, Stash.mk (Function.update Stash.init.ids 0 e.1) e.2 (0 + 1)) 0
      (by simp) (by simp) he1.2
      (update_lt_of_lt _ _ _ _ (by intro k _; simp [Stash.init]) he1.1) hes
    dsimp only at ht1 ht2
    unfold gather_list graph_helper_gather_list_file_buf_consumer_edge_list
    rw [List.foldl_cons, gather_consume_edge_keep _ e hkeep]
    simp only [List.replicate_zero, List.nil_append, Nat.mul_zero, Nat.zero_add] at ht2
    simp only [dest_runs]
    rw [← ht2]
    exact ht1

theorem run_shape_length (r : Nat × Nat) : (run_shape r).length = (r.2 + 3) / 4 := by
  unfold run_shape
  by_cases h : r.2 % 4 = 0
  · simp only [h, if_true, List.append_nil, List.length_replicate]
    omega
  · simp only [h, if_false, List.length_append, List.length_replicate, List.length_singleton]
    omega

theorem run_shape_shared (r : Nat × Nat) : ∀ h ∈ run_shape r, h.1 = r.1 := by
  intro h hh
  unfold run_shape at hh
  rcases List.mem_append.1 hh with h1 | h1
  · rw [(List.mem_replicate.1 h1).2]
  · by_cases h0 : r.2 % 4 = 0
    · simp [h0] at h1
    · simp only [if_neg h0, List.mem_singleton] at h1
      rw [h1]

theorem run_shape_full (r : Nat × Nat) : ∀ h ∈ (run_shape r).dropLast, h.2 = 4 := by
  intro h hh
  unfold run_shape at hh
  by_cases h0 : r.2 % 4 = 0
  · simp only [h0, if_true, List.append_nil] at hh
    have := List.mem_of_mem_dropLast hh
    rw [(List.mem_replicate.1 this).2]
  · simp only [if_neg h0] at hh
    rw [List.dropLast_append_of_ne_nil _ (by simp)] at hh
    simp only [List.dropLast_single, List.append_nil] at hh
    rw [(List.mem_replicate.1 hh).2]

theorem dest_runs_from_sum (es : List (Nat × Nat)) :
    ∀ d len, ((dest_runs_from d len es).map Prod.snd).sum = len + es.length := by
  induction es with
  | nil => intro d len; simp [dest_runs_from]
  | cons e es ih =>
    intro d len
    unfold dest_runs_from
    by_cases h : e.2 = d
    · simp only [if_pos h, ih, List.length_cons]
      omega
    · simp only [if_neg h, List.map_cons, List.sum_cons, ih, List.length_cons]
      omega

theorem dest_runs_from_chain (es : List (Nat × Nat)) :
    ∀ (d len : Nat) (x : Nat × Nat), x.1 ≠ d →
      List.Chain (fun a b : Nat × Nat => a.1 ≠ b.1) x (dest_runs_from d len es) := by
  induction es with
  | nil =>
    intro d len x hx
    exact List.Chain.cons hx List.Chain.nil
  | cons e es ih =>
    intro d len x hx
    unfold dest_runs_from
    by_cases h : e.2 = d
    · simp only [if_pos h]
      exact ih d (len + 1) x hx
    · simp only [if_neg h]
      exact List.Chain.cons hx (ih e.2 1 (d, len) (fun h2 => h h2.symm))

theorem dest_runs_sum (edges : List (Nat × Nat)) :
    ((dest_runs edges).map Prod.snd).sum = edges.length := by
  match edges with
  | [] => rfl
  | e :: es =>
    simp only [dest_runs, dest_runs_from_sum, List.length_cons]
    omega

theorem dest_runs_chain (edges : List (Nat × Nat)) :
    List.Chain' (fun a b : Nat × Nat => a.1 ≠ b.1) (dest_runs edges) := by
  match edges with
  | [] => exact List.chain'_nil
  | e :: es =>
    have h := dest_runs_from_chain es e.2 1 (e.2 + 1, 0) (by simp)
    have h2 : List.Chain' (fun a b : Nat × Nat => a.1 ≠ b.1)
        ((e.2 + 1, 0) :: dest_runs_from e.2 1 es) := h
    exact h2.tail

/-- The four records of the star scenario: edges 1->0, 2->0, 3->0, 4->0. -/
theorem star_gather_list :
    (gather_list [(1, 0), (2, 0), (3, 0), (4, 0)]).map
        (fun v => (graph_macro_get_shared_vertex v,
          [edge_vector_individual v 0, edge_vector_individual v 1, edge_vector_individual v 2,
            edge_vector_individual v 3], edge_vector_valid_lanes v))
      = [(0, [1, 2, 3, 4], 4)] := by
  decide

/-- Claim C10, as amended.  For every non-empty edge sequence whose vertex IDs are all below
`2 ^ 48`, the headers (shared endpoint, number of valid lanes) of the vectors that the gather
consumer emits are, run by run, the packing of the maximal runs of equal destination: a run
of `len` records with destination `d` yields `ceil (len / 4)` vectors with shared endpoint
`d`, all but possibly the last with four valid lanes.  The runs cover all records and
neighbouring runs differ in their destination.  The star 1->0, 2->0, 3->0, 4->0 yields one
vector with shared endpoint 0, individual IDs 1, 2, 3, 4 and four valid lanes. -/
theorem C10_gather_packs_runs (edges : List (Nat × Nat)) (hne : edges ≠ [])
    (hid : ∀ e ∈ edges, e.1 < 2 ^ 48 ∧ e.2 < 2 ^ 48) :
    (gather_list edges).map edge_vector_header = (dest_runs edges).flatMap run_shape ∧
    (∀ r ∈ dest_runs edges, (run_shape r).length = (r.2 + 3) / 4 ∧
      (∀ h ∈ run_shape r, h.1 = r.1) ∧ (∀ h ∈ (run_shape r).dropLast, h.2 = 4)) ∧
    ((dest_runs edges).map Prod.snd).sum = edges.length ∧
    List.Chain' (fun a b : Nat × Nat => a.1 ≠ b.1) (dest_runs edges) ∧
    (gather_list [(1, 0), (2, 0), (3, 0), (4, 0)]).map
        (fun v => (graph_macro_get_shared_vertex v,
          [edge_vector_individual v 0, edge_vector_individual v 1, edge_vector_individual v 2,
            edge_vector_individual v 3], edge_vector_valid_lanes v))
      = [(0, [1, 2, 3, 4], 4)] :=
  ⟨gather_list_shape edges hne hid,
    fun r _ => ⟨run_shape_length r, run_shape_shared r, run_shape_full r⟩,
    dest_runs_sum edges, dest_runs_chain edges, star_gather_list⟩

theorem C10_gather_packs_runs_witness :
    (([(7, 2), (8, 2), (9, 2), (1, 2), (3, 2), (5, 6), (2, 2)] : List (Nat × Nat)) ≠ [] ∧
      (∀ e ∈ ([(7, 2), (8, 2), (9, 2), (1, 2), (3, 2), (5, 6), (2, 2)] : List (Nat × Nat)),
        e.1 < 2 ^ 48 ∧ e.2 < 2 ^ 48)) ∧
    (gather_list [(7, 2), (8, 2), (9, 2), (1, 2), (3, 2), (5, 6), (2, 2)]).map edge_vector_header
      = (dest_runs [(7, 2), (8, 2), (9, 2), (1, 2), (3, 2), (5, 6), (2, 2)]).flatMap run_shape :=
  ⟨⟨by decide, by decide⟩,
    (C10_gather_packs_runs [(7, 2), (8, 2), (9, 2), (1, 2), (3, 2), (5, 6), (2, 2)]
      (by decide) (by decide)).1⟩

/-- Counterexample to claim C10 as stated: a record whose destination does not fit in 48
bits is emitted in a vector whose shared endpoint is not that destination. -/
theorem C10_counterexample :
    (gather_list [(0, 2 ^ 48)]).map edge_vector_header = [(0, 1)] ∧
    (dest_runs [(0, 2 ^ 48)]).flatMap run_shape = [(2 ^ 48, 1)] ∧
    (gather_list [(0, 2 ^ 48)]).map edge_vector_header ≠
      (dest_runs [(0, 2 ^ 48)]).flatMap run_shape := by
  decide

/-- Claim C2, as amended.  For every input sequence of records whose vertex IDs are all
below `2 ^ 63` (as every 48-bit vertex ID is), the number of lanes with the valid bit set,
summed over the gather list, equals the number of records, and so does the same sum over
the scatter list. -/
theorem C2_edge_count_preserved (edges : List (Nat × Nat))
    (hid : ∀ e ∈ edges, e.1 < 2 ^ 63 ∧ e.2 < 2 ^ 63) :
    total_valid_lanes (gather_list edges) = edges.length ∧
    total_valid_lanes (scatter_list edges) = edges.length := by
  refine ⟨gather_list_valid_lanes edges (fun e he => (hid e he).1), ?_⟩
  rw [scatter_list_eq_gather_list, gather_list_valid_lanes _ ?_, List.length_map]
  intro e he
  obtain ⟨a, ha, rfl⟩ := List.mem_map.1 he
  exact (hid a ha).2

theorem C2_edge_count_preserved_witness :
    (∀ e ∈ ([(0, 1), (2, 1), (0, 3), (4, 3), (5, 3), (6, 3), (7, 3)] : List (Nat × Nat)),
      e.1 < 2 ^ 63 ∧ e.2 < 2 ^ 63) ∧
    (total_valid_lanes (gather_list [(0, 1), (2, 1), (0, 3), (4, 3), (5, 3), (6, 3), (7, 3)])
        = ([(0, 1), (2, 1), (0, 3), (4, 3), (5, 3), (6, 3), (7, 3)] : List (Nat × Nat)).length ∧
      total_valid_lanes (scatter_list [(0, 1), (2, 1), (0, 3), (4, 3), (5, 3), (6, 3), (7, 3)])
        = ([(0, 1), (2, 1), (0, 3), (4, 3), (5, 3), (6, 3), (7, 3)] : List (Nat × Nat)).length) :=
  ⟨by decide, C2_edge_count_preserved _ (by decide)⟩

/-- Counterexample to claim C2 as stated: three records, one with a destination that has
bit 63 set, give a scatter list with four valid lanes. -/
theorem C2_counterexample :
    total_valid_lanes (scatter_list [(0, 0), (0, 2 ^ 63), (1, 1)]) = 4 ∧
    ([(0, 0), (0, 2 ^ 63), (1, 1)] : List (Nat × Nat)).length = 3 ∧
    ¬ (total_valid_lanes (gather_list [(0, 0), (0, 2 ^ 63), (1, 1)]) =
          ([(0, 0), (0, 2 ^ 63), (1, 1)] : List (Nat × Nat)).length ∧
        total_valid_lanes (scatter_list [(0, 0), (0, 2 ^ 63), (1, 1)]) =
          ([(0, 0), (0, 2 ^ 63), (1, 1)] : List (Nat × Nat)).length) := by
  decide

/-! ## Theorems: vertex index construction -/

theorem get_shared_lt (v : EdgeVector) : graph_macro_get_shared_vertex v < 2 ^ 48 := by
  apply Nat.lt_pow_two_of_testBit
  intro i hi
  unfold graph_macro_get_shared_vertex
  rw [mask_lane15, mask_lane3]
  simp only [Nat.testBit_or, Nat.testBit_shiftRight, Nat.testBit_and, Nat.testBit_shiftLeft,
    Nat.testBit_two_pow_sub_one]
  have a1 : ¬ (48 + i - 48 < 15) := by omega
  have a2 : ¬ (33 + i - 48 < 15) := by omega
  have a3 : ¬ (18 + i - 48 < 15) := by omega
  have a4 : ¬ (3 + i - 48 < 3) := by omega
  simp only [decide_eq_false a1, decide_eq_false a2, decide_eq_false a3, decide_eq_false a4,
    Bool.and_false, Bool.or_false]

theorem shared_at_lt (buf : List EdgeVector) (i : Nat) : shared_at buf i < 2 ^ 48 :=
  get_shared_lt _

theorem fill_loop_eq (n : Nat) : ∀ (i val : Nat) (buf : Nat → Nat), i + n < 2 ^ 64 →
    fill_loop n i val buf = fun v => if i ≤ v ∧ v < i + n then val else buf v := by
  induction n with
  | zero =>
    intro i val buf _
    funext v
    have : ¬ (i ≤ v ∧ v < i + 0) := by omega
    simp only [fill_loop, if_neg this]
  | succ n ih =>
    intro i val buf h
    have e : (i + 1) % 2 ^ 64 = i + 1 := Nat.mod_eq_of_lt (by omega)
    rw [fill_loop, e, ih (i + 1) val _ (by omega)]
    funext v
    by_cases h1 : v = i
    · subst h1
      have c1 : ¬ (v + 1 ≤ v ∧ v < v + 1 + n) := by omega
      have c2 : v ≤ v ∧ v < v + (n + 1) := by omega
      simp only [if_neg c1, if_pos c2, Function.update_same]
    · rw [Function.update_noteq h1]
      by_cases h2 : i + 1 ≤ v ∧ v < i + 1 + n
      · have c2 : i ≤ v ∧ v < i + (n + 1) := by omega
        simp only [if_pos h2, if_pos c2]
      · have c2 : ¬ (i ≤ v ∧ v < i + (n + 1)) := by omega
        simp only [if_neg h2, if_neg c2]

theorem skip_loop_eq (n : Nat) : ∀ (last cur : Nat) (buf : Nat → Nat), last + n + 1 = cur →
    cur < 2 ^ 64 →
    skip_loop n last cur buf =
      (cur - 1, fun v => if last < v ∧ v < cur then 0x7fffffffffffffff else buf v) := by
  induction n with
  | zero =>
    intro last cur buf h _
    have e : last = cur - 1 := by omega
    simp only [skip_loop, e]
    congr 1
    funext v
    have : ¬ (cur - 1 < v ∧ v < cur) := by omega
    simp only [if_neg this]
  | succ n ih =>
    intro last cur buf h hc
    have e1 : (cur + 2 ^ 64 - 1) % 2 ^ 64 = cur - 1 := by omega
    have e2 : (last + 1) % 2 ^ 64 = last + 1 := by omega
    have c : last < cur - 1 := by omega
    have hh : last + 1 + n + 1 = cur := by omega
    have ih2 := ih (last + 1) cur (Function.update buf (last + 1) 0x7fffffffffffffff) hh hc
    rewrite [skip_loop, e1, e2, if_pos c]
    refine ih2.trans ?_
    apply congrArg (Prod.mk (cur - 1))
    funext v
    by_cases h1 : v = last + 1
    · subst h1
      have c1 : ¬ (last + 1 < last + 1 ∧ last + 1 < cur) := by omega
      have c2 : last < last + 1 ∧ last + 1 < cur := by omega
      simp only [if_neg c1, if_pos c2, Function.update_same]
    · rw [Function.update_noteq h1]
      by_cases h2 : last + 1 < v ∧ v < cur
      · have c2 : last < v ∧ v < cur := by omega
        simp only [if_pos h2, if_pos c2]
      · have c2 : ¬ (last < v ∧ v < cur) := by omega
        simp only [if_neg h2, if_neg c2]

theorem index_inv_step (buf : List EdgeVector) (k : Nat) (s : Nat × Nat × (Nat → Nat))
    (hk : 1 ≤ k) (hsorted : ∀ j < k + 1, ∀ i ≤ j, shared_at buf i ≤ shared_at buf j)
    (hinv : IndexInv buf k s) : IndexInv buf (k + 1) (index_loop_body buf k s) := by
  obtain ⟨h1, h2, h3, h4⟩ := hinv
  have hle : shared_at buf (k - 1) ≤ shared_at buf k := hsorted k (by omega) (k - 1) (by omega)
  have hcur := shared_at_lt buf k
  have hmono : ∀ p < k, shared_at buf p ≤ shared_at buf (k - 1) :=
    fun p hp => hsorted (k - 1) (by omega) p (by omega)
  unfold index_loop_body
  by_cases hne : s.1 ≠ shared_at buf k
  · have hlt : s.1 < shared_at buf k := by omega
    have hsk := skip_loop_eq ((shared_at buf k + 2 ^ 64 - 1) % 2 ^ 64 - s.1) s.1
      (shared_at buf k) s.2.2 (by omega) (Nat.lt_trans hcur (by decide))
    simp only [if_pos hne, hsk]
    refine ⟨rfl, rfl, ?_, ?_⟩
    · intro v hv hno
      dsimp only at hv ⊢
      have hvk : v ≠ shared_at buf k := fun h => hno k (by omega) h.symm
      rw [Function.update_noteq hvk]
      by_cases hgap : s.1 < v ∧ v < shared_at buf k
      · simp only [if_pos hgap]
      · simp only [if_neg hgap]
        exact h3 v (by omega) (fun p hp => hno p (by omega))
    · intro p hp
      dsimp only
      by_cases hpk : shared_at buf p = shared_at buf k
      · rw [hpk, Function.update_same]
        refine ⟨rfl, ?_⟩
        intro q hq hqs
        by_contra hcon
        have := hmono q (by omega)
        omega
      · have hpk2 : p < k := by
          by_contra hcon
          have : p = k := by omega
          exact hpk (by rw [this])
        have hple := hmono p hpk2
        rw [Function.update_noteq hpk]
        have hgap : ¬ (s.1 < shared_at buf p ∧ shared_at buf p < shared_at buf k) := by omega
        simp only [if_neg hgap]
        refine ⟨(h4 p hpk2).1, ?_⟩
        intro q hq hqs
        have hqk : q < k := by
          by_contra hcon
          have : q = k := by omega
          rw [this] at hqs
          exact hpk hqs.symm
        exact (h4 p hpk2).2 q hqk hqs
  · have heq : s.1 = shared_at buf k := by
      by_contra hcon
      exact hne hcon
    simp only [if_neg hne]
    have hkk : shared_at buf k = shared_at buf (k - 1) := by omega
    refine ⟨heq, rfl, ?_, ?_⟩
    · intro v hv hno
      exact h3 v hv (fun p hp => hno p (by omega))
    · intro p hp
      dsimp only
      by_cases hpk : p < k
      · refine ⟨(h4 p hpk).1, ?_⟩
        intro q hq hqs
        by_cases hqk : q < k
        · exact (h4 p hpk).2 q hqk hqs
        · have := (h4 p hpk).2 p hpk rfl
          omega
      · have hpe : p = k := by omega
        subst hpe
        rw [hkk]
        refine ⟨(h4 (p - 1) (by omega)).1, ?_⟩
        intro q hq hqs
        by_cases hqk : q < p
        · exact (h4 (p - 1) (by omega)).2 q hqk hqs
        · have := (h4 (p - 1) (by omega)).2 (p - 1) (by omega) rfl
          omega

theorem index_loop_inv (buf : List EdgeVector) (n : Nat) :
    ∀ (k : Nat) (s : Nat × Nat × (Nat → Nat)), 1 ≤ k →
      (∀ j < k + n, ∀ i ≤ j, shared_at buf i ≤ shared_at buf j) →
      IndexInv buf k s → IndexInv buf (k + n) (index_loop buf n k s) := by
  induction n with
  | zero => intro k s _ _ h; exact h
  | succ n ih =>
    intro k s hk hsorted h
    rw [index_loop]
    have := ih (k + 1) (index_loop_body buf k s) (by omega)
      (fun j hj i hi => hsorted j (by omega) i hi)
      (index_inv_step buf k s hk (fun j hj i hi => hsorted j (by omega) i hi) h)
    have e : k + 1 + n = k + (n + 1) := by omega
    rw [e] at this
    exact this

theorem index_inv_init (buf : List EdgeVector) (idx0 : Nat → Nat) :
    IndexInv buf 1 (shared_at buf 0, shared_at buf 0,
      Function.update (fill_loop (shared_at buf 0) 0 0x7fffffffffffffff idx0)
        (shared_at buf 0) 0) := by
  have hlt := shared_at_lt buf 0
  refine ⟨rfl, rfl, ?_, ?_⟩
  · intro v hv hno
    dsimp only at hv ⊢
    have hv0 : v ≠ shared_at buf 0 := fun h => hno 0 (by omega) h.symm
    have hv1 : v ≤ shared_at buf 0 := hv
    rw [Function.update_noteq hv0, fill_loop_eq _ _ _ _ (by omega)]
    have c : 0 ≤ v ∧ v < 0 + shared_at buf 0 := by omega
    simp only [if_pos c]
  · intro p hp
    dsimp only
    have hp0 : p = 0 := by omega
    subst hp0
    rw [Function.update_same]
    exact ⟨rfl, fun q _ _ => Nat.zero_le q⟩

/-- Claim C3.  For every slab of at least one edge vector (and fewer than `2 ^ 63`, as any
array in memory) whose shared endpoints are in non-decreasing order and all below
`vertex_buf_count`, after `graph_helper_create_vertex_index`: every vertex that occurs as a
shared endpoint is mapped to the smallest offset whose vector has that shared endpoint; an
entry of the index holds one of the two sentinels exactly when no vector of the slab has that
shared endpoint; and the recorded start and end are the first and last shared endpoint. -/
theorem C3_vertex_index_correct (slab : List EdgeVector) (idx0 : Nat → Nat)
    (vertex_buf_count : Nat) (hC : 1 ≤ slab.length) (hlen : slab.length < 2 ^ 63)
    (hvb : vertex_buf_count < 2 ^ 64)
    (hsorted : ∀ j < slab.length, ∀ i ≤ j, shared_at slab i ≤ shared_at slab j)
    (hbelow : ∀ p < slab.length, shared_at slab p < vertex_buf_count) :
    (∀ p < slab.length,
      (graph_helper_create_vertex_index slab slab.length idx0 vertex_buf_count).vertex_index_buf
          (shared_at slab p) < slab.length ∧
      shared_at slab ((graph_helper_create_vertex_index slab slab.length idx0
          vertex_buf_count).vertex_index_buf (shared_at slab p)) = shared_at slab p ∧
      ∀ q < slab.length, shared_at slab q = shared_at slab p →
        (graph_helper_create_vertex_index slab slab.length idx0 vertex_buf_count).vertex_index_buf
          (shared_at slab p) ≤ q) ∧
    (∀ v < vertex_buf_count,
      ((graph_helper_create_vertex_index slab slab.length idx0 vertex_buf_count).vertex_index_buf v
          = 0x7fffffffffffffff ∨
        (graph_helper_create_vertex_index slab slab.length idx0 vertex_buf_count).vertex_index_buf v
          = 0xffffffffffffffff) ↔ ∀ p < slab.length, shared_at slab p ≠ v) ∧
    (graph_helper_create_vertex_index slab slab.length idx0 vertex_buf_count).vertex_index_start
      = shared_at slab 0 ∧
    (graph_helper_create_vertex_index slab slab.length idx0 vertex_buf_count).vertex_index_end
      = shared_at slab (slab.length - 1) := by
  have _ := hbelow
  have hinv := index_loop_inv slab (slab.length - 1) 1 _ (Nat.le_refl 1)
    (fun j hj i hi => hsorted j (by omega) i hi) (index_inv_init slab idx0)
  have e : 1 + (slab.length - 1) = slab.length := by omega
  rw [e] at hinv
  obtain ⟨h1, h2, h3, h4⟩ := hinv
  have hbuf : ∀ v, (graph_helper_create_vertex_index slab slab.length idx0
      vertex_buf_count).vertex_index_buf v =
      if shared_at slab (slab.length - 1) + 1 ≤ v ∧ v < vertex_buf_count then 0xffffffffffffffff
      else (index_loop slab (slab.length - 1) 1 (shared_at slab 0, shared_at slab 0,
        Function.update (fill_loop (shared_at slab 0) 0 0x7fffffffffffffff idx0)
          (shared_at slab 0) 0)).2.2 v := by
    intro v
    have hl := shared_at_lt slab (slab.length - 1)
    have em : (shared_at slab (slab.length - 1) + 1) % 2 ^ 64 =
        shared_at slab (slab.length - 1) + 1 := by omega
    unfold graph_helper_create_vertex_index
    dsimp only
    rw [h2, em, fill_loop_eq _ _ _ _ (by omega)]
    dsimp only
    by_cases c : shared_at slab (slab.length - 1) + 1 ≤ v ∧ v < vertex_buf_count
    · have c2 : shared_at slab (slab.length - 1) + 1 ≤ v ∧ v < shared_at slab (slab.length - 1)
          + 1 + (vertex_buf_count - (shared_at slab (slab.length - 1) + 1)) := by omega
      rw [if_pos c, if_pos c2]
    · have c2 : ¬ (shared_at slab (slab.length - 1) + 1 ≤ v ∧ v < shared_at slab
          (slab.length - 1) + 1 + (vertex_buf_count - (shared_at slab (slab.length - 1) + 1))) := by
        omega
      rw [if_neg c, if_neg c2]
  have hocc : ∀ p < slab.length, (graph_helper_create_vertex_index slab slab.length idx0
      vertex_buf_count).vertex_index_buf (shared_at slab p) =
      (index_loop slab (slab.length - 1) 1 (shared_at slab 0, shared_at slab 0,
        Function.update (fill_loop (shared_at slab 0) 0 0x7fffffffffffffff idx0)
          (shared_at slab 0) 0)).2.2 (shared_at slab p) := by
    intro p hp
    have := hsorted (slab.length - 1) (by omega) p (by omega)
    rw [hbuf, if_neg (by omega)]
  refine ⟨?_, ?_, rfl, ?_⟩
  · intro p hp
    rw [hocc p hp]
    have hmin := (h4 p hp).2 p hp rfl
    exact ⟨by omega, (h4 p hp).1, (h4 p hp).2⟩
  · intro v hv
    constructor
    · intro hs p hp hpv
      subst hpv
      rw [hocc p hp] at hs
      have hmin := (h4 p hp).2 p hp rfl
      omega
    · intro hno
      rw [hbuf]
      by_cases c : shared_at slab (slab.length - 1) + 1 ≤ v ∧ v < vertex_buf_count
      · rw [if_pos c]
        exact Or.inr rfl
      · rw [if_neg c]
        exact Or.inl (h3 v (by omega) hno)
  · unfold graph_helper_create_vertex_index
    exact h2

theorem C3_vertex_index_correct_witness :
    (1 ≤ index_example_slab.length ∧ index_example_slab.length < 2 ^ 63 ∧ 10 < 2 ^ 64 ∧
      (∀ j < index_example_slab.length, ∀ i ≤ j,
        shared_at index_example_slab i ≤ shared_at index_example_slab j) ∧
      (∀ p < index_example_slab.length, shared_at index_example_slab p < 10)) ∧
    (∀ v < 10,
      ((graph_helper_create_vertex_index index_example_slab index_example_slab.length
          (fun _ => 0) 10).vertex_index_buf v = 0x7fffffffffffffff ∨
        (graph_helper_create_vertex_index index_example_slab index_example_slab.length
          (fun _ => 0) 10).vertex_index_buf v = 0xffffffffffffffff) ↔
      ∀ p < index_example_slab.length, shared_at index_example_slab p ≠ v) :=
  ⟨⟨by decide, by decide, by decide, by decide, by decide⟩,
    (C3_vertex_index_correct index_example_slab (fun _ => 0) 10 (by decide) (by decide)
      (by decide) (by decide) (by decide)).2.1⟩

/-! ## Theorems: NUMA partitioning of the edge lists -/

theorem start_edge_record_eq (V N i : Nat) (hi : i < N) (hVN : V * N < 2 ^ 64) :
    start_edge_record V N i = V * i / N := by
  unfold start_edge_record
  have h : V * i ≤ V * N := Nat.mul_le_mul_left V (by omega)
  rw [Nat.mod_eq_of_lt (by omega)]

theorem edge_record_count_eq (V N i : Nat) (hi : i < N) (hN : N < 2 ^ 32)
    (hVN : V * N < 2 ^ 64) :
    edge_record_count V N i = V * (i + 1) / N - V * i / N := by
  unfold edge_record_count
  rw [start_edge_record_eq V N i hi hVN]
  unfold end_edge_record
  have h1 : V * (i + 1) ≤ V * N := Nat.mul_le_mul_left V (by omega)
  have h2 : V * i ≤ V * (i + 1) := Nat.mul_le_mul_left V (by omega)
  have h3 : V * i / N ≤ V * (i + 1) / N := Nat.div_le_div_right h2
  have h4 : V * (i + 1) / N ≤ V * (i + 1) := Nat.div_le_self _ _
  rw [Nat.mod_eq_of_lt (by omega : i + 1 < 2 ^ 32),
    Nat.mod_eq_of_lt (by omega : V * (i + 1) < 2 ^ 64)]
  have h5 : V * (i + 1) / N < 2 ^ 64 := by omega
  generalize V * (i + 1) / N = b at h3 h5 ⊢
  generalize V * i / N = a at h3 ⊢
  omega

theorem numaize_gather_fold (bufs : List EdgeVector) (N : Nat) (a0 : NumaEdgeLists) (n : Nat) :
    ∀ i, (((List.range n).foldl (numaize_gather_body bufs N) a0).block_bufs_numa i =
        if i < n then (bufs.drop (start_edge_record bufs.length N i)).take
          (edge_record_count bufs.length N i) else a0.block_bufs_numa i) ∧
      (((List.range n).foldl (numaize_gather_body bufs N) a0).block_counts_numa i =
        if i < n then edge_record_count bufs.length N i else a0.block_counts_numa i) := by
  induction n with
  | zero => intro i; simp
  | succ n ih =>
    intro i
    rw [List.range_succ, List.foldl_append, List.foldl_cons, List.foldl_nil]
    generalize (List.range n).foldl (numaize_gather_body bufs N) a0 = r at ih ⊢
    unfold numaize_gather_body
    dsimp only
    by_cases h : i = n
    · subst h
      simp
    · rw [Function.update_noteq h, Function.update_noteq h, (ih i).1, (ih i).2]
      by_cases h2 : i < n
      · simp [h2, Nat.lt_succ_of_lt h2]
      · have h3 : ¬ i < n + 1 := by omega
        simp [h2, h3]

theorem numaize_scatter_fold (bufs : List EdgeVector) (N : Nat) (a0 : NumaEdgeLists) (n : Nat) :
    ∀ i, (((List.range n).foldl (numaize_scatter_body bufs N) a0).block_bufs_numa i =
        if i < n then (if i > 0 then (bufs.drop (start_edge_record bufs.length N i)).take
          (edge_record_count bufs.length N i) else bufs) else a0.block_bufs_numa i) ∧
      (((List.range n).foldl (numaize_scatter_body bufs N) a0).block_counts_numa i =
        if i < n then edge_record_count bufs.length N i else a0.block_counts_numa i) := by
  induction n with
  | zero => intro i; simp
  | succ n ih =>
    intro i
    rw [List.range_succ, List.foldl_append, List.foldl_cons, List.foldl_nil]
    generalize (List.range n).foldl (numaize_scatter_body bufs N) a0 = r at ih ⊢
    unfold numaize_scatter_body
    dsimp only
    by_cases h : i = n
    · subst h
      simp
    · rw [Function.update_noteq h, Function.update_noteq h, (ih i).1, (ih i).2]
      by_cases h2 : i < n
      · simp [h2, Nat.lt_succ_of_lt h2]
      · have h3 : ¬ i < n + 1 := by omega
        simp [h2, h3]

theorem gather_slab_eq (bufs : List EdgeVector) (N : Nat) (a0 : NumaEdgeLists) (i : Nat)
    (hi : i < N) (hN : N < 2 ^ 32) (hVN : bufs.length * N < 2 ^ 64) :
    (graph_helper_numaize_gather N bufs a0).slab i =
      (bufs.drop (bufs.length * i / N)).take (bufs.length * (i + 1) / N - bufs.length * i / N) ∧
    (graph_helper_numaize_gather N bufs a0).block_counts_numa i =
      bufs.length * (i + 1) / N - bufs.length * i / N := by
  unfold NumaEdgeLists.slab graph_helper_numaize_gather
  rw [(numaize_gather_fold bufs N a0 N i).1, (numaize_gather_fold bufs N a0 N i).2, if_pos hi,
    if_pos hi, start_edge_record_eq _ _ _ hi hVN, edge_record_count_eq _ _ _ hi hN hVN,
    List.take_take, Nat.min_self]
  exact ⟨rfl, rfl⟩

theorem scatter_slab_eq (bufs : List EdgeVector) (N : Nat) (a0 : NumaEdgeLists) (i : Nat)
    (hi : i < N) (hN : N < 2 ^ 32) (hVN : bufs.length * N < 2 ^ 64) :
    (graph_helper_numaize_scatter N bufs a0).slab i =
      (bufs.drop (bufs.length * i / N)).take (bufs.length * (i + 1) / N - bufs.length * i / N) ∧
    (graph_helper_numaize_scatter N bufs a0).block_counts_numa i =
      bufs.length * (i + 1) / N - bufs.length * i / N := by
  unfold NumaEdgeLists.slab graph_helper_numaize_scatter
  rw [(numaize_scatter_fold bufs N a0 N i).1, (numaize_scatter_fold bufs N a0 N i).2, if_pos hi,
    if_pos hi, start_edge_record_eq _ _ _ hi hVN, edge_record_count_eq _ _ _ hi hN hVN]
  refine ⟨?_, rfl⟩
  by_cases h0 : i > 0
  · rw [if_pos h0, List.take_take, Nat.min_self]
  · have e : i = 0 := by omega
    subst e
    simp

theorem slices_flatMap (bufs : List EdgeVector) (N : Nat) (n : Nat) :
    (List.range n).flatMap (fun i => (bufs.drop (bufs.length * i / N)).take
        (bufs.length * (i + 1) / N - bufs.length * i / N)) =
      bufs.take (bufs.length * n / N) := by
  induction n with
  | zero => simp
  | succ n ih =>
    rw [List.range_succ, List.flatMap_append, ih, List.flatMap_cons, List.flatMap_nil,
      List.append_nil]
    have h : bufs.length * n / N ≤ bufs.length * (n + 1) / N :=
      Nat.div_le_div_right (Nat.mul_le_mul_left _ (by omega))
    have e : bufs.length * (n + 1) / N =
        bufs.length * n / N + (bufs.length * (n + 1) / N - bufs.length * n / N) := by omega
    conv_rhs => rw [e, List.take_add]

theorem slices_sum (V N : Nat) (n : Nat) :
    ((List.range n).map (fun i => V * (i + 1) / N - V * i / N)).sum = V * n / N := by
  induction n with
  | zero => simp
  | succ n ih =>
    rw [List.range_succ, List.map_append, List.sum_append, ih]
    have h : V * n / N ≤ V * (n + 1) / N :=
      Nat.div_le_div_right (Nat.mul_le_mul_left _ (by omega))
    simp only [List.map_cons, List.map_nil, List.sum_cons, List.sum_nil]
    omega

/-- Each slice holds `V / N` or `V / N + 1` edge vectors. -/
theorem slice_size_bounds (V N i : Nat) (hN : 0 < N) :
    V / N ≤ V * (i + 1) / N - V * i / N ∧ V * (i + 1) / N - V * i / N ≤ V / N + 1 := by
  have hV : V = N * (V / N) + V % N := (Nat.div_add_mod V N).symm
  have hr : V % N < N := Nat.mod_lt _ hN
  generalize V / N = q at hV
  generalize V % N = r at hV hr
  have e1 : V * i = r * i + N * (q * i) := by rw [hV]; ring
  have e2 : V * (i + 1) = (r * i + r) + N * (q * i + q) := by rw [hV]; ring
  rw [e1, e2, Nat.add_mul_div_left _ _ hN, Nat.add_mul_div_left _ _ hN]
  have h1 : r * i / N ≤ (r * i + r) / N := Nat.div_le_div_right (by omega)
  have h2 : (r * i + r) / N ≤ (r * i + N) / N := Nat.div_le_div_right (by omega)
  have h3 : (r * i + N) / N = r * i / N + 1 := Nat.add_div_right _ hN
  omega

/-- Claim C8.  For every global edge-vector list of `V` vectors and every node count `N`
with `1 ≤ N`, `N` a 32-bit value and `V * N < 2 ^ 64`: the gather slab and the scatter slab
of node `i` are the slice from `V * i / N` up to `V * (i + 1) / N` of the global list, with
that size recorded; the `N` slices in order make up the global list, so they are contiguous
and disjoint; the recorded sizes sum to `V`; and any two sizes differ by at most one. -/
theorem C8_equal_count_slices (bufs : List EdgeVector) (N : Nat) (a0 : NumaEdgeLists)
    (hN1 : 1 ≤ N) (hN : N < 2 ^ 32) (hVN : bufs.length * N < 2 ^ 64) :
    (∀ i < N,
      (graph_helper_numaize_gather N bufs a0).slab i =
        (bufs.drop (bufs.length * i / N)).take
          (bufs.length * (i + 1) / N - bufs.length * i / N) ∧
      (graph_helper_numaize_scatter N bufs a0).slab i =
        (bufs.drop (bufs.length * i / N)).take
          (bufs.length * (i + 1) / N - bufs.length * i / N) ∧
      (graph_helper_numaize_gather N bufs a0).block_counts_numa i =
        bufs.length * (i + 1) / N - bufs.length * i / N ∧
      (graph_helper_numaize_scatter N bufs a0).block_counts_numa i =
        bufs.length * (i + 1) / N - bufs.length * i / N) ∧
    (List.range N).flatMap (graph_helper_numaize_gather N bufs a0).slab = bufs ∧
    (List.range N).flatMap (graph_helper_numaize_scatter N bufs a0).slab = bufs ∧
    ((List.range N).map (graph_helper_numaize_gather N bufs a0).block_counts_numa).sum
      = bufs.length ∧
    ((List.range N).map (graph_helper_numaize_scatter N bufs a0).block_counts_numa).sum
      = bufs.length ∧
    (∀ i < N, ∀ j < N,
      (graph_helper_numaize_gather N bufs a0).block_counts_numa i ≤
        (graph_helper_numaize_gather N bufs a0).block_counts_numa j + 1 ∧
      (graph_helper_numaize_scatter N bufs a0).block_counts_numa i ≤
        (graph_helper_numaize_scatter N bufs a0).block_counts_numa j + 1) := by
  have hfull : bufs.length * N / N = bufs.length := Nat.mul_div_cancel _ (by omega)
  have hg := fun i hi => gather_slab_eq bufs N a0 i hi hN hVN
  have hs := fun i hi => scatter_slab_eq bufs N a0 i hi hN hVN
  have hflat : ∀ f : Nat → List EdgeVector,
      (∀ i < N, f i = (bufs.drop (bufs.length * i / N)).take
        (bufs.length * (i + 1) / N - bufs.length * i / N)) →
      (List.range N).flatMap f = bufs := by
    intro f hf
    have e : (List.range N).flatMap f = (List.range N).flatMap (fun i =>
        (bufs.drop (bufs.length * i / N)).take
          (bufs.length * (i + 1) / N - bufs.length * i / N)) := by
      simp only [List.flatMap, List.flatten]
      congr 1
      exact List.map_congr_left (fun i hi => hf i (List.mem_range.1 hi))
    rw [e, slices_flatMap, hfull, List.take_length]
  have hsum : ∀ f : Nat → Nat,
      (∀ i < N, f i = bufs.length * (i + 1) / N - bufs.length * i / N) →
      ((List.range N).map f).sum = bufs.length := by
    intro f hf
    have e : (List.range N).map f = (List.range N).map (fun i =>
        bufs.length * (i + 1) / N - bufs.length * i / N) :=
      List.map_congr_left (fun i hi => hf i (List.mem_range.1 hi))
    rw [e, slices_sum, hfull]
  refine ⟨fun i hi => ⟨(hg i hi).1, (hs i hi).1, (hg i hi).2, (hs i hi).2⟩,
    hflat _ (fun i hi => (hg i hi).1), hflat _ (fun i hi => (hs i hi).1),
    hsum _ (fun i hi => (hg i hi).2), hsum _ (fun i hi => (hs i hi).2), ?_⟩
  intro i hi j hj
  rw [(hg i hi).2, (hs i hi).2, (hg j hj).2, (hs j hj).2]
  have b1 := slice_size_bounds bufs.length N i (by omega)
  have b2 := slice_size_bounds bufs.length N j (by omega)
  omega

theorem C8_equal_count_slices_witness :
    (1 ≤ 3 ∧ 3 < 2 ^ 32 ∧ index_example_slab.length * 3 < 2 ^ 64) ∧
    (List.range 3).flatMap (graph_helper_numaize_gather 3 index_example_slab
      NumaEdgeLists.blank).slab = index_example_slab ∧
    ((List.range 3).map (graph_helper_numaize_scatter 3 index_example_slab
      NumaEdgeLists.blank).block_counts_numa).sum = index_example_slab.length :=
  ⟨⟨by decide, by decide, by decide⟩,
    (C8_equal_count_slices index_example_slab 3 NumaEdgeLists.blank (by decide) (by decide)
      (by decide)).2.1,
    (C8_equal_count_slices index_example_slab 3 NumaEdgeLists.blank (by decide) (by decide)
      (by decide)).2.2.2.2.1⟩

/-! ## Theorems: NUMA assignment of the vertices -/

theorem numaize_vertices_fold (N nv : Nat) (lists : NumaEdgeLists) (a0 : VertexAssignment)
    (n : Nat) :
    ∀ i, (((List.range n).foldl (numaize_vertices_body N nv lists) a0).graph_vertex_last_numa i =
        if i < n then vertex_last_value N nv lists i else a0.graph_vertex_last_numa i) ∧
      (((List.range n).foldl (numaize_vertices_body N nv lists) a0).graph_vertex_first_numa i =
        if i < n then vertex_first_value N nv lists i else a0.graph_vertex_first_numa i) ∧
      (((List.range n).foldl (numaize_vertices_body N nv lists) a0).graph_vertex_count_numa i =
        if i < n then
          ((vertex_last_value N nv lists i + 2 ^ 64 - vertex_first_value N nv lists i) % 2 ^ 64
            + 1) % 2 ^ 64
        else a0.graph_vertex_count_numa i) := by
  induction n with
  | zero => intro i; simp
  | succ n ih =>
    intro i
    rw [List.range_succ, List.foldl_append, List.foldl_cons, List.foldl_nil]
    generalize (List.range n).foldl (numaize_vertices_body N nv lists) a0 = r at ih ⊢
    have hprev : (if n > 0 then (r.graph_vertex_last_numa (n - 1) + 1) % 2 ^ 64 else 0) =
        vertex_first_value N nv lists n := by
      unfold vertex_first_value
      by_cases h0 : n > 0
      · rw [if_pos h0, if_pos h0, (ih (n - 1)).1, if_pos (by omega)]
      · rw [if_neg h0, if_neg h0]
    unfold numaize_vertices_body
    dsimp only
    rw [hprev]
    by_cases h : i = n
    · subst h
      simp only [Function.update_same, Nat.lt_succ_self, if_true]
      unfold vertex_last_value
      simp only [and_self]
    · rw [Function.update_noteq h, Function.update_noteq h, Function.update_noteq h, (ih i).1,
        (ih i).2.1, (ih i).2.2]
      by_cases h2 : i < n
      · simp only [if_pos h2, if_pos (Nat.lt_succ_of_lt h2), and_self]
      · have h3 : ¬ i < n + 1 := by omega
        simp only [if_neg h2, if_neg h3, and_self]

theorem and_511 (l : Nat) : l &&& 511 = l % 512 := Nat.and_pow_two_sub_one_eq_mod l 9

theorem vertex_last_value_inner (N nv : Nat) (lists : NumaEdgeLists) (i : Nat)
    (hi : i + 1 < N) (hN : N < 2 ^ 32) :
    vertex_last_value N nv lists i =
      last_shared_vertex lists i + 511 - last_shared_vertex lists i % 512 := by
  unfold vertex_last_value
  have hl : last_shared_vertex lists i < 2 ^ 48 := get_shared_lt _
  rw [if_pos (by omega), and_511]
  omega

theorem vertex_last_value_final (N nv : Nat) (lists : NumaEdgeLists) (i : Nat)
    (hi : i + 1 = N) (hN : N < 2 ^ 32) :
    vertex_last_value N nv lists i = (nv + 2 ^ 64 - 1) % 2 ^ 64 := by
  unfold vertex_last_value
  rw [if_neg (by omega)]

/-- Where the slab of node `i` is non-empty and lies within the node's buffer, the vector read
by `last_shared_vertex` is the last vector of the slab. -/
theorem last_shared_vertex_slab (lists : NumaEdgeLists) (i : Nat)
    (h1 : 1 ≤ lists.block_counts_numa i)
    (h2 : lists.block_counts_numa i ≤ (lists.block_bufs_numa i).length)
    (h3 : lists.block_counts_numa i < 2 ^ 64) :
    ∃ v, (lists.slab i).getLast? = some v ∧
      last_shared_vertex lists i = graph_macro_get_shared_vertex v := by
  unfold NumaEdgeLists.slab last_shared_vertex
  generalize lists.block_counts_numa i = c at h1 h2 h3
  generalize lists.block_bufs_numa i = b at h2
  have e : (c + 2 ^ 64 - 1) % 2 ^ 64 = c - 1 := by omega
  have hlt : c - 1 < b.length := by omega
  refine ⟨b[c - 1], ?_, ?_⟩
  · rw [List.getLast?_eq_getElem?, List.length_take, Nat.min_eq_left h2, List.getElem?_take,
      if_pos (by omega), List.getElem?_eq_getElem hlt]
  · rw [e, List.getD_eq_getElem?_getD, List.getElem?_eq_getElem hlt, Option.getD_some]

/-- Claim C9.  For a 32-bit node count `N`, a 64-bit vertex count and per-node gather lists in
which every node other than the final one has a non-empty slab within its buffer (the nodes
whose last vector the loop reads), the arrays written by `graph_helper_numaize_vertices`
satisfy, for every node `i` below `N`: `first [0] = 0` and `first [i] = last [i - 1] + 1` for
`i > 0`; for every node other than the final one, the gather slab of the node has a last
vector `v`, and `last [i]` is the smallest value at or above
`graph_macro_get_shared_vertex v` that is congruent to 511 modulo 512; `last [N - 1]` is
`num_vertices - 1` (computed in 64-bit arithmetic, hence exact when there is a vertex); and
`count [i]` is `last [i] - first [i] + 1` computed in 64-bit arithmetic, which is the exact
value whenever `first [i]` is at most `last [i] + 1`. -/
theorem C9_vertex_assignment (N nv : Nat) (lists : NumaEdgeLists) (a0 : VertexAssignment)
    (hN : N < 2 ^ 32) (hnv : nv < 2 ^ 64)
    (hne : ∀ i < N, i + 1 < N →
      1 ≤ lists.block_counts_numa i ∧
      lists.block_counts_numa i ≤ (lists.block_bufs_numa i).length ∧
      lists.block_counts_numa i < 2 ^ 64) :
    ∀ i < N,
      (i = 0 → (graph_helper_numaize_vertices N nv lists a0).graph_vertex_first_numa i = 0) ∧
      (0 < i → (graph_helper_numaize_vertices N nv lists a0).graph_vertex_first_numa i =
        (graph_helper_numaize_vertices N nv lists a0).graph_vertex_last_numa (i - 1) + 1) ∧
      (i + 1 < N →
        ∃ v, (lists.slab i).getLast? = some v ∧
          graph_macro_get_shared_vertex v ≤
            (graph_helper_numaize_vertices N nv lists a0).graph_vertex_last_numa i ∧
          (graph_helper_numaize_vertices N nv lists a0).graph_vertex_last_numa i % 512 = 511 ∧
          ∀ m, graph_macro_get_shared_vertex v ≤ m → m % 512 = 511 →
            (graph_helper_numaize_vertices N nv lists a0).graph_vertex_last_numa i ≤ m) ∧
      (i + 1 = N →
        (graph_helper_numaize_vertices N nv lists a0).graph_vertex_last_numa i =
          (nv + 2 ^ 64 - 1) % 2 ^ 64 ∧
        (1 ≤ nv →
          (graph_helper_numaize_vertices N nv lists a0).graph_vertex_last_numa i = nv - 1)) ∧
      ((graph_helper_numaize_vertices N nv lists a0).graph_vertex_count_numa i : Int) =
        (((graph_helper_numaize_vertices N nv lists a0).graph_vertex_last_numa i : Int) -
          (graph_helper_numaize_vertices N nv lists a0).graph_vertex_first_numa i + 1) % 2 ^ 64 ∧
      ((graph_helper_numaize_vertices N nv lists a0).graph_vertex_first_numa i ≤
          (graph_helper_numaize_vertices N nv lists a0).graph_vertex_last_numa i + 1 →
        (graph_helper_numaize_vertices N nv lists a0).graph_vertex_last_numa i + 1 -
          (graph_helper_numaize_vertices N nv lists a0).graph_vertex_first_numa i < 2 ^ 64 →
        (graph_helper_numaize_vertices N nv lists a0).graph_vertex_count_numa i +
            (graph_helper_numaize_vertices N nv lists a0).graph_vertex_first_numa i =
          (graph_helper_numaize_vertices N nv lists a0).graph_vertex_last_numa i + 1) := by
  intro i hi
  have hf := numaize_vertices_fold N nv lists a0 N
  have hlast : ∀ j < N, (graph_helper_numaize_vertices N nv lists a0).graph_vertex_last_numa j =
      vertex_last_value N nv lists j := by
    intro j hj
    unfold graph_helper_numaize_vertices
    rw [(hf j).1, if_pos hj]
  have hfirst : (graph_helper_numaize_vertices N nv lists a0).graph_vertex_first_numa i =
      vertex_first_value N nv lists i := by
    unfold graph_helper_numaize_vertices
    rw [(hf i).2.1, if_pos hi]
  have hcount : (graph_helper_numaize_vertices N nv lists a0).graph_vertex_count_numa i =
      ((vertex_last_value N nv lists i + 2 ^ 64 - vertex_first_value N nv lists i) % 2 ^ 64
        + 1) % 2 ^ 64 := by
    unfold graph_helper_numaize_vertices
    rw [(hf i).2.2, if_pos hi]
  have hlastlt : vertex_last_value N nv lists i < 2 ^ 64 := by
    unfold vertex_last_value
    split_ifs <;> omega
  have hfirstlt : vertex_first_value N nv lists i < 2 ^ 64 := by
    unfold vertex_first_value
    split_ifs <;> omega
  rw [hlast i hi, hfirst, hcount]
  refine ⟨?_, ?_, ?_, ?_, ?_, ?_⟩
  · intro h0
    subst h0
    rfl
  · intro h0
    rw [hlast (i - 1) (by omega)]
    unfold vertex_first_value
    have hl : last_shared_vertex lists (i - 1) < 2 ^ 48 := get_shared_lt _
    rw [if_pos h0, vertex_last_value_inner N nv lists (i - 1) (by omega) hN]
    omega
  · intro h1
    obtain ⟨hc1, hc2, hc3⟩ := hne i hi h1
    obtain ⟨v, hv, hs⟩ := last_shared_vertex_slab lists i hc1 hc2 hc3
    rw [vertex_last_value_inner N nv lists i h1 hN, hs]
    refine ⟨v, hv, by omega, by omega, ?_⟩
    intro m hm1 hm2
    omega
  · intro h1
    rw [vertex_last_value_final N nv lists i h1 hN]
    exact ⟨rfl, fun h => by omega⟩
  · generalize vertex_last_value N nv lists i = l at hlastlt ⊢
    generalize vertex_first_value N nv lists i = f at hfirstlt ⊢
    omega
  · generalize vertex_last_value N nv lists i = l at hlastlt ⊢
    generalize vertex_first_value N nv lists i = f at hfirstlt ⊢
    intro h1 h2
    omega

theorem C9_vertex_assignment_witness :
    ((2 : Nat) < 2 ^ 32 ∧ (10 : Nat) < 2 ^ 64 ∧
      ∀ i < 2, i + 1 < 2 →
        1 ≤ (graph_helper_numaize_gather 2 partition_example_bufs
          NumaEdgeLists.blank).block_counts_numa i ∧
        (graph_helper_numaize_gather 2 partition_example_bufs
            NumaEdgeLists.blank).block_counts_numa i ≤
          ((graph_helper_numaize_gather 2 partition_example_bufs
            NumaEdgeLists.blank).block_bufs_numa i).length ∧
        (graph_helper_numaize_gather 2 partition_example_bufs
          NumaEdgeLists.blank).block_counts_numa i < 2 ^ 64) ∧
    ∃ v, ((graph_helper_numaize_gather 2 partition_example_bufs
        NumaEdgeLists.blank).slab 0).getLast? = some v ∧
      graph_macro_get_shared_vertex v ≤
        (graph_helper_numaize_vertices 2 10
          (graph_helper_numaize_gather 2 partition_example_bufs NumaEdgeLists.blank)
          VertexAssignment.blank).graph_vertex_last_numa 0 ∧
      (graph_helper_numaize_vertices 2 10
          (graph_helper_numaize_gather 2 partition_example_bufs NumaEdgeLists.blank)
          VertexAssignment.blank).graph_vertex_last_numa 0 % 512 = 511 ∧
      ∀ m, graph_macro_get_shared_vertex v ≤ m → m % 512 = 511 →
        (graph_helper_numaize_vertices 2 10
          (graph_helper_numaize_gather 2 partition_example_bufs NumaEdgeLists.blank)
          VertexAssignment.blank).graph_vertex_last_numa 0 ≤ m :=
  ⟨⟨by decide, by decide, by decide⟩,
    (C9_vertex_assignment 2 10
      (graph_helper_numaize_gather 2 partition_example_bufs NumaEdgeLists.blank)
      VertexAssignment.blank (by decide) (by decide) (by decide) 0 (by decide)).2.2.1
      (by decide)⟩

theorem last_shared_vertex_gather (bufs : List EdgeVector) (N : Nat) (a0 : NumaEdgeLists)
    (i : Nat) (hi : i < N) (hN : N < 2 ^ 32) (hVN : bufs.length * N < 2 ^ 64)
    (hne : 1 ≤ (graph_helper_numaize_gather N bufs a0).block_counts_numa i) :
    last_shared_vertex (graph_helper_numaize_gather N bufs a0) i =
      shared_at bufs (bufs.length * (i + 1) / N - 1) := by
  have hc := (gather_slab_eq bufs N a0 i hi hN hVN).2
  rw [hc] at hne
  unfold last_shared_vertex shared_at
  rw [hc]
  unfold graph_helper_numaize_gather
  rw [(numaize_gather_fold bufs N a0 N i).1, if_pos hi, start_edge_record_eq _ _ _ hi hVN,
    edge_record_count_eq _ _ _ hi hN hVN]
  have h1 : bufs.length * (i + 1) ≤ bufs.length * N := Nat.mul_le_mul_left _ (by omega)
  have h2 : bufs.length * (i + 1) / N ≤ bufs.length * (i + 1) := Nat.div_le_self _ _
  generalize bufs.length * (i + 1) / N = b at hne h2 ⊢
  generalize bufs.length * i / N = a at hne ⊢
  have e : (b - a + 2 ^ 64 - 1) % 2 ^ 64 = b - a - 1 := by omega
  rw [e]
  apply congrArg graph_macro_get_shared_vertex
  have e2 : a + (b - a - 1) = b - 1 := by omega
  simp only [List.getD_eq_getElem?_getD, List.getElem?_take, List.getElem?_drop]
  rw [if_pos (by omega), e2]

/-- Consecutive ranges with non-decreasing upper ends that start at 0 and end at `nv - 1`
cover the values below `nv` exactly once. -/
theorem ranges_partition_core (N nv : Nat) (F L : Nat → Nat) (hN : 1 ≤ N) (hnv : 1 ≤ nv)
    (hF0 : F 0 = 0) (hF : ∀ i, 0 < i → i < N → F i = L (i - 1) + 1)
    (hmono : ∀ i j, i ≤ j → j < N → L i ≤ L j) (hlast : L (N - 1) = nv - 1) :
    (∀ v, v < nv ↔ ∃ i < N, F i ≤ v ∧ v ≤ L i) ∧
    (∀ i < N, ∀ j < N, ∀ v, F i ≤ v → v ≤ L i → F j ≤ v → v ≤ L j → i = j) := by
  have hlt : ∀ i j, i < j → j < N → ∀ v, v ≤ L i → F j ≤ v → False := by
    intro i j hij hj v h1 h2
    have := hmono i (j - 1) (by omega) (by omega)
    have := hF j (by omega) hj
    omega
  constructor
  · intro v
    constructor
    · intro hv
      have hex : ∃ i, v ≤ L i := ⟨N - 1, by omega⟩
      refine ⟨Nat.find hex, ?_, ?_, Nat.find_spec hex⟩
      · have := Nat.find_min' hex (show v ≤ L (N - 1) by omega)
        omega
      · by_cases h0 : Nat.find hex = 0
        · rw [h0, hF0]
          exact Nat.zero_le v
        · have hle := Nat.find_min' hex (show v ≤ L (N - 1) by omega)
          have hmin := Nat.find_min hex (show Nat.find hex - 1 < Nat.find hex by omega)
          have := hF (Nat.find hex) (by omega) (by omega)
          omega
    · rintro ⟨i, hi, _, h2⟩
      have := hmono i (N - 1) (by omega) (by omega)
      omega
  · intro i hi j hj v a1 a2 b1 b2
    by_contra hne
    rcases Nat.lt_or_gt_of_ne hne with h | h
    · exact hlt i j h hj v a2 b1
    · exact hlt j i h hi v b2 a1

/-- Claim C4, as amended.  For every gather list sorted by destination that is sliced for
`N ≥ 1` nodes with every slab non-empty, and every vertex count `num_vertices ≥ 1`, provided
the last vertex computed for every node except the final one is below `num_vertices`: the
vertex ranges from `graph_vertex_first_numa [i]` to `graph_vertex_last_numa [i]` computed by
`graph_helper_numaize_vertices` are pairwise disjoint, their union is exactly the set of
vertices below `num_vertices`, and the last vertex of every node except the final one is
congruent to 511 modulo 512. -/
theorem C4_vertex_ranges_partition (bufs : List EdgeVector) (N nv : Nat) (a0 : NumaEdgeLists)
    (v0 : VertexAssignment) (hN1 : 1 ≤ N) (hN : N < 2 ^ 32)
    (hVN : bufs.length * N < 2 ^ 64) (hnv1 : 1 ≤ nv) (hnv : nv < 2 ^ 64)
    (hsorted : ∀ j < bufs.length, ∀ i ≤ j, shared_at bufs i ≤ shared_at bufs j)
    (hne : ∀ i < N, 1 ≤ (graph_helper_numaize_gather N bufs a0).block_counts_numa i)
    (hfit : ∀ i < N, i + 1 < N →
      (graph_helper_numaize_vertices N nv (graph_helper_numaize_gather N bufs a0)
        v0).graph_vertex_last_numa i < nv) :
    (∀ v, v < nv ↔ ∃ i < N,
      (graph_helper_numaize_vertices N nv (graph_helper_numaize_gather N bufs a0)
        v0).graph_vertex_first_numa i ≤ v ∧
      v ≤ (graph_helper_numaize_vertices N nv (graph_helper_numaize_gather N bufs a0)
        v0).graph_vertex_last_numa i) ∧
    (∀ i < N, ∀ j < N, ∀ v,
      (graph_helper_numaize_vertices N nv (graph_helper_numaize_gather N bufs a0)
        v0).graph_vertex_first_numa i ≤ v →
      v ≤ (graph_helper_numaize_vertices N nv (graph_helper_numaize_gather N bufs a0)
        v0).graph_vertex_last_numa i →
      (graph_helper_numaize_vertices N nv (graph_helper_numaize_gather N bufs a0)
        v0).graph_vertex_first_numa j ≤ v →
      v ≤ (graph_helper_numaize_vertices N nv (graph_helper_numaize_gather N bufs a0)
        v0).graph_vertex_last_numa j → i = j) ∧
    (∀ i, i + 1 < N →
      (graph_helper_numaize_vertices N nv (graph_helper_numaize_gather N bufs a0)
        v0).graph_vertex_last_numa i % 512 = 511) := by
  generalize hlists : graph_helper_numaize_gather N bufs a0 = lists at hne hfit ⊢
  have hf := numaize_vertices_fold N nv lists v0 N
  have hlast : ∀ j < N, (graph_helper_numaize_vertices N nv lists v0).graph_vertex_last_numa j =
      vertex_last_value N nv lists j := by
    intro j hj
    unfold graph_helper_numaize_vertices
    rw [(hf j).1, if_pos hj]
  have hfirst : ∀ j < N, (graph_helper_numaize_vertices N nv lists v0).graph_vertex_first_numa j =
      vertex_first_value N nv lists j := by
    intro j hj
    unfold graph_helper_numaize_vertices
    rw [(hf j).2.1, if_pos hj]
  have hs : ∀ j < N, last_shared_vertex lists j =
      shared_at bufs (bufs.length * (j + 1) / N - 1) := by
    intro j hj
    rw [← hlists]
    exact last_shared_vertex_gather bufs N a0 j hj hN hVN (by rw [hlists]; exact hne j hj)
  have hcnt : ∀ j < N, 1 ≤ bufs.length * (j + 1) / N - bufs.length * j / N := by
    intro j hj
    have := hne j hj
    rw [← hlists, (gather_slab_eq bufs N a0 j hj hN hVN).2] at this
    exact this
  have hsmono : ∀ i j, i ≤ j → j < N → last_shared_vertex lists i ≤ last_shared_vertex lists j := by
    intro i j hij hj
    rw [hs i (by omega), hs j hj]
    have h1 : bufs.length * (i + 1) / N ≤ bufs.length * (j + 1) / N :=
      Nat.div_le_div_right (Nat.mul_le_mul_left _ (by omega))
    have h2 : bufs.length * (j + 1) / N ≤ bufs.length := by
      have : bufs.length * (j + 1) ≤ bufs.length * N := Nat.mul_le_mul_left _ (by omega)
      calc bufs.length * (j + 1) / N ≤ bufs.length * N / N := Nat.div_le_div_right this
        _ = bufs.length := Nat.mul_div_cancel _ (by omega)
    have h3 := hcnt j hj
    generalize bufs.length * (i + 1) / N = bi at h1 ⊢
    generalize bufs.length * (j + 1) / N = bj at h1 h2 h3 ⊢
    generalize bufs.length * j / N = aj at h3
    exact hsorted _ (by omega) _ (by omega)
  have hLmono : ∀ i j, i ≤ j → j < N →
      vertex_last_value N nv lists i ≤ vertex_last_value N nv lists j := by
    intro i j hij hj
    by_cases hjf : j + 1 < N
    · rw [vertex_last_value_inner N nv lists i (by omega) hN,
        vertex_last_value_inner N nv lists j hjf hN]
      have := hsmono i j hij hj
      omega
    · have hjN : j + 1 = N := by omega
      rw [vertex_last_value_final N nv lists j hjN hN]
      by_cases hif : i + 1 < N
      · have := hfit i (by omega) hif
        rw [hlast i (by omega)] at this
        omega
      · have : i = j := by omega
        rw [this, vertex_last_value_final N nv lists j hjN hN]
  have core := ranges_partition_core N nv (vertex_first_value N nv lists)
    (vertex_last_value N nv lists) hN1 hnv1 rfl
    (by
      intro i h0 hi
      unfold vertex_first_value
      have hl : last_shared_vertex lists (i - 1) < 2 ^ 48 := get_shared_lt _
      rw [if_pos h0, vertex_last_value_inner N nv lists (i - 1) (by omega) hN]
      omega)
    hLmono
    (by rw [vertex_last_value_final N nv lists (N - 1) (by omega) hN]; omega)
  refine ⟨?_, ?_, ?_⟩
  · intro v
    rw [core.1 v]
    constructor
    · rintro ⟨i, hi, h1, h2⟩
      exact ⟨i, hi, by rw [hfirst i hi]; exact h1, by rw [hlast i hi]; exact h2⟩
    · rintro ⟨i, hi, h1, h2⟩
      exact ⟨i, hi, by rw [← hfirst i hi]; exact h1, by rw [← hlast i hi]; exact h2⟩
  · intro i hi j hj v a1 a2 b1 b2
    rw [hfirst i hi] at a1
    rw [hlast i hi] at a2
    rw [hfirst j hj] at b1
    rw [hlast j hj] at b2
    exact core.2 i hi j hj v a1 a2 b1 b2
  · intro i hi
    rw [hlast i (by omega), vertex_last_value_inner N nv lists i hi hN]
    omega

theorem C4_vertex_ranges_partition_witness :
    ((1 ≤ 2 ∧ 2 < 2 ^ 32 ∧ partition_fit_bufs.length * 2 < 2 ^ 64 ∧ 1 ≤ 1024 ∧ 1024 < 2 ^ 64) ∧
      (∀ j < partition_fit_bufs.length, ∀ i ≤ j,
        shared_at partition_fit_bufs i ≤ shared_at partition_fit_bufs j) ∧
      (∀ i < 2, 1 ≤ (graph_helper_numaize_gather 2 partition_fit_bufs
        NumaEdgeLists.blank).block_counts_numa i) ∧
      (∀ i < 2, i + 1 < 2 →
        (graph_helper_numaize_vertices 2 1024
          (graph_helper_numaize_gather 2 partition_fit_bufs NumaEdgeLists.blank)
          VertexAssignment.blank).graph_vertex_last_numa i < 1024)) ∧
    (∀ v, v < 1024 ↔ ∃ i < 2,
      (graph_helper_numaize_vertices 2 1024
        (graph_helper_numaize_gather 2 partition_fit_bufs NumaEdgeLists.blank)
        VertexAssignment.blank).graph_vertex_first_numa i ≤ v ∧
      v ≤ (graph_helper_numaize_vertices 2 1024
        (graph_helper_numaize_gather 2 partition_fit_bufs NumaEdgeLists.blank)
        VertexAssignment.blank).graph_vertex_last_numa i) :=
  ⟨⟨⟨by decide, by decide, by decide, by decide, by decide⟩, by decide, by decide, by decide⟩,
    (C4_vertex_ranges_partition partition_fit_bufs 2 1024 NumaEdgeLists.blank
      VertexAssignment.blank (by decide) (by decide) (by decide) (by decide) (by decide)
      (by decide) (by decide) (by decide)).1⟩

/-- Counterexample to claim C4 as stated: a graph with 10 vertices and the edges 0->3 and
1->7 on two nodes is well-formed (sorted gather list, both slabs non-empty), yet node 0 is
given the vertices 0 to 511 and node 1 the range from 512 to 9, so the union of the ranges is
not the set of vertices below 10. -/
theorem C4_counterexample :
    ((∀ j < partition_example_bufs.length, ∀ i ≤ j,
        shared_at partition_example_bufs i ≤ shared_at partition_example_bufs j) ∧
      (∀ p < partition_example_bufs.length, shared_at partition_example_bufs p < 10) ∧
      (∀ i < 2, 1 ≤ (graph_helper_numaize_gather 2 partition_example_bufs
        NumaEdgeLists.blank).block_counts_numa i)) ∧
    (List.range 2).map (graph_helper_numaize_vertices 2 10
        (graph_helper_numaize_gather 2 partition_example_bufs NumaEdgeLists.blank)
        VertexAssignment.blank).graph_vertex_first_numa = [0, 512] ∧
    (List.range 2).map (graph_helper_numaize_vertices 2 10
        (graph_helper_numaize_gather 2 partition_example_bufs NumaEdgeLists.blank)
        VertexAssignment.blank).graph_vertex_last_numa = [511, 9] ∧
    ¬ (∀ v, v < 10 ↔ ∃ i < 2,
      (graph_helper_numaize_vertices 2 10
        (graph_helper_numaize_gather 2 partition_example_bufs NumaEdgeLists.blank)
        VertexAssignment.blank).graph_vertex_first_numa i ≤ v ∧
      v ≤ (graph_helper_numaize_vertices 2 10
        (graph_helper_numaize_gather 2 partition_example_bufs NumaEdgeLists.blank)
        VertexAssignment.blank).graph_vertex_last_numa i) := by
  refine ⟨⟨by decide, by decide, by decide⟩, by decide, by decide, ?_⟩
  intro h
  have h10 := (h 10).2 ⟨0, by decide, by decide, by decide⟩
  exact absurd h10 (by decide)

/-! ## Theorems: merge reconciliation -/

theorem merge_entries_from_cons {α : Type} (mb : Nat → mergeaccum_t α) (count i : Nat)
    (h : i < count) :
    merge_entries_from mb count i = mb i :: merge_entries_from mb count (i + 1) := by
  unfold merge_entries_from
  have e : count - i = (count - (i + 1)) + 1 := by omega
  rw [e, List.range'_succ, List.map_cons]

theorem merge_entries_from_nil {α : Type} (mb : Nat → mergeaccum_t α) (count i : Nat)
    (h : count ≤ i) : merge_entries_from mb count i = [] := by
  unfold merge_entries_from
  have e : count - i = 0 := by omega
  rw [e]
  rfl

/-- The inner loop scans exactly the run of entries with the same final vertex: it stops
behind the run, with the partial values of the run folded in buffer order. -/
theorem merge_inner_loop_eq {α : Type} (REDUCE : α → α → α) (mb : Nat → mergeaccum_t α)
    (count i : Nat) (fuel : Nat) :
    ∀ (j : Nat) (p : α), j ≤ count → count - j ≤ fuel →
      merge_inner_loop REDUCE mb count i fuel j p =
        (j + ((merge_entries_from mb count j).takeWhile
            (fun x => decide (x.final_vertex_id = (mb i).final_vertex_id))).length,
          ((merge_entries_from mb count j).takeWhile
            (fun x => decide (x.final_vertex_id = (mb i).final_vertex_id))).foldl
            (fun p x => REDUCE p x.final_partial_value) p) ∧
      (merge_entries_from mb count j).dropWhile
          (fun x => decide (x.final_vertex_id = (mb i).final_vertex_id)) =
        merge_entries_from mb count
          (j + ((merge_entries_from mb count j).takeWhile
            (fun x => decide (x.final_vertex_id = (mb i).final_vertex_id))).length) := by
  induction fuel with
  | zero =>
    intro j p hj hf
    rw [merge_entries_from_nil mb count j (by omega)]
    exact ⟨rfl, (merge_entries_from_nil mb count _ (by simp; omega)).symm⟩
  | succ fuel ih =>
    intro j p hj hf
    by_cases hlt : j < count
    · rw [merge_entries_from_cons mb count j hlt, merge_inner_loop]
      by_cases hsame : (mb j).final_vertex_id = (mb i).final_vertex_id
      · have hc : j < count ∧ (mb j).final_vertex_id = (mb i).final_vertex_id := ⟨hlt, hsame⟩
        obtain ⟨h1, h2⟩ := ih (j + 1) (REDUCE p (mb j).final_partial_value) (by omega) (by omega)
        have hd : decide ((mb j).final_vertex_id = (mb i).final_vertex_id) = true :=
          decide_eq_true hsame
        rw [if_pos hc, h1]
        simp only [List.takeWhile_cons, List.dropWhile_cons, hd, if_true, eq_self_iff_true,
          List.length_cons, List.foldl_cons]
        rw [h2]
        have e : j + 1 + ((merge_entries_from mb count (j + 1)).takeWhile
            (fun x => decide (x.final_vertex_id = (mb i).final_vertex_id))).length =
            j + (((merge_entries_from mb count (j + 1)).takeWhile
            (fun x => decide (x.final_vertex_id = (mb i).final_vertex_id))).length + 1) := by
          omega
        rw [e]
        exact ⟨rfl, rfl⟩
      · have hc : ¬ (j < count ∧ (mb j).final_vertex_id = (mb i).final_vertex_id) :=
          fun h => hsame h.2
        have hd : decide ((mb j).final_vertex_id = (mb i).final_vertex_id) = false :=
          decide_eq_false hsame
        rw [if_neg hc]
        simp only [List.takeWhile_cons, List.dropWhile_cons, hd, if_false, Bool.false_eq_true,
          List.length_nil, List.foldl_nil, Nat.add_zero, true_and]
        exact (merge_entries_from_cons mb count j hlt).symm
    · have hc : ¬ (j < count ∧ (mb j).final_vertex_id = (mb i).final_vertex_id) :=
        fun h => hlt h.1
      rw [merge_entries_from_nil mb count j (by omega), merge_inner_loop, if_neg hc]
      exact ⟨rfl, (merge_entries_from_nil mb count _ (by simp; omega)).symm⟩

theorem merge_entries_from_length {α : Type} (mb : Nat → mergeaccum_t α) (count i : Nat) :
    (merge_entries_from mb count i).length = count - i := by
  unfold merge_entries_from
  rw [List.length_map, List.length_range']

/-- Refinement: with no sentinel in the buffer, the outer loop started at `i` computes what
steps 1 to 4 of the specification compute on the entries from `i` on. -/
theorem merge_outer_loop_eq {α : Type} (REDUCE : α → α → α) (mb : Nat → mergeaccum_t α)
    (count : Nat) (hclear : ∀ k < count, (mb k).initial_vertex_id &&& 0x8000000000000000 = 0)
    (fuel : Nat) :
    ∀ (i : Nat) (acc : Nat → α), i ≤ count → count - i ≤ fuel →
      merge_outer_loop REDUCE mb count fuel i acc =
        merge_reconciliation_spec REDUCE (merge_entries_from mb count i) acc := by
  induction fuel with
  | zero =>
    intro i acc hi hf
    rw [merge_entries_from_nil mb count i (by omega), merge_outer_loop,
      merge_reconciliation_spec]
  | succ fuel ih =>
    intro i acc hi hf
    by_cases hlt : i < count
    · have hc : i < count ∧ (mb i).initial_vertex_id &&& 0x8000000000000000 = 0 :=
        ⟨hlt, hclear i hlt⟩
      obtain ⟨h1, h2⟩ := merge_inner_loop_eq REDUCE mb count i (count - (i + 1)) (i + 1)
        (mb i).final_partial_value (by omega) (Nat.le_refl _)
      have hlen : ((merge_entries_from mb count (i + 1)).takeWhile
          (fun x => decide (x.final_vertex_id = (mb i).final_vertex_id))).length ≤
          count - (i + 1) := by
        rw [← merge_entries_from_length mb count (i + 1)]
        exact (List.takeWhile_sublist _).length_le
      rw [merge_entries_from_cons mb count i hlt, merge_outer_loop, if_pos hc,
        merge_reconciliation_spec]
      dsimp only
      rw [h1, h2]
      dsimp only
      generalize hj : i + 1 + ((merge_entries_from mb count (i + 1)).takeWhile
          (fun x => decide (x.final_vertex_id = (mb i).final_vertex_id))).length = j at *
      generalize ((merge_entries_from mb count (i + 1)).takeWhile
          (fun x => decide (x.final_vertex_id = (mb i).final_vertex_id))).foldl
          (fun p x => REDUCE p x.final_partial_value) (mb i).final_partial_value = p
      rw [ih j _ (by omega) (by omega)]
      by_cases hjc : j < count
      · rw [merge_entries_from_cons mb count j hjc]
        dsimp only
        by_cases hinit : (mb j).initial_vertex_id = (mb i).final_vertex_id
        · rw [if_pos ⟨hjc, hinit⟩, if_pos hinit, hinit]
        · rw [if_neg (fun h => hinit h.2), if_neg hinit]
      · rw [merge_entries_from_nil mb count j (by omega), if_neg (fun h => hjc h.1)]
    · have hc : ¬ (i < count ∧ (mb i).initial_vertex_id &&& 0x8000000000000000 = 0) :=
        fun h => hlt h.1
      rw [merge_entries_from_nil mb count i (by omega), merge_outer_loop, if_neg hc,
        merge_reconciliation_spec]

/-- Frame: the outer loop writes only accumulators of final vertices of buffer entries. -/
theorem merge_outer_loop_frame {α : Type} (REDUCE : α → α → α) (mb : Nat → mergeaccum_t α)
    (count : Nat) (v : Nat) (hv : ∀ k < count, (mb k).final_vertex_id ≠ v) (fuel : Nat) :
    ∀ (i : Nat) (acc : Nat → α), merge_outer_loop REDUCE mb count fuel i acc v = acc v := by
  induction fuel with
  | zero => intro i acc; rfl
  | succ fuel ih =>
    intro i acc
    rw [merge_outer_loop]
    by_cases hc : i < count ∧ (mb i).initial_vertex_id &&& 0x8000000000000000 = 0
    · rw [if_pos hc, ih, Function.update_noteq (fun h => hv i hc.1 h.symm)]
    · rw [if_neg hc]

/-- Claim C5.  For every merge buffer of `count` entries none of which carries the sentinel
bit, `edge_pull_op_merge_with_merge_buffer` computes exactly what steps 1 to 4 of the
reconciliation compute when run from the first entry: each maximal run of consecutive
entries with the final vertex of its first entry is folded with `REDUCE` in buffer order,
the current accumulator of that vertex is folded in exactly when an entry follows the run
and began on that vertex, the result is stored in the accumulator of that vertex, and the
scan continues behind the run.  Accumulators of vertices that are not the final vertex of
an entry keep their value; the merge buffer is an argument that is only read. -/
theorem C5_merge_performs_steps {α : Type} (REDUCE : α → α → α)
    (merge_buffer : Nat → mergeaccum_t α) (count : Nat) (vertex_accumulators : Nat → α)
    (hclear : ∀ k < count, (merge_buffer k).initial_vertex_id &&& 0x8000000000000000 = 0) :
    edge_pull_op_merge_with_merge_buffer REDUCE merge_buffer count vertex_accumulators =
        merge_reconciliation_spec REDUCE ((List.range count).map merge_buffer)
          vertex_accumulators ∧
    (∀ v, (∀ k < count, (merge_buffer k).final_vertex_id ≠ v) →
      edge_pull_op_merge_with_merge_buffer REDUCE merge_buffer count vertex_accumulators v =
        vertex_accumulators v) := by
  constructor
  · have h := merge_outer_loop_eq REDUCE merge_buffer count hclear count 0 vertex_accumulators
      (Nat.zero_le _) (Nat.le_refl _)
    unfold merge_entries_from at h
    rw [Nat.sub_zero, ← List.range_eq_range'] at h
    exact h
  · intro v hv
    exact merge_outer_loop_frame REDUCE merge_buffer count v hv count 0 vertex_accumulators

theorem C5_merge_performs_steps_witness :
    (∀ k < 5, (merge_example_buffer k).initial_vertex_id &&& 0x8000000000000000 = 0) ∧
    edge_pull_op_merge_with_merge_buffer (fun a b : Nat => a + b) merge_example_buffer 5
        (fun v => 1000 * v) =
      merge_reconciliation_spec (fun a b : Nat => a + b)
        ((List.range 5).map merge_example_buffer) (fun v => 1000 * v) :=
  ⟨by decide,
    (C5_merge_performs_steps (fun a b : Nat => a + b) merge_example_buffer 5 (fun v => 1000 * v)
      (by decide)).1⟩

theorem allocate_merge_buffers_entry {α : Type} (zero : α) (n : Nat)
    (mb0 : Nat → mergeaccum_t α) :
    ∀ i < n, (graph_data_allocate_merge_buffers zero n mb0 i).initial_vertex_id =
      0xffffffffffffffff := by
  unfold graph_data_allocate_merge_buffers
  induction n with
  | zero => intro i hi; omega
  | succ n ih =>
    intro i hi
    rw [List.range_succ, List.foldl_append, List.foldl_cons, List.foldl_nil]
    by_cases h : i = n
    · subst h
      rw [Function.update_same]
    · rw [Function.update_noteq h]
      exact ih i (by omega)

theorem merge_sentinel_noop {α : Type} (REDUCE : α → α → α)
    (mb : Nat → mergeaccum_t α) (count : Nat) (acc : Nat → α)
    (hsent : ∀ i < count, (mb i).initial_vertex_id &&& 0x8000000000000000 ≠ 0) :
    edge_pull_op_merge_with_merge_buffer REDUCE mb count acc = acc := by
  unfold edge_pull_op_merge_with_merge_buffer
  match count, hsent with
  | 0, _ => rfl
  | c + 1, hs =>
    rw [merge_outer_loop, if_neg (fun h => hs 0 (by omega) h.2)]

/-- Claim C6.  For every accumulator array and every count, if all entries of the merge
buffer are cleared, that is, their `initial_vertex_id` carries the sentinel high bit, then
`edge_pull_op_merge_with_merge_buffer` leaves every accumulator as it is; this is the case
for the buffer that `graph_data_allocate_merge_buffers` writes. -/
theorem C6_merge_cleared_noop {α : Type} (REDUCE : α → α → α)
    (merge_buffer : Nat → mergeaccum_t α) (count : Nat) (vertex_accumulators : Nat → α)
    (hsent : ∀ i < count,
      (merge_buffer i).initial_vertex_id &&& 0x8000000000000000 ≠ 0) :
    (∀ v, edge_pull_op_merge_with_merge_buffer REDUCE merge_buffer count vertex_accumulators v =
      vertex_accumulators v) ∧
    (∀ (zero : α) (mb0 : Nat → mergeaccum_t α) (v : Nat),
      edge_pull_op_merge_with_merge_buffer REDUCE
        (graph_data_allocate_merge_buffers zero count mb0) count vertex_accumulators v =
      vertex_accumulators v) := by
  constructor
  · intro v
    rw [merge_sentinel_noop REDUCE merge_buffer count vertex_accumulators hsent]
  · intro zero mb0 v
    rw [merge_sentinel_noop REDUCE _ count vertex_accumulators]
    intro i hi
    rw [allocate_merge_buffers_entry zero count mb0 i hi]
    decide

theorem C6_merge_cleared_noop_witness :
    (∀ i < 3, (graph_data_allocate_merge_buffers (0 : Nat) 3 merge_example_buffer
      i).initial_vertex_id &&& 0x8000000000000000 ≠ 0) ∧
    (∀ v, edge_pull_op_merge_with_merge_buffer (fun a b : Nat => a + b)
        (graph_data_allocate_merge_buffers (0 : Nat) 3 merge_example_buffer) 3
        (fun v => 1000 * v) v = (fun v => 1000 * v) v) :=
  ⟨by decide,
    (C6_merge_cleared_noop (fun a b : Nat => a + b)
      (graph_data_allocate_merge_buffers (0 : Nat) 3 merge_example_buffer) 3
      (fun v => 1000 * v) (by decide)).1⟩

/-! ## Theorems: the BFS driver -/

theorem initialize_vertex_info_fold {α : Type} (f g : Nat → α) (n : Nat) (p a : Nat → α) :
    ∀ i, ((graph_helper_initialize_vertex_info f g n p a).1 i = if i < n then f i else p i) ∧
      ((graph_helper_initialize_vertex_info f g n p a).2 i = if i < n then g i else a i) := by
  unfold graph_helper_initialize_vertex_info
  induction n with
  | zero => intro i; simp
  | succ n ih =>
    intro i
    rw [List.range_succ, List.foldl_append, List.foldl_cons, List.foldl_nil]
    generalize (List.range n).foldl _ (p, a) = r at ih ⊢
    dsimp only
    by_cases hi : i = n
    · subst hi
      simp
    · rw [Function.update_noteq hi, Function.update_noteq hi, (ih i).1, (ih i).2]
      have : (i < n + 1) = (i < n) := by
        apply propext
        omega
      simp only [this, and_self]

theorem initialize_frontiers_fold (f g : Nat → Nat) (nv : Nat) (h w : Nat → Nat) :
    ∀ i, ((graph_helper_create_and_initialize_frontiers f g nv h w).1 i =
        if i < frontier_count nv then f ((i <<< 6) % 2 ^ 64) else h i) ∧
      ((graph_helper_create_and_initialize_frontiers f g nv h w).2 i =
        if i < frontier_count nv then g ((i <<< 6) % 2 ^ 64) else w i) := by
  unfold graph_helper_create_and_initialize_frontiers
  generalize frontier_count nv = n
  induction n with
  | zero => intro i; simp
  | succ n ih =>
    intro i
    rw [List.range_succ, List.foldl_append, List.foldl_cons, List.foldl_nil]
    generalize (List.range n).foldl _ (h, w) = r at ih ⊢
    dsimp only
    by_cases hi : i = n
    · subst hi
      simp
    · rw [Function.update_noteq hi, Function.update_noteq hi, (ih i).1, (ih i).2]
      have : (i < n + 1) = (i < n) := by
        apply propext
        omega
      simp only [this, and_self]

theorem word_lt_frontier_count (nv v : Nat) (hnv : nv < 2 ^ 64) (hv : v < nv) :
    v >>> 6 < frontier_count nv := by
  unfold frontier_count
  rw [Nat.shiftRight_eq_div_pow, Nat.shiftRight_eq_div_pow,
    show (63 : Nat) = 2 ^ 6 - 1 from rfl, Nat.and_pow_two_sub_one_eq_mod]
  have e : (2 : Nat) ^ 6 = 64 := rfl
  rw [e]
  split_ifs with h0 <;> omega

/-- Claim C12, amended: after `graph_helper_initialize_vertex_info` in the BFS build every
vertex below `graph_num_vertices`, the root included, has the property `-1.0` and the
accumulator `0.0`. -/
theorem C12_bfs_vertex_init (graph_num_vertices : Nat) (props accums : Nat → ℚ) (v : Nat)
    (hv : v < graph_num_vertices) :
    (graph_helper_initialize_vertex_info execution_initialize_vertex_prop_bfs
        execution_initialize_vertex_accum_bfs graph_num_vertices props accums).1 v = -1 ∧
    (graph_helper_initialize_vertex_info execution_initialize_vertex_prop_bfs
        execution_initialize_vertex_accum_bfs graph_num_vertices props accums).2 v = 0 := by
  have h := initialize_vertex_info_fold execution_initialize_vertex_prop_bfs
    execution_initialize_vertex_accum_bfs graph_num_vertices props accums v
  rw [if_pos hv, if_pos hv] at h
  exact h

theorem C12_bfs_vertex_init_witness :
    SEARCH_ROOT < 3 ∧
    (graph_helper_initialize_vertex_info execution_initialize_vertex_prop_bfs
        execution_initialize_vertex_accum_bfs 3 (fun _ => 7) (fun _ => 7)).1 SEARCH_ROOT = -1 ∧
    (graph_helper_initialize_vertex_info execution_initialize_vertex_prop_bfs
        execution_initialize_vertex_accum_bfs 3 (fun _ => 7) (fun _ => 7)).2 SEARCH_ROOT = 0 :=
  ⟨by decide, C12_bfs_vertex_init 3 (fun _ => 7) (fun _ => 7) SEARCH_ROOT (by decide)⟩

/-- Claim C12 as stated fails: on a graph of three vertices the property of the root after
the BFS vertex initialisation is not `0`. -/
theorem C12_counterexample :
    ¬ ((graph_helper_initialize_vertex_info execution_initialize_vertex_prop_bfs
          execution_initialize_vertex_accum_bfs 3 (fun _ => 0) (fun _ => 0)).1 SEARCH_ROOT = 0 ∧
        ∀ v, v < 3 → v ≠ SEARCH_ROOT →
          (graph_helper_initialize_vertex_info execution_initialize_vertex_prop_bfs
            execution_initialize_vertex_accum_bfs 3 (fun _ => 0) (fun _ => 0)).1 v = -1) := by
  intro h
  have h1 := (initialize_vertex_info_fold execution_initialize_vertex_prop_bfs
    execution_initialize_vertex_accum_bfs 3 (fun _ => 0) (fun _ => 0) SEARCH_ROOT).1
  rw [h.1, if_pos (by decide : SEARCH_ROOT < 3)] at h1
  unfold execution_initialize_vertex_prop_bfs at h1
  norm_num at h1


theorem has_info_bfs_word (i : Nat) (hi : i < 2 ^ 58) :
    execution_initialize_frontier_has_info_bfs ((i <<< 6) % 2 ^ 64) = if i = 0 then 1 else 0 := by
  unfold execution_initialize_frontier_has_info_bfs SEARCH_ROOT
  rw [Nat.shiftLeft_eq]
  have e : (2 : Nat) ^ 6 = 64 := rfl
  rw [e, Nat.mod_eq_of_lt (by omega : i * 64 < 2 ^ 64)]
  by_cases h0 : i = 0
  · subst h0
    rfl
  · rw [if_neg h0, if_neg]
    omega

theorem wants_info_bfs_word (i : Nat) (hi : i < 2 ^ 58) :
    execution_initialize_frontier_wants_info_bfs ((i <<< 6) % 2 ^ 64) =
      if i = 0 then 2 ^ 64 - 2 else 2 ^ 64 - 1 := by
  unfold execution_initialize_frontier_wants_info_bfs SEARCH_ROOT
  rw [Nat.shiftLeft_eq]
  have e : (2 : Nat) ^ 6 = 64 := rfl
  rw [e, Nat.mod_eq_of_lt (by omega : i * 64 < 2 ^ 64)]
  by_cases h0 : i = 0
  · subst h0
    rfl
  · rw [if_neg h0, if_neg]
    omega

theorem testBit_one_eq (k : Nat) : Nat.testBit 1 k = decide (k = 0) := by
  have h : (2 ^ 0 : Nat).testBit k = decide (0 = k) := Nat.testBit_two_pow
  rw [pow_zero] at h
  rw [h]
  by_cases h0 : k = 0
  · subst h0
    rfl
  · have h1 : ¬ 0 = k := fun e => h0 e.symm
    simp only [h0, h1, decide_False]

theorem testBit_all_ones_sub_one (k : Nat) (hk : k < 64) :
    (2 ^ 64 - 2 : Nat).testBit k = decide (k ≠ 0) := by
  have h := Nat.testBit_two_pow_sub_succ (by norm_num : (1 : Nat) < 2 ^ 64) k
  have e : (2 : Nat) ^ 64 - (1 + 1) = 2 ^ 64 - 2 := rfl
  rw [e] at h
  rw [h]
  rw [testBit_one_eq]
  by_cases h0 : k = 0 <;> simp [h0, hk]

/-- Claim C13: after `graph_helper_create_and_initialize_frontiers` in the BFS build, for
every vertex `v` below `graph_num_vertices`, bit `v` of HasInfo is set exactly when `v` is the
root and bit `v` of WantsInfo is set exactly when `v` is not the root. -/
theorem C13_bfs_frontier_init (graph_num_vertices : Nat) (has0 wants0 : Nat → Nat) (v : Nat)
    (hnv : graph_num_vertices < 2 ^ 64) (hv : v < graph_num_vertices) :
    (frontier_bit (graph_helper_create_and_initialize_frontiers
        execution_initialize_frontier_has_info_bfs execution_initialize_frontier_wants_info_bfs
        graph_num_vertices has0 wants0).1 v = true ↔ v = SEARCH_ROOT) ∧
    (frontier_bit (graph_helper_create_and_initialize_frontiers
        execution_initialize_frontier_has_info_bfs execution_initialize_frontier_wants_info_bfs
        graph_num_vertices has0 wants0).2 v = true ↔ v ≠ SEARCH_ROOT) := by
  have hw := word_lt_frontier_count graph_num_vertices v hnv hv
  have hf := initialize_frontiers_fold execution_initialize_frontier_has_info_bfs
    execution_initialize_frontier_wants_info_bfs graph_num_vertices has0 wants0 (v >>> 6)
  rw [if_pos hw, if_pos hw] at hf
  have hdiv : v >>> 6 = v / 64 := Nat.shiftRight_eq_div_pow v 6
  have hmod : v &&& 63 = v % 64 := by
    rw [show (63 : Nat) = 2 ^ 6 - 1 from rfl, Nat.and_pow_two_sub_one_eq_mod]
  have h58 : v >>> 6 < 2 ^ 58 := by
    rw [hdiv]
    omega
  rw [has_info_bfs_word _ h58, wants_info_bfs_word _ h58] at hf
  unfold frontier_bit SEARCH_ROOT
  rw [hf.1, hf.2, hmod, hdiv]
  by_cases h0 : v / 64 = 0
  · rw [if_pos h0, if_pos h0, testBit_all_ones_sub_one _ (Nat.mod_lt _ (by norm_num)),
      testBit_one_eq]
    simp only [decide_eq_true_eq]
    omega
  · rw [if_neg h0, if_neg h0, Nat.zero_testBit,
      Nat.testBit_two_pow_sub_one]
    simp only [Bool.false_eq_true, false_iff, decide_eq_true_eq]
    omega

theorem C13_bfs_frontier_init_witness :
    (100 : Nat) < 2 ^ 64 ∧ 70 < 100 ∧
    (frontier_bit (graph_helper_create_and_initialize_frontiers
        execution_initialize_frontier_has_info_bfs execution_initialize_frontier_wants_info_bfs
        100 (fun _ => 5) (fun _ => 5)).1 70 = true ↔ 70 = SEARCH_ROOT) ∧
    (frontier_bit (graph_helper_create_and_initialize_frontiers
        execution_initialize_frontier_has_info_bfs execution_initialize_frontier_wants_info_bfs
        100 (fun _ => 5) (fun _ => 5)).2 70 = true ↔ 70 ≠ SEARCH_ROOT) :=
  ⟨by norm_num, by norm_num,
    C13_bfs_frontier_init 100 (fun _ => 5) (fun _ => 5) 70 (by norm_num) (by norm_num)⟩


/-- Claim C14, amended: PageRank initialisation sets the property of every vertex `v` below
`graph_num_vertices` to `(1 / |V|)` divided by `|V|` when the out-degree of `v` is zero and by
the out-degree of `v` otherwise, and sets its accumulator to zero. -/
theorem C14_pr_vertex_init (graph_num_vertices : Nat) (graph_vertex_outdegrees : Nat → ℚ)
    (props accums : Nat → ℚ) (v : Nat) (hv : v < graph_num_vertices) :
    (graph_helper_initialize_vertex_info
        (execution_initialize_vertex_prop_pr graph_num_vertices graph_vertex_outdegrees)
        execution_initialize_vertex_accum_pr graph_num_vertices props accums).1 v =
      (1 / (graph_num_vertices : ℚ)) /
        (if graph_vertex_outdegrees v = 0 then (graph_num_vertices : ℚ)
         else graph_vertex_outdegrees v) ∧
    (graph_helper_initialize_vertex_info
        (execution_initialize_vertex_prop_pr graph_num_vertices graph_vertex_outdegrees)
        execution_initialize_vertex_accum_pr graph_num_vertices props accums).2 v = 0 := by
  have h := initialize_vertex_info_fold
    (execution_initialize_vertex_prop_pr graph_num_vertices graph_vertex_outdegrees)
    execution_initialize_vertex_accum_pr graph_num_vertices props accums v
  rw [if_pos hv, if_pos hv] at h
  refine ⟨h.1.trans ?_, h.2⟩
  unfold execution_initialize_vertex_prop_pr
  by_cases h0 : graph_vertex_outdegrees v = 0
  · rw [if_pos h0, if_pos h0.symm]
  · rw [if_neg h0, if_neg (fun e => h0 e.symm)]

theorem C14_pr_vertex_init_witness :
    1 < 2 ∧
    (graph_helper_initialize_vertex_info
        (execution_initialize_vertex_prop_pr 2 (fun _ => 1))
        execution_initialize_vertex_accum_pr 2 (fun _ => 0) (fun _ => 5)).1 1 =
      (1 / ((2 : Nat) : ℚ)) /
        (if (fun _ => (1 : ℚ)) 1 = 0 then ((2 : Nat) : ℚ) else (fun _ => (1 : ℚ)) 1) ∧
    (graph_helper_initialize_vertex_info
        (execution_initialize_vertex_prop_pr 2 (fun _ => 1))
        execution_initialize_vertex_accum_pr 2 (fun _ => 0) (fun _ => 5)).2 1 = 0 :=
  ⟨by decide, C14_pr_vertex_init 2 (fun _ => 1) (fun _ => 0) (fun _ => 5) 1 (by decide)⟩

/-- Claim C14 as stated fails: on a graph of two vertices that both have out-degree one the
initial property of vertex 0 is `1/2`, not `(1/2) / max (1, 2) = 1/4`. -/
theorem C14_counterexample :
    ¬ ((graph_helper_initialize_vertex_info
          (execution_initialize_vertex_prop_pr 2 (fun _ => 1))
          execution_initialize_vertex_accum_pr 2 (fun _ => 0) (fun _ => 0)).1 0 =
        (1 / ((2 : Nat) : ℚ)) / max ((fun _ => (1 : ℚ)) 0) ((2 : Nat) : ℚ)) := by
  have h := (initialize_vertex_info_fold
    (execution_initialize_vertex_prop_pr 2 (fun _ => 1))
    execution_initialize_vertex_accum_pr 2 (fun _ => 0) (fun _ => 0) 0).1
  rw [if_pos (by decide : 0 < 2)] at h
  rw [h]
  unfold execution_initialize_vertex_prop_pr
  norm_num


/-! ## Theorems: scheduler granularity -/

/-- Claim C15: with a granularity override `s ≥ 1`, `main` computes
`units_per_node = (V / N) / s` (both divisions rounded down) for `V` gather vectors on `N`
nodes; it returns the exit status 1 exactly when that is zero, which is when `V / N < s`;
otherwise `units_total = units_per_node * N`, and a unit of `slab_length / units_per_node`
vectors holds at least `s` vectors on every node. -/
theorem C15_sched_granularity (bufs : List EdgeVector) (N s num_threads : Nat)
    (a0 : NumaEdgeLists) (hs : 1 ≤ s) (hN : 0 < N) (hN32 : N < 2 ^ 32)
    (hVN : bufs.length * N < 2 ^ 64) :
    (main_sched_units num_threads N s bufs.length = Outcome.exit 1 ↔
      bufs.length / N / s = 0) ∧
    (bufs.length / N / s = 0 ↔ bufs.length / N < s) ∧
    (bufs.length / N / s ≠ 0 →
      main_sched_units num_threads N s bufs.length =
        Outcome.ok (bufs.length / N / s, bufs.length / N / s * N) ∧
      ∀ i, i < N →
        s ≤ unit_vector_count ((graph_helper_numaize_gather N bufs a0).block_counts_numa i)
          (bufs.length / N / s)) := by
  have hs0 : ¬ 0 = s := by omega
  have hzero : bufs.length / N / s = 0 ↔ bufs.length / N < s := by
    rw [Nat.div_eq_zero_iff (by omega : 0 < s)]
  refine ⟨?_, hzero, ?_⟩
  · unfold main_sched_units
    rw [if_neg hs0]
    dsimp only
    by_cases h0 : 0 = bufs.length / N / s
    · rw [if_pos h0]
      exact ⟨fun _ => h0.symm, fun _ => rfl⟩
    · rw [if_neg h0]
      constructor
      · intro h
        cases h
      · intro h
        exact absurd h.symm h0
  · intro hne
    have h0 : ¬ 0 = bufs.length / N / s := fun e => hne e.symm
    have hle1 : bufs.length / N / s ≤ bufs.length / N := Nat.div_le_self _ _
    have hle2 : bufs.length / N * N ≤ bufs.length := Nat.div_mul_le_self _ _
    have hle3 : bufs.length / N / s * N ≤ bufs.length / N * N := Nat.mul_le_mul_right N hle1
    have hle4 : bufs.length ≤ bufs.length * N := Nat.le_mul_of_pos_right _ hN
    constructor
    · unfold main_sched_units
      rw [if_neg hs0]
      dsimp only
      rw [if_neg h0, Nat.mod_eq_of_lt (by omega)]
    · intro i hi
      have hc := (numaize_gather_fold bufs N a0 N i).2
      rw [if_pos hi, edge_record_count_eq bufs.length N i hi hN32 hVN] at hc
      unfold graph_helper_numaize_gather
      rw [hc]
      unfold unit_vector_count
      have hb := (slice_size_bounds bufs.length N i hN).1
      have hu : 0 < bufs.length / N / s := Nat.pos_of_ne_zero hne
      rw [Nat.le_div_iff_mul_le hu]
      have h1 : s * (bufs.length / N / s) ≤ bufs.length / N := by
        rw [Nat.mul_comm]
        exact Nat.div_mul_le_self _ _
      exact le_trans h1 hb

theorem C15_sched_granularity_witness :
    1 ≤ 2 ∧ 0 < 2 ∧ 2 < 2 ^ 32 ∧ (List.replicate 9 (default : EdgeVector)).length * 2 < 2 ^ 64 ∧
    (List.replicate 9 (default : EdgeVector)).length / 2 / 2 ≠ 0 ∧
    main_sched_units 4 2 2 (List.replicate 9 (default : EdgeVector)).length =
      Outcome.ok (2, 4) ∧
    ∀ i, i < 2 →
      2 ≤ unit_vector_count
        ((graph_helper_numaize_gather 2 (List.replicate 9 (default : EdgeVector))
          NumaEdgeLists.blank).block_counts_numa i) 2 :=
  ⟨by decide, by decide, by decide, by decide, by decide,
    (C15_sched_granularity (List.replicate 9 (default : EdgeVector)) 2 2 4 NumaEdgeLists.blank
      (by decide) (by decide) (by decide) (by decide)).2.2 (by decide)⟩


/-! ## Theorems: thread spawning -/

theorem group_members_count (pn g : Nat) (hpn : 0 < pn) (N : Nat) :
    ((List.range (pn * N)).filter (fun i => decide (i / pn = g))).length =
      if g < N then pn else 0 := by
  induction N with
  | zero => simp
  | succ N ih =>
    rw [Nat.mul_succ, List.range_add, List.filter_append, List.length_append, ih,
      List.filter_map, List.length_map]
    have hc : (List.range pn).filter ((fun i => decide (i / pn = g)) ∘ fun x => pn * N + x) =
        (List.range pn).filter (fun _ => decide (N = g)) := by
      apply List.filter_congr
      intro j hj
      have hj2 : j < pn := List.mem_range.1 hj
      have e : (pn * N + j) / pn = N := by
        rw [Nat.mul_add_div hpn, Nat.div_eq_of_lt hj2, Nat.add_zero]
      simp only [Function.comp_apply, e]
    rw [hc]
    by_cases hg : N = g
    · subst hg
      simp
    · simp only [hg, decide_False, List.filter_false, List.length_nil, Nat.add_zero]
      by_cases h1 : g < N
      · rw [if_pos h1, if_pos (by omega)]
      · rw [if_neg h1, if_neg (by omega)]

theorem to_int32_nonneg_iff (x : Nat) (hx : x < 2 ^ 32) : to_int32 x ≥ 0 ↔ x < 2 ^ 31 := by
  unfold to_int32
  rw [Nat.mod_eq_of_lt hx]
  by_cases h : x < 2 ^ 31
  · rw [if_pos h]
    simp only [h, iff_true]
    exact Int.ofNat_nonneg x
  · rw [if_neg h]
    simp only [h, iff_false]
    omega

theorem nth_processor_lt (t : Topology) (n node : Nat)
    (ht : ∀ a, a < t.numanodes_num_nodes → ∀ b, b < t.numanodes_node_counts a →
      t.numanodes_node_processors a b < 2 ^ 32) :
    numanodes_get_nth_processor_on_node t n node < 2 ^ 32 := by
  unfold numanodes_get_nth_processor_on_node UINT32_MAX
  split_ifs with h
  · norm_num
  · exact ht _ (by omega) _ (by omega)

theorem map_range_pred_append {α : Type} (f : Nat → α) (m : Nat) (hm : 1 ≤ m) :
    (List.range (m - 1)).map f ++ [f (m - 1)] = (List.range m).map f := by
  cases m with
  | zero => omega
  | succ k =>
    rw [Nat.add_sub_cancel, List.range_succ, List.map_append, List.map_singleton]

theorem startinfo_fields (t : Topology) (pn N : Nat) (nodes : Nat → Nat) (hN : 1 ≤ N)
    (hpn : 1 ≤ pn) (i : Nat) :
    (threads_spawn_startinfo t (pn * N) N nodes 0 i).info.group_id = i / pn ∧
    (threads_spawn_startinfo t (pn * N) N nodes 0 i).info.group_thread_id = i % pn ∧
    (threads_spawn_startinfo t (pn * N) N nodes 0 i).info.thread_id = i ∧
    (threads_spawn_startinfo t (pn * N) N nodes 0 i).affinity =
      to_int32 (numanodes_get_nth_processor_on_node t (i % pn) (nodes (i / pn))) := by
  have h1 : ¬ pn * N < N := by
    have : 1 * N ≤ pn * N := Nat.mul_le_mul_right N hpn
    omega
  have h2 : pn * N / N = pn := Nat.mul_div_cancel pn (by omega)
  unfold threads_spawn_startinfo
  simp only [h1, if_false, h2, ne_eq, not_true_eq_false, and_self]

/-- Claim C16, amended: for `count ≥ num_nodes ≥ 1` with `count` a multiple of `num_nodes`
and `per_node = count / num_nodes`, `threads_spawn` with default binding gives worker `i` the
group ID `i / per_node`, the local ID `i % per_node` and as affinity the value of
`numanodes_get_nth_processor_on_node (i % per_node, nodes [i / per_node])`; the worker is
bound to that processor when the value is non-negative as a 32-bit signed number and is not
bound otherwise; every group ID is below `num_nodes`, the pairs of group and local ID of
distinct workers are distinct, and each group holds exactly `per_node` workers. -/
theorem C16_thread_groups (t : Topology) (count N : Nat) (nodes : Nat → Nat)
    (ht : ∀ a, a < t.numanodes_num_nodes → ∀ b, b < t.numanodes_node_counts a →
      t.numanodes_node_processors a b < 2 ^ 32)
    (hN : 1 ≤ N) (hc : N ≤ count) (hdiv : count % N = 0) (h32 : count < 2 ^ 32) :
    (threads_spawn t count N nodes 0 true).started ++
        (threads_spawn t count N nodes 0 true).calling.toList =
      (List.range count).map (threads_spawn_startinfo t count N nodes 0) ∧
    (∀ i, i < count →
      (threads_spawn_startinfo t count N nodes 0 i).info.group_id = i / (count / N) ∧
      (threads_spawn_startinfo t count N nodes 0 i).info.group_thread_id = i % (count / N) ∧
      (threads_spawn_startinfo t count N nodes 0 i).affinity =
        to_int32 (numanodes_get_nth_processor_on_node t (i % (count / N))
          (nodes (i / (count / N)))) ∧
      threads_start_func_affinity (threads_spawn_startinfo t count N nodes 0 i) =
        (if numanodes_get_nth_processor_on_node t (i % (count / N)) (nodes (i / (count / N)))
            < 2 ^ 31 then
          some (numanodes_get_nth_processor_on_node t (i % (count / N))
            (nodes (i / (count / N))))
         else none) ∧
      (threads_spawn_startinfo t count N nodes 0 i).info.group_id < N) ∧
    (∀ i j, i < count → j < count →
      (threads_spawn_startinfo t count N nodes 0 i).info.group_id =
        (threads_spawn_startinfo t count N nodes 0 j).info.group_id →
      (threads_spawn_startinfo t count N nodes 0 i).info.group_thread_id =
        (threads_spawn_startinfo t count N nodes 0 j).info.group_thread_id → i = j) ∧
    (∀ g, g < N →
      ((List.range count).filter
        (fun i => decide ((threads_spawn_startinfo t count N nodes 0 i).info.group_id = g))).length
        = count / N) := by
  obtain ⟨pn, rfl⟩ : ∃ pn, count = pn * N :=
    ⟨count / N, (Nat.div_mul_cancel (Nat.dvd_of_mod_eq_zero hdiv)).symm⟩
  have hpn : 1 ≤ pn := by
    rcases Nat.eq_zero_or_pos pn with h0 | h0
    · subst h0
      omega
    · exact h0
  have h2 : pn * N / N = pn := Nat.mul_div_cancel pn (by omega)
  rw [h2]
  have hpos : 1 ≤ pn * N := Nat.mul_pos hpn hN
  refine ⟨?_, ?_, ?_, ?_⟩
  · unfold threads_spawn
    have e : (pn * N + 2 ^ 32 - 1) % 2 ^ 32 = pn * N - 1 := by omega
    simp only [Bool.true_eq_false, if_false, e, Option.toList_some]
    exact map_range_pred_append _ _ hpos
  · intro i hi
    obtain ⟨f1, f2, _, f4⟩ := startinfo_fields t pn N nodes hN hpn i
    refine ⟨f1, f2, f4, ?_, ?_⟩
    · unfold threads_start_func_affinity
      rw [f4]
      have hlt := nth_processor_lt t (i % pn) (nodes (i / pn)) ht
      have hiff := to_int32_nonneg_iff _ hlt
      by_cases hb : numanodes_get_nth_processor_on_node t (i % pn) (nodes (i / pn)) < 2 ^ 31
      · rw [if_pos (hiff.2 hb), if_pos hb]
        unfold to_int32
        rw [Nat.mod_eq_of_lt hlt, if_pos hb, Int.toNat_ofNat]
      · rw [if_neg (fun h => hb (hiff.1 h)), if_neg hb]
    · rw [f1]
      exact Nat.div_lt_of_lt_mul hi
  · intro i j _ _ hg hl
    rw [(startinfo_fields t pn N nodes hN hpn i).1,
      (startinfo_fields t pn N nodes hN hpn j).1] at hg
    rw [(startinfo_fields t pn N nodes hN hpn i).2.1,
      (startinfo_fields t pn N nodes hN hpn j).2.1] at hl
    rw [← Nat.div_add_mod i pn, ← Nat.div_add_mod j pn, hg, hl]
  · intro g hg
    have hc2 : (fun i => decide ((threads_spawn_startinfo t (pn * N) N nodes 0 i).info.group_id
        = g)) = (fun i => decide (i / pn = g)) := by
      funext i
      rw [(startinfo_fields t pn N nodes hN hpn i).1]
    rw [hc2, group_members_count pn g hpn N, if_pos hg]

theorem C16_thread_groups_witness :
    (∀ a, a < topology_two_nodes.numanodes_num_nodes →
      ∀ b, b < topology_two_nodes.numanodes_node_counts a →
        topology_two_nodes.numanodes_node_processors a b < 2 ^ 32) ∧
    1 ≤ 2 ∧ 2 ≤ 4 ∧ 4 % 2 = 0 ∧ 4 < 2 ^ 32 ∧
    ∀ g, g < 2 →
      ((List.range 4).filter
        (fun i => decide ((threads_spawn_startinfo topology_two_nodes 4 2 (fun k => k) 0
          i).info.group_id = g))).length = 4 / 2 :=
  ⟨by decide, by decide, by decide, by decide, by decide,
    (C16_thread_groups topology_two_nodes 4 2 (fun k => k) (by decide) (by decide) (by decide)
      (by decide) (by decide)).2.2.2⟩

/-- Claim C16 as stated fails: two workers on one node that has a single processor satisfy
the conditions on `count`, and worker 1, whose affinity is
`numanodes_get_nth_processor_on_node (1, 0) = UINT32_MAX`, is bound to no processor. -/
theorem C16_counterexample :
    ¬ (∀ i, i < 2 →
        threads_start_func_affinity
            (threads_spawn_startinfo topology_one_processor 2 1 (fun _ => 0) 0 i) =
          some (numanodes_get_nth_processor_on_node topology_one_processor (i % (2 / 1))
            ((fun _ => 0) (i / (2 / 1))))) := by
  intro h
  have h1 := h 1 (by decide)
  revert h1
  decide

/-- Claim C17 fails on the code: with two workers, `threads_spawn` starts a new thread for
the worker with global thread ID 0 and runs the worker with global thread ID 1, the last
one, on the calling thread. -/
theorem C17_calling_thread_runs_last_worker :
    (threads_spawn topology_two_nodes 2 1 (fun k => k) 0 true).result = 0 ∧
    (threads_spawn topology_two_nodes 2 1 (fun k => k) 0 true).started.map
        (fun w => w.info.thread_id) = [0] ∧
    (threads_spawn topology_two_nodes 2 1 (fun k => k) 0 true).calling.map
        (fun w => w.info.thread_id) = some 1 := by
  decide


/-! ## Theorems: page migration requests -/

theorem tonode_buffer_start (mem : Nat) (hmem : mem < 2 ^ 64) :
    mem &&& 0xfffffffffffff000 = mem / 4096 * 4096 := by
  apply Nat.eq_of_testBit_eq
  intro i
  have e : mem / 4096 * 4096 = (mem >>> 12) <<< 12 := by
    rw [Nat.shiftRight_eq_div_pow, Nat.shiftLeft_eq]
  have em : (0xfffffffffffff000 : Nat) = (2 ^ 52 - 1) <<< 12 := by decide
  rw [e, Nat.testBit_and, em, Nat.testBit_shiftLeft, Nat.testBit_shiftLeft,
    Nat.testBit_shiftRight, Nat.testBit_two_pow_sub_one]
  by_cases h12 : i ≥ 12
  · have e2 : 12 + (i - 12) = i := by omega
    rw [e2]
    by_cases h52 : i - 12 < 52
    · simp [h12, h52]
    · have hi : 64 ≤ i := by omega
      have hb : mem.testBit i = false :=
        Nat.testBit_lt_two_pow (lt_of_lt_of_le hmem (Nat.pow_le_pow_right (by norm_num) hi))
      simp [hb]
  · simp [h12]

/-- The range that `numanodes_tonode_buffer` requests starts on a page boundary at or below
`mem`, its length is a multiple of the page size, and it contains the whole of
`[mem, mem + size)` exactly when the offset of `mem` in its page plus `size % 4096` is at
most 4096. -/
theorem tonode_buffer_range (mem size : Nat) (hmem : mem < 2 ^ 64)
    (hsize : size + 4096 < 2 ^ 64) :
    (numanodes_tonode_buffer mem size).1 % 4096 = 0 ∧
    (numanodes_tonode_buffer mem size).1 ≤ mem ∧
    (numanodes_tonode_buffer mem size).2 % 4096 = 0 ∧
    (mem + size ≤ (numanodes_tonode_buffer mem size).1 + (numanodes_tonode_buffer mem size).2 ↔
      mem % 4096 + size % 4096 ≤ 4096) := by
  unfold numanodes_tonode_buffer
  dsimp only
  rw [tonode_buffer_start mem hmem,
    Nat.mod_eq_of_lt (by omega : size + (4096 - size % 4096) < 2 ^ 64)]
  refine ⟨Nat.mul_mod_left _ _, Nat.div_mul_le_self _ _, by omega, by omega⟩

/-- Claim C18 fails on the code: for a buffer of 4040 bytes that starts 64 bytes into a page,
`numanodes_tonode_buffer` requests the single page the buffer starts in, so that the byte at
address `0x7f0000002000`, which belongs to the buffer, lies outside the requested range. -/
theorem C18_request_misses_tail :
    numanodes_tonode_buffer 0x7f0000001040 4040 = (0x7f0000001000, 4096) ∧
    (0x7f0000001040 ≤ 0x7f0000002000 ∧ 0x7f0000002000 < 0x7f0000001040 + 4040) ∧
    ¬ (0x7f0000002000 < (numanodes_tonode_buffer 0x7f0000001040 4040).1 +
        (numanodes_tonode_buffer 0x7f0000001040 4040).2) := by
  decide


/-! ## Theorems: the command line -/

theorem numa_nodes_loop_exit (t : Topology) (fuel : Nat) :
    ∀ (endptr : List Char) (node_idx : Nat) (opts : cmdline_opts_t) (status : Nat),
      cmdline_numa_nodes_loop t fuel endptr node_idx opts = Outcome.exit status → status = 2 := by
  induction fuel with
  | zero =>
    intro endptr node_idx opts status h
    unfold cmdline_numa_nodes_loop at h
    cases h
  | succ fuel ih =>
    intro endptr node_idx opts status h
    unfold cmdline_numa_nodes_loop at h
    dsimp only at h
    split_ifs at h
    all_goals first
      | (cases h; rfl)
      | exact ih _ _ _ _ h

theorem option_switch_exit (t : Topology) (opts : cmdline_opts_t) (letter : Char)
    (cmdline_value : Option (List Char)) (status : Nat)
    (hrec : cmdline_helper_is_recognized_option letter = true)
    (h : cmdline_option_switch t opts letter cmdline_value = Outcome.exit status) :
    status = 0 ∨ status = 2 := by
  unfold cmdline_helper_is_recognized_option at hrec
  rw [decide_eq_true_iff] at hrec
  unfold cmdline_option_switch at h
  dsimp only at h
  split_ifs at h
  all_goals first
    | (cases h; exact Or.inl rfl)
    | (cases h; exact Or.inr rfl)
    | (exfalso; tauto)
    | skip
  generalize hr : cmdline_numa_nodes_loop t ((cmdline_value.getD []).length + 1)
    (cmdline_value.getD []) 0 opts = r at h
  cases r with
  | exit st =>
    dsimp only at h
    cases h
    exact Or.inr (numa_nodes_loop_exit t _ _ _ _ _ hr)
  | ok v =>
    dsimp only at h
    cases h

theorem recognized_iff (c : Char) :
    cmdline_helper_is_recognized_option c = true ↔
      (c = 'h' ∨ c = 'i' ∨ c = 'n' ∨ c = 'N' ∨ c = 'o' ∨ c = 's' ∨ c = 'u' ∨ c = 'V') := by
  unfold cmdline_helper_is_recognized_option
  rw [decide_eq_true_iff]
  tauto

theorem requires_value_iff (c : Char) :
    cmdline_helper_option_requires_value c = true ↔
      (c = 'i' ∨ c = 'n' ∨ c = 'N' ∨ c = 'o' ∨ c = 's' ∨ c = 'u') := by
  unfold cmdline_helper_option_requires_value
  rw [decide_eq_true_iff]
  tauto

theorem accepts_value_false_iff (c : Char)
    (hrec : c = 'h' ∨ c = 'i' ∨ c = 'n' ∨ c = 'N' ∨ c = 'o' ∨ c = 's' ∨ c = 'u' ∨ c = 'V') :
    cmdline_helper_option_accepts_value c = false ↔ (c = 'h' ∨ c = 'V') := by
  rcases hrec with e | e | e | e | e | e | e | e <;> subst e <;> decide

theorem parse_single_recognized (t : Topology) (opts : cmdline_opts_t) (c : Char)
    (cmdline_value : Option (List Char))
    (hrec : cmdline_helper_is_recognized_option c = true) :
    cmdline_parse_single_option_or_die t opts ['-', c] cmdline_value =
      if cmdline_helper_option_requires_value c = true ∧ cmdline_value = none then
        Outcome.exit 3
      else if cmdline_helper_option_accepts_value c = false ∧ cmdline_value ≠ none then
        Outcome.exit 4
      else cmdline_option_switch t opts c cmdline_value := by
  unfold cmdline_parse_single_option_or_die
  have e0 : cstr_at ['-', c] 0 = '-' := rfl
  have e1 : cstr_at ['-', c] 1 = c := rfl
  have e2 : cstr_at ['-', c] 2 = Char.ofNat 0 := rfl
  have es : cmdline_helper_is_char_supported_as_switch '-' = true := by decide
  rw [e0, e1, e2, es, hrec]
  simp only [Bool.true_eq_false, ne_eq, not_true_eq_false, or_self, if_false]

/-- Claim C19: for an option string of at least two characters and an optional value,
`cmdline_parse_single_option_or_die` exits with status 1 exactly when the option is not `-`
followed by exactly one of the letters h, i, n, N, o, s, u, V; for an option of that form it
exits with status 3 exactly when the letter is one of i, n, N, o, s, u and no value was
supplied, and with status 4 exactly when the letter is h or V and a value was supplied. -/
theorem C19_option_checks (t : Topology) (opts : cmdline_opts_t) (cmdline_option : List Char)
    (cmdline_value : Option (List Char)) (hlen : 2 ≤ cmdline_option.length)
    (hnul : ∀ c, c ∈ cmdline_option → c ≠ Char.ofNat 0) :
    (cmdline_parse_single_option_or_die t opts cmdline_option cmdline_value = Outcome.exit 1 ↔
      ¬ ∃ c, cmdline_option = ['-', c] ∧
        (c = 'h' ∨ c = 'i' ∨ c = 'n' ∨ c = 'N' ∨ c = 'o' ∨ c = 's' ∨ c = 'u' ∨ c = 'V')) ∧
    (∀ c, cmdline_option = ['-', c] →
      (c = 'h' ∨ c = 'i' ∨ c = 'n' ∨ c = 'N' ∨ c = 'o' ∨ c = 's' ∨ c = 'u' ∨ c = 'V') →
      (cmdline_parse_single_option_or_die t opts cmdline_option cmdline_value = Outcome.exit 3 ↔
        (c = 'i' ∨ c = 'n' ∨ c = 'N' ∨ c = 'o' ∨ c = 's' ∨ c = 'u') ∧ cmdline_value = none) ∧
      (cmdline_parse_single_option_or_die t opts cmdline_option cmdline_value = Outcome.exit 4 ↔
        (c = 'h' ∨ c = 'V') ∧ cmdline_value ≠ none)) := by
  have key : ∀ c, (c = 'h' ∨ c = 'i' ∨ c = 'n' ∨ c = 'N' ∨ c = 'o' ∨ c = 's' ∨ c = 'u' ∨
      c = 'V') →
      (cmdline_parse_single_option_or_die t opts ['-', c] cmdline_value ≠ Outcome.exit 1) ∧
      (cmdline_parse_single_option_or_die t opts ['-', c] cmdline_value = Outcome.exit 3 ↔
        (c = 'i' ∨ c = 'n' ∨ c = 'N' ∨ c = 'o' ∨ c = 's' ∨ c = 'u') ∧ cmdline_value = none) ∧
      (cmdline_parse_single_option_or_die t opts ['-', c] cmdline_value = Outcome.exit 4 ↔
        (c = 'h' ∨ c = 'V') ∧ cmdline_value ≠ none) := by
    intro c hc
    have hrec := (recognized_iff c).2 hc
    have hsw : ∀ st, cmdline_option_switch t opts c cmdline_value = Outcome.exit st →
        st = 0 ∨ st = 2 := fun st h => option_switch_exit t opts c cmdline_value st hrec h
    rw [parse_single_recognized t opts c cmdline_value hrec]
    by_cases hreq : cmdline_helper_option_requires_value c = true ∧ cmdline_value = none
    · rw [if_pos hreq]
      refine ⟨(by intro h; cases h), ?_, ?_⟩
      · exact ⟨fun _ => ⟨(requires_value_iff c).1 hreq.1, hreq.2⟩, fun _ => rfl⟩
      · constructor
        · intro h
          cases h
        · intro h
          exact absurd hreq.2 h.2
    · rw [if_neg hreq]
      have hreq2 : ¬ ((c = 'i' ∨ c = 'n' ∨ c = 'N' ∨ c = 'o' ∨ c = 's' ∨ c = 'u') ∧
          cmdline_value = none) := fun h => hreq ⟨(requires_value_iff c).2 h.1, h.2⟩
      by_cases hacc : cmdline_helper_option_accepts_value c = false ∧ cmdline_value ≠ none
      · rw [if_pos hacc]
        refine ⟨(by intro h; cases h), ?_, ?_⟩
        · constructor
          · intro h
            cases h
          · intro h
            exact absurd h hreq2
        · exact ⟨fun _ => ⟨(accepts_value_false_iff c hc).1 hacc.1, hacc.2⟩, fun _ => rfl⟩
      · rw [if_neg hacc]
        refine ⟨?_, ?_, ?_⟩
        · intro h
          rcases hsw 1 h with e | e <;> cases e
        · constructor
          · intro h
            rcases hsw 3 h with e | e <;> cases e
          · intro h
            exact absurd h hreq2
        · constructor
          · intro h
            rcases hsw 4 h with e | e <;> cases e
          · intro h
            exact absurd ⟨(accepts_value_false_iff c hc).2 h.1, h.2⟩ hacc
  refine ⟨?_, ?_⟩
  · constructor
    · intro h hex
      obtain ⟨c, rfl, hc⟩ := hex
      exact (key c hc).1 h
    · intro hn
      match cmdline_option, hlen, hnul, hn with
      | a :: b :: rest, _, hnul, hn =>
        unfold cmdline_parse_single_option_or_die
        have e0 : cstr_at (a :: b :: rest) 0 = a := rfl
        have e1 : cstr_at (a :: b :: rest) 1 = b := rfl
        rw [e0, e1]
        by_cases ha : a = '-'
        · subst ha
          cases rest with
          | nil =>
            have e2 : cstr_at ['-', b] 2 = Char.ofNat 0 := rfl
            have es : cmdline_helper_is_char_supported_as_switch '-' = true := by decide
            have hb : cmdline_helper_is_recognized_option b = false := by
              rw [Bool.eq_false_iff]
              intro hb
              exact hn ⟨b, rfl, (recognized_iff b).1 hb⟩
            rw [e2, es, hb]
            simp only [Bool.true_eq_false, ne_eq, not_true_eq_false, or_self, if_false, if_true]
          | cons d rest2 =>
            have e2 : cstr_at ('-' :: b :: d :: rest2) 2 = d := rfl
            have hd : Char.ofNat 0 ≠ d := fun e => hnul d (by simp) e.symm
            rw [e2, if_pos (Or.inr hd)]
        · have es : cmdline_helper_is_char_supported_as_switch a = false := by
            unfold cmdline_helper_is_char_supported_as_switch
            rw [decide_eq_false_iff_not]
            exact ha
          rw [if_pos (Or.inl es)]
  · intro c hopt hc
    subst hopt
    exact (key c hc).2

theorem C19_option_checks_witness :
    2 ≤ "-n".toList.length ∧ (∀ c, c ∈ "-n".toList → c ≠ Char.ofNat 0) ∧
    (cmdline_parse_single_option_or_die topology_two_nodes cmdline_init "-n".toList none =
        Outcome.exit 3 ↔
      ('n' = 'i' ∨ 'n' = 'n' ∨ 'n' = 'N' ∨ 'n' = 'o' ∨ 'n' = 's' ∨ 'n' = 'u') ∧
        (none : Option (List Char)) = none) :=
  ⟨by decide, by decide,
    ((C19_option_checks topology_two_nodes cmdline_init "-n".toList none (by decide)
      (by decide)).2 'n' rfl (by decide)).1⟩


/-- Claim C20 fails on the code: on a machine with eight NUMA nodes the value `0,1,2,3,4` of
the option `-u`, a list of five numbers where the usage text allows at most
`min (4, 8) = 4`, is accepted, and the settings then hold five nodes. -/
theorem C20_five_nodes_accepted :
    ∃ o, cmdline_parse_single_option_or_die topology_eight_nodes cmdline_init "-u".toList
        (some "0,1,2,3,4".toList) = Outcome.ok o ∧
      o.num_numa_nodes = 5 ∧ (List.range 5).map o.numa_nodes = [0, 1, 2, 3, 4] ∧
      ¬ (5 ≤ min CMDLINE_MAX_NUM_NUMA_NODES (numanodes_get_num_nodes topology_eight_nodes)) :=
  ⟨_, rfl, by decide, by decide, by decide⟩


/-- Claim C21 fails on the code: on a machine whose node 0 has two processors and whose
node 1 has four, the command line `-i graph -u 0,1`, which leaves the thread count at its
default 0, ends with `num_threads = 4`, the number of nodes times the processors of the first
node, while the selected nodes have `2 + 4 = 6` processors. -/
theorem C21_threads_from_first_node :
    ∃ o, cmdline_parse_options_or_die topology_uneven
        ["grazelle".toList, "-i".toList, "graph".toList, "-u".toList, "0,1".toList] =
          Outcome.ok o ∧
      o.num_numa_nodes = 2 ∧ (List.range 2).map o.numa_nodes = [0, 1] ∧ o.num_threads = 4 ∧
      ((List.range o.num_numa_nodes).map
        (fun j => numanodes_get_num_processors_on_node topology_uneven (o.numa_nodes j))).sum
        = 6 :=
  ⟨_, rfl, by decide, by decide, by decide, by decide⟩


/-! ## Theorems: reading the graph files -/

/-- The inner loop only moves forward, passes only entries with the final vertex of entry
`i`, and with enough iterations stops at the end of the buffer or at an entry with another
final vertex. -/
theorem merge_inner_loop_index {α : Type} (REDUCE : α → α → α) (mb : Nat → mergeaccum_t α)
    (count i : Nat) (fuel : Nat) :
    ∀ (j : Nat) (p : α),
      j ≤ (merge_inner_loop REDUCE mb count i fuel j p).1 ∧
      (∀ k, j ≤ k → k < (merge_inner_loop REDUCE mb count i fuel j p).1 →
        (mb k).final_vertex_id = (mb i).final_vertex_id) ∧
      (count - j ≤ fuel → (merge_inner_loop REDUCE mb count i fuel j p).1 < count →
        (mb (merge_inner_loop REDUCE mb count i fuel j p).1).final_vertex_id ≠
          (mb i).final_vertex_id) := by
  induction fuel with
  | zero =>
    intro j p
    rw [merge_inner_loop]
    refine ⟨Nat.le_refl _, fun k h1 h2 => absurd h2 (by omega), fun h1 h2 => absurd h2 (by omega)⟩
  | succ fuel ih =>
    intro j p
    rw [merge_inner_loop]
    by_cases hc : j < count ∧ (mb j).final_vertex_id = (mb i).final_vertex_id
    · rw [if_pos hc]
      obtain ⟨h1, h2, h3⟩ := ih (j + 1) (REDUCE p (mb j).final_partial_value)
      refine ⟨by omega, ?_, fun hf => h3 (by omega)⟩
      intro k hk1 hk2
      by_cases hkj : k = j
      · rw [hkj]
        exact hc.2
      · exact h2 k (by omega) hk2
    · rw [if_neg hc]
      refine ⟨Nat.le_refl _, fun k h1 h2 => absurd h2 (by omega), ?_⟩
      intro _ hlt hfin
      exact hc ⟨hlt, hfin⟩

/-- On a tagged buffer the inner loop keeps what it started with and collects the index of
every entry it passes. -/
theorem merge_inner_loop_tagged {α : Type} (mb : Nat → mergeaccum_t α) (count i : Nat)
    (fuel : Nat) :
    ∀ (j : Nat) (p : List Nat),
      (∀ x, x ∈ p →
        x ∈ (merge_inner_loop (fun a b => a ++ b) (merge_tagged mb) count i fuel j p).2) ∧
      (∀ k, j ≤ k →
        k < (merge_inner_loop (fun a b => a ++ b) (merge_tagged mb) count i fuel j p).1 →
        k ∈ (merge_inner_loop (fun a b => a ++ b) (merge_tagged mb) count i fuel j p).2) := by
  induction fuel with
  | zero =>
    intro j p
    rw [merge_inner_loop]
    exact ⟨fun x hx => hx, fun k h1 h2 => absurd h2 (by omega)⟩
  | succ fuel ih =>
    intro j p
    rw [merge_inner_loop]
    by_cases hc : j < count ∧
        (merge_tagged mb j).final_vertex_id = (merge_tagged mb i).final_vertex_id
    · rw [if_pos hc]
      obtain ⟨h1, h2⟩ := ih (j + 1) (p ++ (merge_tagged mb j).final_partial_value)
      refine ⟨fun x hx => h1 x (List.mem_append_left _ hx), ?_⟩
      intro k hk1 hk2
      by_cases hkj : k = j
      · rw [hkj]
        exact h1 j (List.mem_append_right _ (List.mem_singleton.2 rfl))
      · exact h2 k (by omega) hk2
    · rw [if_neg hc]
      exact ⟨fun x hx => hx, fun k h1 h2 => absurd h2 (by omega)⟩

/-- Frame: the outer loop started at `i` writes only accumulators of final vertices of
entries from `i` on. -/
theorem merge_outer_loop_frame_from {α : Type} (REDUCE : α → α → α)
    (mb : Nat → mergeaccum_t α) (count : Nat) (v : Nat) (fuel : Nat) :
    ∀ (i : Nat) (acc : Nat → α), (∀ k, i ≤ k → k < count → (mb k).final_vertex_id ≠ v) →
      merge_outer_loop REDUCE mb count fuel i acc v = acc v := by
  induction fuel with
  | zero => intro i acc _; rfl
  | succ fuel ih =>
    intro i acc hv
    rw [merge_outer_loop]
    by_cases hc : i < count ∧ (mb i).initial_vertex_id &&& 0x8000000000000000 = 0
    · rw [if_pos hc]
      have hge := (merge_inner_loop_index REDUCE mb count i (count - (i + 1)) (i + 1)
        (mb i).final_partial_value).1
      rw [ih _ _ (fun k hk1 hk2 => hv k (by omega) hk2),
        Function.update_noteq (fun h => hv i (Nat.le_refl _) hc.1 h.symm)]
    · rw [if_neg hc]

theorem merge_outer_loop_tagged {α : Type} (mb : Nat → mergeaccum_t α) (count i : Nat)
    (hi : i < count)
    (hadj : ∀ c, c < count → ∀ a, a ≤ c →
      (mb a).final_vertex_id = (mb c).final_vertex_id →
      ∀ b, b ≤ c → a ≤ b → (mb b).final_vertex_id = (mb a).final_vertex_id)
    (fuel : Nat) :
    ∀ (s : Nat) (acc : Nat → List Nat), count - s ≤ fuel → s ≤ i →
      (s = 0 ∨ (mb (s - 1)).final_vertex_id ≠ (mb s).final_vertex_id) →
      (∀ k, s ≤ k → k ≤ i →
        (k = 0 ∨ (mb (k - 1)).final_vertex_id ≠ (mb k).final_vertex_id) →
        (mb k).initial_vertex_id &&& 0x8000000000000000 = 0) →
      i ∈ merge_outer_loop (fun a b => a ++ b) (merge_tagged mb) count fuel s acc
        (mb i).final_vertex_id := by
  induction fuel with
  | zero =>
    intro s acc hf hs _ _
    omega
  | succ fuel ih =>
    intro s acc hf hs hstart hclear
    have hc : s < count ∧ (merge_tagged mb s).initial_vertex_id &&& 0x8000000000000000 = 0 :=
      ⟨by omega, hclear s (Nat.le_refl _) hs hstart⟩
    rw [merge_outer_loop, if_pos hc]
    obtain ⟨hge, hsame, hstop⟩ := merge_inner_loop_index (fun a b => a ++ b) (merge_tagged mb)
      count s (count - (s + 1)) (s + 1) (merge_tagged mb s).final_partial_value
    obtain ⟨hkeep, hcollect⟩ := merge_inner_loop_tagged mb count s (count - (s + 1)) (s + 1)
      (merge_tagged mb s).final_partial_value
    generalize merge_inner_loop (fun a b => a ++ b) (merge_tagged mb) count s (count - (s + 1))
      (s + 1) (merge_tagged mb s).final_partial_value = r at hge hsame hstop hkeep hcollect ⊢
    by_cases hir : i < r.1
    · have hfin : (mb i).final_vertex_id = (mb s).final_vertex_id := by
        by_cases his : i = s
        · rw [his]
        · exact hsame i (by omega) hir
      have hmem : i ∈ r.2 := by
        by_cases his : i = s
        · rw [his]
          exact hkeep s (List.mem_singleton.2 rfl)
        · exact hcollect i (by omega) hir
      rw [hfin, merge_outer_loop_frame_from, show (merge_tagged mb s).final_vertex_id =
        (mb s).final_vertex_id from rfl, Function.update_same]
      · split_ifs
        · exact List.mem_append_left _ hmem
        · exact hmem
      · intro k hk1 hk2 hk3
        have h1 : r.1 < count := by omega
        have h2 := hstop (Nat.le_refl _) h1
        exact h2 (hadj k hk2 s (by omega) hk3.symm r.1 hk1 (by omega))
    · have h1 : r.1 < count := by omega
      have h2 : (mb r.1).final_vertex_id ≠ (mb s).final_vertex_id := hstop (Nat.le_refl _) h1
      have h3 : (mb (r.1 - 1)).final_vertex_id = (mb s).final_vertex_id := by
        by_cases hrs : r.1 - 1 = s
        · rw [hrs]
        · exact hsame (r.1 - 1) (by omega) (by omega)
      exact ih r.1 _ (by omega) (by omega) (Or.inr (fun h => h2 (h ▸ h3)))
        (fun k hk1 hk2 => hclear k (by omega) hk2)

/-- On a tagged buffer the inner loop collects only indices below the entry at which it
stops. -/
theorem merge_inner_loop_tagged_lt {α : Type} (mb : Nat → mergeaccum_t α) (count i : Nat)
    (fuel : Nat) :
    ∀ (j : Nat) (p : List Nat), (∀ x, x ∈ p → x < j) →
      ∀ x, x ∈ (merge_inner_loop (fun a b => a ++ b) (merge_tagged mb) count i fuel j p).2 →
        x < (merge_inner_loop (fun a b => a ++ b) (merge_tagged mb) count i fuel j p).1 := by
  induction fuel with
  | zero =>
    intro j p hp
    rw [merge_inner_loop]
    exact hp
  | succ fuel ih =>
    intro j p hp
    rw [merge_inner_loop]
    by_cases hc : j < count ∧
        (merge_tagged mb j).final_vertex_id = (merge_tagged mb i).final_vertex_id
    · rw [if_pos hc]
      apply ih
      intro x hx
      rcases List.mem_append.1 hx with h | h
      · exact Nat.lt_succ_of_lt (hp x h)
      · rw [List.mem_singleton.1 h]
        exact Nat.lt_succ_self j
    · rw [if_neg hc]
      exact hp

/-- The outer loop does not get past the first entry of a run that is empty: started at or
before such an entry `k`, it folds only entries below `k`. -/
theorem merge_outer_loop_tagged_lt {α : Type} (mb : Nat → mergeaccum_t α) (count k : Nat)
    (hstart : k = 0 ∨ (mb (k - 1)).final_vertex_id ≠ (mb k).final_vertex_id)
    (hsent : ¬ ((mb k).initial_vertex_id &&& 0x8000000000000000 = 0)) (fuel : Nat) :
    ∀ (s : Nat) (acc : Nat → List Nat), s ≤ k → (∀ v x, x ∈ acc v → x < k) →
      ∀ v x, x ∈ merge_outer_loop (fun a b => a ++ b) (merge_tagged mb) count fuel s acc v →
        x < k := by
  induction fuel with
  | zero =>
    intro s acc _ hacc
    exact hacc
  | succ fuel ih =>
    intro s acc hs hacc
    rw [merge_outer_loop]
    by_cases hc : s < count ∧ (merge_tagged mb s).initial_vertex_id &&& 0x8000000000000000 = 0
    · rw [if_pos hc]
      have hsk : s < k := by
        rcases Nat.lt_or_ge s k with h | h
        · exact h
        · have e : s = k := by omega
          rw [e] at hc
          exact absurd hc.2 hsent
      obtain ⟨hge, hsame, _⟩ := merge_inner_loop_index (fun a b => a ++ b) (merge_tagged mb)
        count s (count - (s + 1)) (s + 1) (merge_tagged mb s).final_partial_value
      have hlt := merge_inner_loop_tagged_lt mb count s (count - (s + 1)) (s + 1)
        (merge_tagged mb s).final_partial_value
        (fun x hx => by rw [List.mem_singleton.1 hx]; exact Nat.lt_succ_self s)
      generalize merge_inner_loop (fun a b => a ++ b) (merge_tagged mb) count s
        (count - (s + 1)) (s + 1) (merge_tagged mb s).final_partial_value = r
        at hge hsame hlt ⊢
      have hrk : r.1 ≤ k := by
        rcases Nat.lt_or_ge k r.1 with h | h
        · exfalso
          have h1 : (mb k).final_vertex_id = (mb s).final_vertex_id := hsame k (by omega) h
          have h2 : (mb (k - 1)).final_vertex_id = (mb s).final_vertex_id := by
            by_cases hks : k - 1 = s
            · rw [hks]
            · exact hsame (k - 1) (by omega) (by omega)
          rcases hstart with h0 | h0
          · omega
          · exact h0 (h2.trans h1.symm)
        · exact h
      apply ih r.1 _ hrk
      intro v x hx
      by_cases hv : v = (merge_tagged mb s).final_vertex_id
      · rw [hv, Function.update_same] at hx
        have hr2 : ∀ y, y ∈ r.2 → y < k := fun y hy => Nat.lt_of_lt_of_le (hlt y hy) hrk
        split_ifs at hx
        · rcases List.mem_append.1 hx with h | h
          · exact hr2 x h
          · exact hacc _ x h
        · exact hr2 x hx
      · rw [Function.update_noteq hv] at hx
        exact hacc v x hx
    · rw [if_neg hc]
      exact hacc

/-- Claim C23, amended.  A run is a maximal block of adjacent entries with the same
`final_vertex_id`; entry `k` begins a run when `k = 0` or entry `k - 1` has another final
vertex.  In a merge buffer in which entries with the same final vertex are adjacent,
`edge_pull_op_merge_with_merge_buffer` folds the partial value of entry `i` into the
accumulator of the final vertex of entry `i` if and only if no run up to and including the
run of entry `i` begins with an empty entry (an entry with the sentinel bit in
`initial_vertex_id`).  The sentinel bit of an entry inside a run plays no part. -/
theorem C23_merge_reconciles_runs {α : Type} (merge_buffer : Nat → mergeaccum_t α)
    (count i : Nat) (hi : i < count)
    (hadj : ∀ c, c < count → ∀ a, a ≤ c →
      (merge_buffer a).final_vertex_id = (merge_buffer c).final_vertex_id →
      ∀ b, b ≤ c → a ≤ b →
        (merge_buffer b).final_vertex_id = (merge_buffer a).final_vertex_id) :
    i ∈ merge_folded_into merge_buffer count (merge_buffer i).final_vertex_id ↔
      ∀ k, k ≤ i →
        (k = 0 ∨ (merge_buffer (k - 1)).final_vertex_id ≠ (merge_buffer k).final_vertex_id) →
        (merge_buffer k).initial_vertex_id &&& 0x8000000000000000 = 0 := by
  unfold merge_folded_into edge_pull_op_merge_with_merge_buffer
  constructor
  · intro hmem k hk hstart
    by_contra hsent
    have hlt := merge_outer_loop_tagged_lt merge_buffer count k hstart hsent count 0
      (fun _ => []) (Nat.zero_le _) (fun v x hx => absurd hx (List.not_mem_nil x)) _ i hmem
    omega
  · intro hclear
    exact merge_outer_loop_tagged merge_buffer count i hi hadj count 0 _ (by omega)
      (Nat.zero_le _) (Or.inl rfl) (fun k _ hk => hclear k hk)

theorem C23_merge_reconciles_runs_witness :
    2 < 3 ∧
    (∀ c, c < 3 → ∀ a, a ≤ c →
      (merge_inner_gap_buffer a).final_vertex_id = (merge_inner_gap_buffer c).final_vertex_id →
      ∀ b, b ≤ c → a ≤ b →
        (merge_inner_gap_buffer b).final_vertex_id =
          (merge_inner_gap_buffer a).final_vertex_id) ∧
    ¬ ((merge_inner_gap_buffer 1).initial_vertex_id &&& 0x8000000000000000 = 0) ∧
    2 ∈ merge_folded_into merge_inner_gap_buffer 3 (merge_inner_gap_buffer 2).final_vertex_id ∧
    1 ∈ merge_folded_into merge_inner_gap_buffer 3 (merge_inner_gap_buffer 1).final_vertex_id :=
  ⟨by decide, by decide, by decide,
    (C23_merge_reconciles_runs merge_inner_gap_buffer 3 2 (by decide) (by decide)).2
      (by decide),
    (C23_merge_reconciles_runs merge_inner_gap_buffer 3 1 (by decide) (by decide)).2
      (by decide)⟩

/-- Claim C23 as stated fails.  In a buffer of two entries whose first entry is empty, entry 1
lacks the sentinel bit and ends on vertex 5, but nothing is folded into the accumulator of
vertex 5: the scan stops at entry 0, which begins a run and is empty.  In a buffer without
empty entries in which the entries 0 and 2 end on vertex 5 and entry 1 ends on vertex 7, the
value of entry 0 is overwritten: only entry 2 is folded into the accumulator of vertex 5. -/
theorem C23_counterexample :
    ((merge_gap_buffer 1).initial_vertex_id &&& 0x8000000000000000 = 0 ∧
      (merge_gap_buffer 1).final_vertex_id = 5 ∧
      1 ∉ merge_folded_into merge_gap_buffer 2 5 ∧
      edge_pull_op_merge_with_merge_buffer (fun a b : Nat => a + b) merge_gap_buffer 2
        (fun _ => 0) 5 = 0) ∧
    ((∀ k, k < 3 → (merge_split_buffer k).initial_vertex_id &&& 0x8000000000000000 = 0) ∧
      (merge_split_buffer 0).final_vertex_id = 5 ∧
      0 ∉ merge_folded_into merge_split_buffer 3 5 ∧
      edge_pull_op_merge_with_merge_buffer (fun a b : Nat => a + b) merge_split_buffer 3
        (fun _ => 0) 5 = 30) := by
  decide


/-! ## Theorems: the sentinels of the vertex index -/

/-- The index array that `graph_helper_create_vertex_index` returns: the top fill above the
last shared endpoint, and below it the array the main loop leaves, which satisfies the loop
invariant at the end of the slab. -/
theorem create_vertex_index_buf (slab : List EdgeVector) (idx0 : Nat → Nat)
    (vertex_buf_count : Nat) (hC : 1 ≤ slab.length) (hv64 : vertex_buf_count < 2 ^ 64)
    (hsorted : ∀ j < slab.length, ∀ i ≤ j, shared_at slab i ≤ shared_at slab j) :
    ∃ s : Nat × Nat × (Nat → Nat), IndexInv slab slab.length s ∧
      (graph_helper_create_vertex_index slab slab.length idx0
        vertex_buf_count).vertex_index_end = shared_at slab (slab.length - 1) ∧
      ∀ v, (graph_helper_create_vertex_index slab slab.length idx0
          vertex_buf_count).vertex_index_buf v =
        if shared_at slab (slab.length - 1) + 1 ≤ v ∧ v < vertex_buf_count then
          0xffffffffffffffff
        else s.2.2 v := by
  have hinv := index_loop_inv slab (slab.length - 1) 1 _ (Nat.le_refl 1)
    (fun j hj i hi => hsorted j (by omega) i hi) (index_inv_init slab idx0)
  have e : 1 + (slab.length - 1) = slab.length := by omega
  rw [e] at hinv
  refine ⟨_, hinv, ?_, ?_⟩
  · unfold graph_helper_create_vertex_index
    exact hinv.2.1
  · intro v
    have h2 := hinv.2.1
    have hl := shared_at_lt slab (slab.length - 1)
    have em : (shared_at slab (slab.length - 1) + 1) % 2 ^ 64 =
        shared_at slab (slab.length - 1) + 1 := by omega
    unfold graph_helper_create_vertex_index
    dsimp only
    rw [h2, em]
    by_cases hvb : shared_at slab (slab.length - 1) + 1 ≤ vertex_buf_count
    · rw [fill_loop_eq _ _ _ _ (by omega)]
      dsimp only
      by_cases c : shared_at slab (slab.length - 1) + 1 ≤ v ∧ v < vertex_buf_count
      · have c2 : shared_at slab (slab.length - 1) + 1 ≤ v ∧
            v < shared_at slab (slab.length - 1) + 1 +
              (vertex_buf_count - (shared_at slab (slab.length - 1) + 1)) := by omega
        rw [if_pos c, if_pos c2]
      · have c2 : ¬ (shared_at slab (slab.length - 1) + 1 ≤ v ∧
            v < shared_at slab (slab.length - 1) + 1 +
              (vertex_buf_count - (shared_at slab (slab.length - 1) + 1))) := by omega
        rw [if_neg c, if_neg c2]
    · have e0 : vertex_buf_count - (shared_at slab (slab.length - 1) + 1) = 0 := by omega
      rw [e0, fill_loop, if_neg (by omega)]

/-- Claim C24: for a slab of at least one vector whose shared endpoints are in non-decreasing
order and below `vertex_buf_count`, `graph_helper_create_vertex_index` writes
`0x7fffffffffffffff` to the entry of every vertex that does not occur and lies between two
shared endpoints that occur, writes `0xffffffffffffffff` to every entry above the highest
shared endpoint up to `vertex_buf_count - 1`, and records the lowest and the highest shared
endpoint that occur as start and end. -/
theorem C24_index_sentinels (slab : List EdgeVector) (idx0 : Nat → Nat)
    (vertex_buf_count : Nat) (hC : 1 ≤ slab.length) (hv64 : vertex_buf_count < 2 ^ 64)
    (hsorted : ∀ j < slab.length, ∀ i ≤ j, shared_at slab i ≤ shared_at slab j)
    (hbelow : ∀ p < slab.length, shared_at slab p < vertex_buf_count) :
    (∀ v, (∀ p < slab.length, shared_at slab p ≠ v) →
      (∃ p, p < slab.length ∧ shared_at slab p < v) →
      (∃ q, q < slab.length ∧ v < shared_at slab q) →
      (graph_helper_create_vertex_index slab slab.length idx0 vertex_buf_count).vertex_index_buf v
        = 0x7fffffffffffffff) ∧
    (∀ v, (∀ p < slab.length, shared_at slab p < v) → v < vertex_buf_count →
      (graph_helper_create_vertex_index slab slab.length idx0 vertex_buf_count).vertex_index_buf v
        = 0xffffffffffffffff) ∧
    ((∃ p, p < slab.length ∧
        (graph_helper_create_vertex_index slab slab.length idx0
          vertex_buf_count).vertex_index_start = shared_at slab p) ∧
      ∀ q < slab.length,
        (graph_helper_create_vertex_index slab slab.length idx0
          vertex_buf_count).vertex_index_start ≤ shared_at slab q) ∧
    ((∃ p, p < slab.length ∧
        (graph_helper_create_vertex_index slab slab.length idx0
          vertex_buf_count).vertex_index_end = shared_at slab p) ∧
      ∀ q < slab.length, shared_at slab q ≤
        (graph_helper_create_vertex_index slab slab.length idx0
          vertex_buf_count).vertex_index_end) := by
  have _ := hbelow
  obtain ⟨s, ⟨h1, _, h3, _⟩, hend, hbuf⟩ :=
    create_vertex_index_buf slab idx0 vertex_buf_count hC hv64 hsorted
  refine ⟨?_, ?_, ⟨⟨0, by omega, rfl⟩, ?_⟩, ⟨⟨slab.length - 1, by omega, hend⟩, ?_⟩⟩
  · intro v hno _ hq
    obtain ⟨q, hq1, hq2⟩ := hq
    have hq3 := hsorted (slab.length - 1) (by omega) q (by omega)
    rw [hbuf, if_neg (by omega)]
    exact h3 v (by omega) hno
  · intro v hv hvb
    have := hv (slab.length - 1) (by omega)
    rw [hbuf, if_pos ⟨by omega, hvb⟩]
  · intro q hq
    exact hsorted q hq 0 (Nat.zero_le _)
  · intro q hq
    rw [hend]
    exact hsorted (slab.length - 1) (by omega) q (by omega)

theorem C24_index_sentinels_witness :
    (1 ≤ index_example_slab.length ∧ 10 < 2 ^ 64 ∧
      (∀ j < index_example_slab.length, ∀ i ≤ j,
        shared_at index_example_slab i ≤ shared_at index_example_slab j) ∧
      (∀ p < index_example_slab.length, shared_at index_example_slab p < 10)) ∧
    (∀ v, (∀ p < index_example_slab.length, shared_at index_example_slab p < v) → v < 10 →
      (graph_helper_create_vertex_index index_example_slab index_example_slab.length
        (fun _ => 0) 10).vertex_index_buf v = 0xffffffffffffffff) :=
  ⟨⟨by decide, by decide, by decide, by decide⟩,
    (C24_index_sentinels index_example_slab (fun _ => 0) 10 (by decide) (by decide)
      (by decide) (by decide)).2.1⟩

/-- Claim C25, amended: for every vertex below `num_vertices` that is not a shared endpoint of
the slab, the entry of the index built by `graph_helper_create_vertex_index` is a sentinel:
`0xffffffffffffffff`, with bit 63 set, when the vertex is above the highest shared endpoint
of the slab, and `0x7fffffffffffffff`, with bit 63 clear, when it is below.  The index has
`num_vertices + 64` entries, as the callers allocate it. -/
theorem C25_index_sentinel_bit (slab : List EdgeVector) (idx0 : Nat → Nat)
    (num_vertices : Nat) (hC : 1 ≤ slab.length) (hv64 : num_vertices + 64 < 2 ^ 64)
    (hsorted : ∀ j < slab.length, ∀ i ≤ j, shared_at slab i ≤ shared_at slab j)
    (v : Nat) (hv : v < num_vertices) (hno : ∀ p < slab.length, shared_at slab p ≠ v) :
    (shared_at slab (slab.length - 1) < v →
      (graph_helper_create_vertex_index slab slab.length idx0
          (num_vertices + 64)).vertex_index_buf v = 0xffffffffffffffff ∧
        ((graph_helper_create_vertex_index slab slab.length idx0
          (num_vertices + 64)).vertex_index_buf v).testBit 63 = true) ∧
    (v < shared_at slab (slab.length - 1) →
      (graph_helper_create_vertex_index slab slab.length idx0
          (num_vertices + 64)).vertex_index_buf v = 0x7fffffffffffffff ∧
        ((graph_helper_create_vertex_index slab slab.length idx0
          (num_vertices + 64)).vertex_index_buf v).testBit 63 = false) ∧
    (shared_at slab (slab.length - 1) < v ∨ v < shared_at slab (slab.length - 1)) := by
  obtain ⟨s, ⟨h1, _, h3, _⟩, _, hbuf⟩ :=
    create_vertex_index_buf slab idx0 (num_vertices + 64) hC hv64 hsorted
  refine ⟨?_, ?_, ?_⟩
  · intro h
    rw [hbuf, if_pos ⟨by omega, by omega⟩]
    exact ⟨rfl, by decide⟩
  · intro h
    rw [hbuf, if_neg (by omega), h3 v (by omega) hno]
    exact ⟨rfl, by decide⟩
  · have := hno (slab.length - 1) (by omega)
    omega

theorem C25_index_sentinel_bit_witness :
    (1 ≤ index_example_slab.length ∧ 10 + 64 < 2 ^ 64 ∧
      (∀ j < index_example_slab.length, ∀ i ≤ j,
        shared_at index_example_slab i ≤ shared_at index_example_slab j) ∧
      8 < 10 ∧ (∀ p < index_example_slab.length, shared_at index_example_slab p ≠ 8)) ∧
    (shared_at index_example_slab (index_example_slab.length - 1) < 8 →
      (graph_helper_create_vertex_index index_example_slab index_example_slab.length
          (fun _ => 0) (10 + 64)).vertex_index_buf 8 = 0xffffffffffffffff ∧
        ((graph_helper_create_vertex_index index_example_slab index_example_slab.length
          (fun _ => 0) (10 + 64)).vertex_index_buf 8).testBit 63 = true) :=
  ⟨⟨by decide, by decide, by decide, by decide, by decide⟩,
    (C25_index_sentinel_bit index_example_slab (fun _ => 0) 10 (by decide) (by decide)
      (by decide) 8 (by decide) (by decide)).1⟩

/-- Claim C25 as stated fails: in the index of a slab with the shared endpoints 2, 2, 5, 6 of
a graph of ten vertices, vertex 3 does not occur and its entry is `0x7fffffffffffffff`,
whose bit 63 is clear. -/
theorem C25_counterexample :
    (3 < 10 ∧ ∀ p < index_example_slab.length, shared_at index_example_slab p ≠ 3) ∧
    (graph_helper_create_vertex_index index_example_slab index_example_slab.length
      (fun _ => 0) (10 + 64)).vertex_index_buf 3 = 0x7fffffffffffffff ∧
    ¬ ((graph_helper_create_vertex_index index_example_slab index_example_slab.length
      (fun _ => 0) (10 + 64)).vertex_index_buf 3).testBit 63 = true := by
  decide


/-! ## Theorems: the reduce buffer -/

/-- Claim C26, amended: for every thread count `n` below `2 ^ 32 - 8`, the reduce buffer
size computed by `execution_init_pr` and by `execution_init_bfs` is the least multiple of 8
that is greater than `n`; it is `n + 8` when `n` is a multiple of 8. -/
theorem C26_reduce_buffer_size (n : Nat) (hn : n < 2 ^ 32 - 8) :
    (execution_init_pr n).1 = (execution_init_bfs n).1 ∧
    (execution_init_bfs n).1 % 8 = 0 ∧ n < (execution_init_bfs n).1 ∧
    (∀ m, m % 8 = 0 → n < m → (execution_init_bfs n).1 ≤ m) ∧
    (n % 8 = 0 → (execution_init_bfs n).1 = n + 8) ∧
    (execution_init_bfs n).2.length = (execution_init_bfs n).1 := by
  unfold execution_init_pr execution_init_bfs
  dsimp only
  rw [Nat.mod_eq_of_lt (by omega : n + (8 - n % 8) < 2 ^ 32)]
  refine ⟨rfl, by omega, by omega, ?_, ?_, List.length_replicate _ _⟩
  · intro m hm hlt
    omega
  · intro h
    omega

theorem C26_reduce_buffer_size_witness :
    6 < 2 ^ 32 - 8 ∧ (execution_init_bfs 6).1 % 8 = 0 ∧ 6 < (execution_init_bfs 6).1 :=
  ⟨by decide, (C26_reduce_buffer_size 6 (by decide)).2.1, (C26_reduce_buffer_size 6 (by decide)).2.2.1⟩

/-- Claim C26 as stated fails: for eight threads the reduce buffer gets 16 elements, while
the least multiple of 8 that is at least 8 is 8. -/
theorem C26_counterexample :
    (execution_init_pr 8).1 = 16 ∧ (execution_init_bfs 8).1 = 16 ∧
    ¬ (∀ m, m % 8 = 0 → 8 ≤ m → (execution_init_bfs 8).1 ≤ m) := by
  refine ⟨by decide, by decide, ?_⟩
  intro h
  have := h 8 (by decide) (by decide)
  revert this
  decide


/-! ## Theorems: idempotence of the merge under the minimum -/

theorem reduce_min_eq {α : Type} [LinearOrder α] (a b : α) :
    SCALAR_REDUCE_OP_min a b = min a b := by
  unfold SCALAR_REDUCE_OP_min
  by_cases h : a < b
  · rw [if_pos h, min_eq_left (le_of_lt h)]
  · rw [if_neg h, min_eq_right (not_lt.1 h)]

theorem merge_effect_idem {α : Type} [LinearOrder α] (g : α → α) (hg : MergeEffect g) (x : α) :
    g (g x) = g x := by
  rcases hg with h | ⟨c, h⟩ | ⟨m, h⟩
  · rw [h]
    rfl
  · rw [h]
  · rw [h]
    simp only [reduce_min_eq]
    rw [← min_assoc, min_self]

theorem merge_effect_comp {α : Type} [LinearOrder α] (g h : α → α) (hg : MergeEffect g)
    (hh : MergeEffect h) : MergeEffect (fun x => g (h x)) := by
  rcases hg with eg | ⟨c, eg⟩ | ⟨m, eg⟩
  · subst eg
    exact hh
  · subst eg
    exact Or.inr (Or.inl ⟨c, rfl⟩)
  · subst eg
    rcases hh with eh | ⟨c, eh⟩ | ⟨m2, eh⟩
    · subst eh
      exact Or.inr (Or.inr ⟨m, rfl⟩)
    · subst eh
      exact Or.inr (Or.inl ⟨SCALAR_REDUCE_OP_min m c, rfl⟩)
    · subst eh
      refine Or.inr (Or.inr ⟨SCALAR_REDUCE_OP_min m m2, ?_⟩)
      funext x
      simp only [reduce_min_eq]
      rw [min_assoc]

/-- With the minimum as operator, the outer loop acts on every accumulator separately, by a
function that does not depend on the accumulator array. -/
theorem merge_outer_loop_effect {α : Type} [LinearOrder α] (mb : Nat → mergeaccum_t α)
    (count : Nat) (fuel : Nat) :
    ∀ (i : Nat), ∃ F : Nat → α → α, (∀ v, MergeEffect (F v)) ∧
      ∀ acc : Nat → α,
        merge_outer_loop SCALAR_REDUCE_OP_min mb count fuel i acc = fun v => F v (acc v) := by
  induction fuel with
  | zero =>
    intro i
    exact ⟨fun _ => id, fun _ => Or.inl rfl, fun acc => rfl⟩
  | succ fuel ih =>
    intro i
    by_cases hc : i < count ∧ (mb i).initial_vertex_id &&& 0x8000000000000000 = 0
    · generalize hr : merge_inner_loop SCALAR_REDUCE_OP_min mb count i (count - (i + 1))
        (i + 1) (mb i).final_partial_value = r
      obtain ⟨F, hF1, hF2⟩ := ih r.1
      by_cases hov : r.1 < count ∧ (mb r.1).initial_vertex_id = (mb i).final_vertex_id
      · refine ⟨fun v => fun x => F v ((if v = (mb i).final_vertex_id then
          (fun y => SCALAR_REDUCE_OP_min r.2 y) else id) x), ?_, ?_⟩
        · intro v
          apply merge_effect_comp _ _ (hF1 v)
          by_cases hv : v = (mb i).final_vertex_id
          · rw [if_pos hv]
            exact Or.inr (Or.inr ⟨r.2, rfl⟩)
          · rw [if_neg hv]
            exact Or.inl rfl
        · intro acc
          rw [merge_outer_loop, if_pos hc, hr]
          dsimp only
          rw [if_pos hov, hF2]
          funext v
          by_cases hv : v = (mb i).final_vertex_id
          · rw [if_pos hv, hv, Function.update_same, hov.2]
          · rw [if_neg hv, Function.update_noteq hv]
            rfl
      · refine ⟨fun v => fun x => F v ((if v = (mb i).final_vertex_id then
          (fun _ => r.2) else id) x), ?_, ?_⟩
        · intro v
          apply merge_effect_comp _ _ (hF1 v)
          by_cases hv : v = (mb i).final_vertex_id
          · rw [if_pos hv]
            exact Or.inr (Or.inl ⟨r.2, rfl⟩)
          · rw [if_neg hv]
            exact Or.inl rfl
        · intro acc
          rw [merge_outer_loop, if_pos hc, hr]
          dsimp only
          rw [if_neg hov, hF2]
          funext v
          by_cases hv : v = (mb i).final_vertex_id
          · rw [if_pos hv, hv, Function.update_same]
          · rw [if_neg hv, Function.update_noteq hv]
            rfl
    · refine ⟨fun _ => id, fun _ => Or.inl rfl, ?_⟩
      intro acc
      rw [merge_outer_loop, if_neg hc]
      rfl

/-- Claim C27: with the minimum over a total order as `SCALAR_REDUCE_OP`, as in the
breadth-first search and connected components builds, `edge_pull_op_merge_with_merge_buffer`
is idempotent: for every merge buffer, every count and every accumulator array, running the
merge on the result of the merge gives the result of the first run. -/
theorem C27_merge_idempotent {α : Type} [LinearOrder α] (merge_buffer : Nat → mergeaccum_t α)
    (count : Nat) (vertex_accumulators : Nat → α) :
    edge_pull_op_merge_with_merge_buffer SCALAR_REDUCE_OP_min merge_buffer count
        (edge_pull_op_merge_with_merge_buffer SCALAR_REDUCE_OP_min merge_buffer count
          vertex_accumulators) =
      edge_pull_op_merge_with_merge_buffer SCALAR_REDUCE_OP_min merge_buffer count
        vertex_accumulators := by
  unfold edge_pull_op_merge_with_merge_buffer
  obtain ⟨F, hF1, hF2⟩ := merge_outer_loop_effect merge_buffer count count 0
  rw [hF2, hF2]
  funext v
  exact merge_effect_idem (F v) (hF1 v) _


/-! ## Theorems: the gather list decodes to the input -/

theorem lane_individual (x : Nat) (ids : Nat → Nat) (count k : Nat) (hid : ids k < 2 ^ 48) :
    edge_vector_lane x ids count k &&& 0x0000ffffffffffff = ids k := by
  have em : (0x0000ffffffffffff : Nat) = 2 ^ 48 - 1 := by decide
  rw [em, Nat.and_pow_two_sub_one_eq_mod]
  unfold edge_vector_lane
  apply Nat.eq_of_testBit_eq
  intro i
  rw [Nat.testBit_mod_two_pow]
  by_cases hi : i < 48
  · simp only [hi, decide_True, Bool.true_and, Nat.testBit_or, Nat.testBit_mod_two_pow,
      Nat.testBit_shiftLeft]
    have h1 : ¬ (i ≥ 63) := by omega
    have h2 : ¬ (i ≥ 48) := by omega
    simp only [h1, h2, decide_False, Bool.false_and, Bool.and_false, Bool.false_or]
  · simp only [hi, decide_False, Bool.false_and]
    exact (testBit_false_of_lt_of_le hid (by omega)).symm

theorem write_edges_of_compose (d : Nat) (ids : Nat → Nat) (c : Nat) (hd : d < 2 ^ 48)
    (hids : ∀ k < 4, ids k < 2 ^ 48) (hc : c ≤ 4) :
    write_edges_of_record (compose_edge_vector d ids c) =
      (List.range c).map (fun k => (ids k, d)) := by
  have h63 : ∀ k < 4, ids k < 2 ^ 63 := fun k hk =>
    Nat.lt_of_lt_of_le (hids k hk) (Nat.pow_le_pow_right (by norm_num) (by norm_num))
  have v0 := lane_valid_iff d ids c 0 (h63 0 (by norm_num))
  have v1 := lane_valid_iff d ids c 1 (h63 1 (by norm_num))
  have v2 := lane_valid_iff d ids c 2 (h63 2 (by norm_num))
  have v3 := lane_valid_iff d ids c 3 (h63 3 (by norm_num))
  have i0 := lane_individual d ids c 0 (hids 0 (by norm_num))
  have i1 := lane_individual d ids c 1 (hids 1 (by norm_num))
  have i2 := lane_individual d ids c 2 (hids 2 (by norm_num))
  have i3 := lane_individual d ids c 3 (hids 3 (by norm_num))
  unfold write_edges_of_record
  rw [get_shared_compose d ids c hd hids]
  have l0 : (compose_edge_vector d ids c).lane0 = edge_vector_lane d ids c 0 := rfl
  have l1 : (compose_edge_vector d ids c).lane1 = edge_vector_lane d ids c 1 := rfl
  have l2 : (compose_edge_vector d ids c).lane2 = edge_vector_lane d ids c 2 := rfl
  have l3 : (compose_edge_vector d ids c).lane3 = edge_vector_lane d ids c 3 := rfl
  rw [l0, l1, l2, l3, i0, i1, i2, i3]
  simp only [v0, v1, v2, v3]
  interval_cases c <;> simp [List.range_succ]

theorem gather_fold_decode (edges : List (Nat × Nat)) :
    ∀ s : IngressState × Stash, s.2.count ≤ 4 → (∀ k < 4, s.2.ids k < 2 ^ 48) →
      s.2.shared < 2 ^ 48 → (∀ e ∈ edges, e.1 < 2 ^ 48 ∧ e.2 < 2 ^ 48) →
      (edges.foldl gather_consume_edge s).2.count ≤ 4 ∧
      (∀ k < 4, (edges.foldl gather_consume_edge s).2.ids k < 2 ^ 48) ∧
      (edges.foldl gather_consume_edge s).2.shared < 2 ^ 48 ∧
      (edges.foldl gather_consume_edge s).1.graph_edge_list_block_bufs.flatMap
          write_edges_of_record ++ stash_edges (edges.foldl gather_consume_edge s).2 =
        s.1.graph_edge_list_block_bufs.flatMap write_edges_of_record ++ stash_edges s.2 ++
          edges := by
  induction edges with
  | nil =>
    intro s hc hids hsh _
    rw [List.foldl_nil, List.append_nil]
    exact ⟨hc, hids, hsh, rfl⟩
  | cons e es ih =>
    intro s hc hids hsh hes
    have he := hes e (List.mem_cons_self _ _)
    have hes2 : ∀ x ∈ es, x.1 < 2 ^ 48 ∧ x.2 < 2 ^ 48 :=
      fun x hx => hes x (List.mem_cons_of_mem _ hx)
    rw [List.foldl_cons]
    by_cases hf : (0 ≠ s.2.count ∧ s.2.shared ≠ e.2) ∨ 4 = s.2.count
    · rw [gather_consume_edge_flush s e hf]
      obtain ⟨r1, r2, r3, r4⟩ := ih
        (graph_helper_write_edge_vector s.1 s.2.shared s.2.ids s.2.count 0,
          { shared := e.2, ids := Function.update s.2.ids 0 e.1, count := 0 + 1 })
        (by norm_num) (update_lt_of_lt s.2.ids 0 e.1 (2 ^ 48) hids he.1) he.2 hes2
      refine ⟨r1, r2, r3, r4.trans ?_⟩
      unfold graph_helper_write_edge_vector stash_edges
      dsimp only
      rw [List.flatMap_append, List.flatMap_cons, List.flatMap_nil, List.append_nil,
        write_edges_of_compose s.2.shared s.2.ids s.2.count hsh hids hc]
      simp [List.range_succ]
    · rw [gather_consume_edge_keep s e hf]
      have hc4 : s.2.count < 4 := by
        have : ¬ 4 = s.2.count := fun h => hf (Or.inr h)
        omega
      obtain ⟨r1, r2, r3, r4⟩ := ih
        (s.1, { shared := e.2, ids := Function.update s.2.ids s.2.count e.1,
                count := s.2.count + 1 })
        (by dsimp only; omega) (update_lt_of_lt s.2.ids s.2.count e.1 (2 ^ 48) hids he.1)
        he.2 hes2
      refine ⟨r1, r2, r3, r4.trans ?_⟩
      unfold stash_edges
      dsimp only
      have hmap : (List.range s.2.count).map
          (fun k => (Function.update s.2.ids s.2.count e.1 k, e.2)) =
          (List.range s.2.count).map (fun k => (s.2.ids k, s.2.shared)) := by
        apply List.map_congr_left
        intro k hk
        have hk2 : k < s.2.count := List.mem_range.1 hk
        have hne : k ≠ s.2.count := by omega
        rw [Function.update_noteq hne]
        have hsame : s.2.shared = e.2 := by
          by_contra hcon
          exact hf (Or.inl ⟨by omega, hcon⟩)
        rw [hsame]
      rw [List.range_succ, List.map_append, hmap, List.map_singleton, Function.update_same]
      simp only [List.append_assoc, List.singleton_append]

theorem gather_list_decode (edges : List (Nat × Nat))
    (h : ∀ e ∈ edges, e.1 < 2 ^ 48 ∧ e.2 < 2 ^ 48) :
    (gather_list edges).flatMap write_edges_of_record = edges := by
  obtain ⟨r1, r2, r3, r4⟩ := gather_fold_decode edges (IngressState.init, Stash.init)
    (by decide) (fun _ _ => (by decide : (0 : Nat) < 2 ^ 48)) (by decide) h
  unfold gather_list graph_helper_gather_list_file_buf_consumer_edge_list
    graph_helper_write_final_edge_vector graph_helper_write_edge_vector
  dsimp only
  rw [List.flatMap_append, List.flatMap_cons, List.flatMap_nil, List.append_nil,
    write_edges_of_compose _ _ _ r3 r2 r1]
  exact r4

/-- Claim C28: for every input edge sequence with all vertex IDs below `2 ^ 48` and every
node count `N ≥ 1`, the edge lines that `graph_data_write_to_file` prints from the per-node
gather slabs, node by node and within a vector lane by lane, are exactly the input sequence
of `(src, dst)` records, in the original order. -/
theorem C28_gather_slabs_decode (edges : List (Nat × Nat)) (N nv ne : Nat) (a0 : NumaEdgeLists)
    (hids : ∀ e ∈ edges, e.1 < 2 ^ 48 ∧ e.2 < 2 ^ 48) (hN : 1 ≤ N) (hN32 : N < 2 ^ 32)
    (hVN : (gather_list edges).length * N < 2 ^ 64) :
    (graph_data_write_to_file nv ne N
      (graph_helper_numaize_gather N (gather_list edges) a0)).2.2 = edges := by
  unfold graph_data_write_to_file graph_helper_write_edges_to_file
  dsimp only
  have hsl : ∀ i ∈ List.range N,
      ((graph_helper_numaize_gather N (gather_list edges) a0).block_bufs_numa i).take
          ((graph_helper_numaize_gather N (gather_list edges) a0).block_counts_numa i) =
        ((gather_list edges).drop ((gather_list edges).length * i / N)).take
          ((gather_list edges).length * (i + 1) / N - (gather_list edges).length * i / N) := by
    intro i hi
    exact (gather_slab_eq (gather_list edges) N a0 i (List.mem_range.1 hi) hN32 hVN).1
  have hmap : (List.range N).flatMap (fun i =>
      (((graph_helper_numaize_gather N (gather_list edges) a0).block_bufs_numa i).take
        ((graph_helper_numaize_gather N (gather_list edges) a0).block_counts_numa
          i)).flatMap write_edges_of_record) =
      ((List.range N).flatMap (fun i =>
        ((gather_list edges).drop ((gather_list edges).length * i / N)).take
          ((gather_list edges).length * (i + 1) / N -
            (gather_list edges).length * i / N))).flatMap write_edges_of_record := by
    rw [List.flatMap_assoc]
    apply List.flatMap_congr
    intro i hi
    rw [hsl i hi]
  rw [hmap, slices_flatMap, Nat.mul_div_cancel _ (by omega : 0 < N), List.take_length]
  exact gather_list_decode edges hids

theorem C28_gather_slabs_decode_witness :
    (∀ e ∈ [(1, 3), (2, 3), (0, 7), (4, 7), (5, 7), (6, 7), (8, 7), (9, 9)],
      e.1 < 2 ^ 48 ∧ e.2 < 2 ^ 48) ∧
    1 ≤ 2 ∧ 2 < 2 ^ 32 ∧
    (gather_list [(1, 3), (2, 3), (0, 7), (4, 7), (5, 7), (6, 7), (8, 7), (9, 9)]).length * 2
      < 2 ^ 64 ∧
    (graph_data_write_to_file 10 8 2
      (graph_helper_numaize_gather 2
        (gather_list [(1, 3), (2, 3), (0, 7), (4, 7), (5, 7), (6, 7), (8, 7), (9, 9)])
        NumaEdgeLists.blank)).2.2 =
      [(1, 3), (2, 3), (0, 7), (4, 7), (5, 7), (6, 7), (8, 7), (9, 9)] :=
  ⟨by decide, by decide, by decide, by decide,
    C28_gather_slabs_decode [(1, 3), (2, 3), (0, 7), (4, 7), (5, 7), (6, 7), (8, 7), (9, 9)]
      2 10 8 NumaEdgeLists.blank (by decide) (by decide) (by decide) (by decide)⟩


/-! ## Theorems: buffer capacities -/

theorem write_edge_vector_length (st : IngressState) (x : Nat) (ids : Nat → Nat) (c o : Nat) :
    (graph_helper_write_edge_vector st x ids c o).graph_edge_list_block_bufs.length =
      st.graph_edge_list_block_bufs.length + 1 := by
  unfold graph_helper_write_edge_vector
  dsimp only
  rw [List.length_append, List.length_singleton]

theorem gather_fold_length_le (edges : List (Nat × Nat)) :
    ∀ s : IngressState × Stash,
      (edges.foldl gather_consume_edge s).1.graph_edge_list_block_bufs.length ≤
        s.1.graph_edge_list_block_bufs.length + edges.length := by
  induction edges with
  | nil =>
    intro s
    exact Nat.le_refl _
  | cons e es ih =>
    intro s
    rw [List.foldl_cons, List.length_cons]
    refine le_trans (ih _) ?_
    by_cases hf : (0 ≠ s.2.count ∧ s.2.shared ≠ e.2) ∨ 4 = s.2.count
    · rw [gather_consume_edge_flush s e hf]
      dsimp only
      rw [write_edge_vector_length]
      omega
    · rw [gather_consume_edge_keep s e hf]
      dsimp only
      omega

theorem gather_list_length (edges : List (Nat × Nat)) :
    (gather_list edges).length =
      (edges.foldl gather_consume_edge
        (IngressState.init, Stash.init)).1.graph_edge_list_block_bufs.length + 1 := by
  unfold gather_list graph_helper_gather_list_file_buf_consumer_edge_list
    graph_helper_write_final_edge_vector
  dsimp only
  rw [write_edge_vector_length]

/-- The gather consumer writes at most one vector per record, and one vector for an empty
file. -/
theorem gather_list_length_le (edges : List (Nat × Nat)) :
    1 ≤ (gather_list edges).length ∧ (gather_list edges).length ≤ max edges.length 1 := by
  rw [gather_list_length]
  refine ⟨by omega, ?_⟩
  cases edges with
  | nil => exact Nat.le_refl _
  | cons e es =>
    rw [List.foldl_cons, List.length_cons]
    have hk : ¬ ((0 ≠ (IngressState.init, Stash.init).2.count ∧
        (IngressState.init, Stash.init).2.shared ≠ e.2) ∨
        4 = (IngressState.init, Stash.init).2.count) := by
      intro h
      rcases h with h | h
      · exact h.1 rfl
      · cases h
    rw [gather_consume_edge_keep _ e hk]
    have h := gather_fold_length_le es
      ((IngressState.init, Stash.init).1,
        { shared := e.2
          ids := Function.update (IngressState.init, Stash.init).2.ids
            (IngressState.init, Stash.init).2.count e.1
          count := (IngressState.init, Stash.init).2.count + 1 })
    have h0 : (IngressState.init, Stash.init).1.graph_edge_list_block_bufs.length = 0 := rfl
    dsimp only at h ⊢
    rw [h0] at h
    omega

theorem numa_slab_capacity_eq (E N : Nat) (hN : 1 ≤ N) (hEN : 32 * ((E + 1) * N) < 2 ^ 64) :
    numa_slab_capacity E N = E / N + N := by
  have hE1 : E ≤ E * N := Nat.le_mul_of_pos_right E (by omega)
  have hexp : (E + 1) * N = E * N + N := by rw [Nat.add_mul, Nat.one_mul]
  have hdiv : E / N ≤ E := Nat.div_le_self E N
  have h1 : E / N + N < 2 ^ 64 := by omega
  have h2 : 32 * (E / N + N) < 2 ^ 64 := by omega
  unfold numa_slab_capacity
  rw [Nat.mod_eq_of_lt h1, Nat.mod_eq_of_lt h2, Nat.mul_div_cancel_left _ (by norm_num)]

theorem slice_fits_capacity (V E N i : Nat) (hN : 1 ≤ N) (hi : i < N) (hV1 : 1 ≤ V)
    (hV : V ≤ max E 1) (hEN : 32 * ((E + 1) * N) < 2 ^ 64) :
    V * N < 2 ^ 64 ∧ V * (i + 1) / N - V * i / N ≤ numa_slab_capacity E N := by
  have hmax : V ≤ E + 1 := le_trans hV (by omega)
  have hVN : V * N ≤ (E + 1) * N := Nat.mul_le_mul_right N hmax
  refine ⟨by omega, ?_⟩
  rw [numa_slab_capacity_eq E N hN hEN]
  have hb := (slice_size_bounds V N i (by omega)).2
  by_cases hE0 : E = 0
  · subst hE0
    have hV1' : V = 1 := by
      have : max 0 1 = 1 := rfl
      omega
    subst hV1'
    have h1 : 1 * (i + 1) / N ≤ 1 := by
      rw [Nat.one_mul]
      exact Nat.div_le_of_le_mul (by
        have : i + 1 ≤ N := hi
        omega)
    rw [Nat.zero_div]
    clear hb
    generalize 1 * (i + 1) / N = a at h1 ⊢
    generalize 1 * i / N = b
    omega
  · have hVE : V ≤ E := by
      have : max E 1 = E := max_eq_left (by omega)
      omega
    have hdle : V / N ≤ E / N := Nat.div_le_div_right hVE
    generalize V * (i + 1) / N - V * i / N = sl at hb ⊢
    generalize V / N = q at hb hdle
    generalize E / N = r at hdle ⊢
    omega

/-- Claim C29, amended: for every file of `E` edge records and every node count `N ≥ 1` for
which the buffer sizes stay within 64 bits, the number of vectors copied into the gather slab
of node `i`, and into the scatter slab of a node `i > 0`, which is
`V * (i + 1) / N - V * i / N` rounded down termwise for the `V` vectors that the consumer
produced, is at most the number of vectors that fit the buffer allocated for that slab,
`E / N + N`.  The scatter slab of node 0 has the count given by the same expression, but it
is not copied: it stays in the buffer of the scatter build, whatever the capacity of that
buffer. -/
theorem C29_copied_slab_fits_capacity (records : List (Nat × Nat)) (N : Nat)
    (a0 : NumaEdgeLists) (scratch_capacity : Nat) (i : Nat) (hN : 1 ≤ N) (hN32 : N < 2 ^ 32)
    (hEN : 32 * ((records.length + 1) * N) < 2 ^ 64) (hi : i < N) :
    ((graph_helper_numaize_gather N (gather_list records) a0).block_counts_numa i =
        (gather_list records).length * (i + 1) / N - (gather_list records).length * i / N ∧
      numaize_gather_capacity records.length N i = records.length / N + N ∧
      (graph_helper_numaize_gather N (gather_list records) a0).block_counts_numa i ≤
        numaize_gather_capacity records.length N i) ∧
    ((graph_helper_numaize_scatter N (scatter_list records) a0).block_counts_numa i =
        (scatter_list records).length * (i + 1) / N - (scatter_list records).length * i / N ∧
      (0 < i →
        numaize_scatter_capacity records.length N scratch_capacity i = records.length / N + N ∧
        (graph_helper_numaize_scatter N (scatter_list records) a0).block_counts_numa i ≤
          numaize_scatter_capacity records.length N scratch_capacity i) ∧
      (i = 0 →
        numaize_scatter_capacity records.length N scratch_capacity i = scratch_capacity ∧
        (graph_helper_numaize_scatter N (scatter_list records) a0).block_bufs_numa i =
          scatter_list records)) := by
  have hg := gather_list_length_le records
  have hs := gather_list_length_le (records.map Prod.swap)
  rw [← scatter_list_eq_gather_list, List.length_map] at hs
  obtain ⟨hg1, hg2⟩ := slice_fits_capacity (gather_list records).length records.length N i hN hi
    hg.1 hg.2 hEN
  obtain ⟨hs1, hs2⟩ := slice_fits_capacity (scatter_list records).length records.length N i hN
    hi hs.1 hs.2 hEN
  have cg := (numaize_gather_fold (gather_list records) N a0 N i).2
  have cs := (numaize_scatter_fold (scatter_list records) N a0 N i).2
  have bs := (numaize_scatter_fold (scatter_list records) N a0 N i).1
  rw [if_pos hi, edge_record_count_eq _ N i hi hN32 hg1] at cg
  rw [if_pos hi, edge_record_count_eq _ N i hi hN32 hs1] at cs
  rw [if_pos hi] at bs
  unfold graph_helper_numaize_gather graph_helper_numaize_scatter numaize_gather_capacity
    numaize_scatter_capacity
  rw [cg, cs, bs]
  refine ⟨⟨rfl, numa_slab_capacity_eq _ N hN hEN, hg2⟩, rfl, ?_, ?_⟩
  · intro h0
    rw [if_pos h0]
    exact ⟨numa_slab_capacity_eq _ N hN hEN, hs2⟩
  · intro h0
    rw [if_neg (by omega), if_neg (by omega)]
    exact ⟨rfl, rfl⟩

theorem C29_copied_slab_fits_capacity_witness :
    (1 ≤ 2 ∧ 2 < 2 ^ 32 ∧ 32 * (((star_edges 8).length + 1) * 2) < 2 ^ 64 ∧ 1 < 2) ∧
    (graph_helper_numaize_gather 2 (gather_list (star_edges 8))
        NumaEdgeLists.blank).block_counts_numa 1 ≤
      numaize_gather_capacity (star_edges 8).length 2 1 ∧
    (graph_helper_numaize_scatter 2 (scatter_list (star_edges 8))
        NumaEdgeLists.blank).block_counts_numa 1 ≤
      numaize_scatter_capacity (star_edges 8).length 2
        (scatter_scratch_capacity (gather_list (star_edges 8)).length) 1 :=
  ⟨⟨by decide, by decide, by decide, by decide⟩,
    (C29_copied_slab_fits_capacity (star_edges 8) 2 NumaEdgeLists.blank
      (scatter_scratch_capacity (gather_list (star_edges 8)).length) 1 (by decide) (by decide)
      (by decide) (by decide)).1.2.2,
    ((C29_copied_slab_fits_capacity (star_edges 8) 2 NumaEdgeLists.blank
      (scatter_scratch_capacity (gather_list (star_edges 8)).length) 1 (by decide) (by decide)
      (by decide) (by decide)).2.2.1 (by decide)).2⟩


theorem gather_fold_same_dest (d : Nat) (es : List (Nat × Nat)) :
    ∀ s : IngressState × Stash, (∀ e ∈ es, e.2 = d) → s.2.shared = d → 1 ≤ s.2.count →
      s.2.count ≤ 4 →
      (es.foldl gather_consume_edge s).1.graph_edge_list_block_bufs.length =
        s.1.graph_edge_list_block_bufs.length + (s.2.count + es.length - 1) / 4 := by
  induction es with
  | nil =>
    intro s _ _ h1 h4
    rw [List.foldl_nil, List.length_nil]
    omega
  | cons e es ih =>
    intro s hes hsh h1 h4
    have he := hes e (List.mem_cons_self _ _)
    have hes2 : ∀ x ∈ es, x.2 = d := fun x hx => hes x (List.mem_cons_of_mem _ hx)
    rw [List.foldl_cons, List.length_cons]
    by_cases hf : (0 ≠ s.2.count ∧ s.2.shared ≠ e.2) ∨ 4 = s.2.count
    · have hc4 : s.2.count = 4 := by
        rcases hf with h | h
        · exact absurd (hsh.trans he.symm) h.2
        · exact h.symm
      rw [gather_consume_edge_flush s e hf, ih _ hes2 he (by norm_num) (by norm_num)]
      dsimp only
      rw [write_edge_vector_length, hc4]
      omega
    · have hc4 : s.2.count < 4 := by
        have : ¬ 4 = s.2.count := fun h => hf (Or.inr h)
        omega
      rw [gather_consume_edge_keep s e hf, ih _ hes2 he (by dsimp only; omega)
        (by dsimp only; omega)]
      dsimp only
      omega

theorem gather_fold_rising_dest (m : Nat) :
    ∀ (a : Nat) (s : IngressState × Stash), s.2.shared < a → 1 ≤ s.2.count →
      (((List.range' a m).map (fun k => ((0 : Nat), k))).foldl gather_consume_edge
          s).1.graph_edge_list_block_bufs.length =
        s.1.graph_edge_list_block_bufs.length + m := by
  induction m with
  | zero =>
    intro a s _ _
    rfl
  | succ m ih =>
    intro a s hsh h1
    have hf : (0 ≠ s.2.count ∧ s.2.shared ≠ ((0 : Nat), a).2) ∨ 4 = s.2.count :=
      Or.inl ⟨by omega, by dsimp only; omega⟩
    rw [List.range'_succ, List.map_cons, List.foldl_cons, gather_consume_edge_flush s _ hf,
      ih (a + 1) _ (by dsimp only; omega) (by dsimp only; omega)]
    dsimp only
    rw [write_edge_vector_length]
    omega

theorem gather_first_edge (e : Nat × Nat) :
    gather_consume_edge (IngressState.init, Stash.init) e =
      (IngressState.init,
        { shared := e.2, ids := Function.update Stash.init.ids 0 e.1, count := 0 + 1 }) := by
  have hk : ¬ ((0 ≠ (IngressState.init, Stash.init).2.count ∧
      (IngressState.init, Stash.init).2.shared ≠ e.2) ∨
      4 = (IngressState.init, Stash.init).2.count) := by
    intro h
    rcases h with h | h
    · exact h.1 rfl
    · cases h
  rw [gather_consume_edge_keep _ e hk]
  rfl

/-- The two edge-vector lists of a star of `n ≥ 1` edges into one vertex: the gather list
packs four edges into a vector, the scatter list needs a vector for every edge. -/
theorem star_lists_length (n : Nat) (hn : 1 ≤ n) :
    (gather_list (star_edges n)).length = (n - 1) / 4 + 1 ∧
    (scatter_list (star_edges n)).length = n := by
  obtain ⟨m, rfl⟩ : ∃ m, n = m + 1 := ⟨n - 1, by omega⟩
  constructor
  · rw [gather_list_length]
    unfold star_edges
    rw [List.range'_succ, List.map_cons, List.foldl_cons, gather_first_edge,
      gather_fold_same_dest 0 _ _ (by
        intro e he
        obtain ⟨k, _, hk⟩ := List.mem_map.1 he
        rw [← hk]) rfl (by norm_num) (by norm_num)]
    dsimp only
    rw [List.length_map, List.length_range']
    have h0 : IngressState.init.graph_edge_list_block_bufs.length = 0 := rfl
    rw [h0]
    omega
  · rw [scatter_list_eq_gather_list, gather_list_length]
    unfold star_edges
    rw [List.map_map]
    have hfun : (Prod.swap ∘ fun k : Nat => (k, (0 : Nat))) = fun k => ((0 : Nat), k) := rfl
    rw [hfun, List.range'_succ, List.map_cons, List.foldl_cons, gather_first_edge,
      gather_fold_rising_dest m (1 + 1) _ (by dsimp only; omega) (by dsimp only; omega)]
    have h0 : IngressState.init.graph_edge_list_block_bufs.length = 0 := rfl
    rw [h0]
    omega

/-- Claim C29 as stated fails for the scatter slab of node 0.  For the star of 1000 edges
into vertex 0 on one node, the scatter slab of node 0 has 1000 vectors; the buffer that
holds it is the buffer of the scatter build itself, which has room for 275 vectors and not
for the `E / N + N = 1001` of the claim, and the slab does not fit it. -/
theorem C29_counterexample :
    (graph_helper_numaize_scatter 1 (scatter_list (star_edges 1000))
        NumaEdgeLists.blank).block_bufs_numa 0 = scatter_list (star_edges 1000) ∧
    (graph_helper_numaize_scatter 1 (scatter_list (star_edges 1000))
        NumaEdgeLists.blank).block_counts_numa 0 = 1000 ∧
    numaize_scatter_capacity (star_edges 1000).length 1
        (scatter_scratch_capacity (gather_list (star_edges 1000)).length) 0 = 275 ∧
    (star_edges 1000).length / 1 + 1 = 1001 ∧
    ¬ ((graph_helper_numaize_scatter 1 (scatter_list (star_edges 1000))
        NumaEdgeLists.blank).block_counts_numa 0 ≤
      numaize_scatter_capacity (star_edges 1000).length 1
        (scatter_scratch_capacity (gather_list (star_edges 1000)).length) 0) := by
  obtain ⟨hg, hs⟩ := star_lists_length 1000 (by norm_num)
  have hg2 : (gather_list (star_edges 1000)).length = 250 := hg
  have bs := (numaize_scatter_fold (scatter_list (star_edges 1000)) 1 NumaEdgeLists.blank 1
    0).1
  have cs := (numaize_scatter_fold (scatter_list (star_edges 1000)) 1 NumaEdgeLists.blank 1
    0).2
  rw [if_pos (by norm_num), if_neg (by norm_num)] at bs
  rw [if_pos (by norm_num), edge_record_count_eq _ 1 0 (by norm_num) (by norm_num)
    (by rw [hs]; norm_num), hs] at cs
  have hlen : (star_edges 1000).length = 1000 := by
    unfold star_edges
    rw [List.length_map, List.length_range']
  unfold graph_helper_numaize_scatter
  rw [bs, cs, hg2, hlen]
  refine ⟨rfl, by decide, by decide, by decide, by decide⟩

/-- Claim C30 fails on the code: for the star of 1000 edges into vertex 0, whose pull and push
file hold the same records, the gather list has 250 vectors, so the scratch buffer of the
scatter build has room for 275 vectors, and the scatter consumer writes 1000 vectors to
it. -/
theorem C30_scatter_overflows_scratch :
    (gather_list (star_edges 1000)).length = 250 ∧
    scatter_scratch_capacity (gather_list (star_edges 1000)).length = 275 ∧
    (scatter_list (star_edges 1000)).length = 1000 ∧
    ¬ ((scatter_list (star_edges 1000)).length ≤
      scatter_scratch_capacity (gather_list (star_edges 1000)).length) := by
  obtain ⟨hg, hs⟩ := star_lists_length 1000 (by norm_num)
  have hg2 : (gather_list (star_edges 1000)).length = 250 := hg
  rw [hg2, hs]
  refine ⟨rfl, by decide, rfl, by decide⟩

end Grazelle
